import Mathlib

/-!
# Value coercion of the hessian2 codec (`codec.go`)

The functions of `vendor/github.com/apache/dubbo-go-hessian2/codec.go` work on
`reflect.Value`s.  They are embedded here over an explicit model of the part of
the Go runtime they touch:

* `GoType` / `Kind`: the run-time types (`reflect.Type`) and their kinds;
* `Mem`: the variables of the program, one typed cell per variable; a pointer
  is `nil` or the index of a cell, a slice is `nil` or a run of consecutive
  cells;
* `RValue`: a `reflect.Value`: the zero Value, a value held directly (not
  addressable), or a reference to a variable (addressable), each with the
  read-only flag of Values obtained through unexported fields;
* `Res`: how a call ends: it returns, or it panics (the memory reached is kept
  in both cases).  `Res.stuck` marks a call without outcome: a memory that no
  Go program can reach (a dangling address, a cell whose content does not fit
  its type), or a call that never ends.

Machine integers are mathematical integers wrapped explicitly to their width;
`int` and `uint` are 64 bits wide.  Floating-point numbers are bit patterns and
the two conversions between `float32` and `float64` are parameters (`FloatOps`).

Every addressable Value is a whole variable: the field of a struct or the
element of an array that serves as a destination is a variable of its own, so
that a destination is never a part of the variable another pointer leads to.
The loops over `v.Kind() == reflect.Ptr` run on the pointer depth of the type of
`v`, which bounds their iterations exactly (each `Elem` removes one level).
-/

namespace Hessian

/-! ## Types -/

/-- The kinds of `reflect.Kind` that occur in the model. -/
inductive Kind
  | Invalid | Bool | Int | Int8 | Int16 | Int32 | Int64
  | Uint | Uint8 | Uint16 | Uint32 | Uint64 | Uintptr
  | Float32 | Float64 | Array | Interface | Map | Ptr | Slice | String | Struct
deriving DecidableEq, Repr

/-- Run-time types.  `iface` is the empty interface `interface{}`, `struct` a
struct type known by its name, `named` a defined type over another type
(such as `type Rune rune`).  Every type has finitely many pointer levels: a
defined pointer type that refers to itself (`type P *P`, whose `Elem()` is `P`
again and on which the loops of `UnpackPtrType` and `UnpackType` never exit)
is not a type of the model. -/
inductive GoType
  | bool | int | int8 | int16 | int32 | int64
  | uint | uint8 | uint16 | uint32 | uint64 | uintptr
  | float32 | float64 | string
  | iface
  | struct (name : String)
  | named (name : String) (underlying : GoType)
  | ptr (elem : GoType)
  | slice (elem : GoType)
  | array (len : Nat) (elem : GoType)
  | map (key : GoType) (elem : GoType)
deriving DecidableEq, Repr

/-- Kind of a type, `Type.Kind()`. -/
def GoType.kind : GoType → Kind
  | .bool => .Bool
  | .int => .Int | .int8 => .Int8 | .int16 => .Int16 | .int32 => .Int32 | .int64 => .Int64
  | .uint => .Uint | .uint8 => .Uint8 | .uint16 => .Uint16 | .uint32 => .Uint32
  | .uint64 => .Uint64 | .uintptr => .Uintptr
  | .float32 => .Float32 | .float64 => .Float64
  | .string => .String
  | .iface => .Interface
  | .struct _ => .Struct
  | .named _ u => u.kind
  | .ptr _ => .Ptr
  | .slice _ => .Slice
  | .array _ _ => .Array
  | .map _ _ => .Map

/-- Element type, `Type.Elem()`, defined for pointer, slice, array and map
kinds; `none` is the panic of `Elem` on any other kind. -/
def GoType.elem? : GoType → Option GoType
  | .ptr e => some e
  | .slice e => some e
  | .array _ e => some e
  | .map _ e => some e
  | .named _ u => u.elem?
  | _ => none

/-- Whether the type has a name (predeclared and defined types have one, type
literals do not). -/
def GoType.hasName : GoType → Bool
  | .iface => false
  | .ptr _ => false
  | .slice _ => false
  | .array _ _ => false
  | .map _ _ => false
  | _ => true

/-- Underlying type. -/
def GoType.underlying : GoType → GoType
  | .named _ u => u.underlying
  | t => t

/-- The function `directlyAssignable` of package reflect: identical types, or
identical underlying types when at most one of the two has a name. -/
def directlyAssignable (T V : GoType) : Bool :=
  T == V || (!(T.hasName && V.hasName) && T.kind == V.kind && T.underlying == V.underlying)

/-- The function `implements` of package reflect; every interface type of the
model is empty, so every type implements it. -/
def implements (T : GoType) (_V : GoType) : Bool :=
  T.kind == Kind.Interface

/-- Bit width of the integer kinds. -/
def Kind.bits : Kind → Nat
  | .Int8 => 8 | .Uint8 => 8
  | .Int16 => 16 | .Uint16 => 16
  | .Int32 => 32 | .Uint32 => 32
  | .Int64 => 64 | .Uint64 => 64
  | .Int => 64 | .Uint => 64 | .Uintptr => 64
  | _ => 0

/-! ## Values and memory -/

mutual
/-- Go values.  Integers of every integer kind are `int`; a float is its
IEEE-754 bit pattern (32 or 64 bits wide, after its type); a string is its
bytes.  `structv` is a struct value whose content is abstracted to a tag;
`refl` is a `reflect.Value` held as a Go value and `holder` a `_refHolder`:
its pending destinations, its current value and its resolved flag. -/
inductive GoVal
  | bool (b : Bool)
  | int (x : Int)
  | float (bits : Nat)
  | str (bytes : List Nat)
  | ptr (a : Option Nat)
  | slice (base : Option Nat) (len : Nat)
  | arr (elems : List GoVal)
  | mapv (a : Option Nat)
  | iface (dyn : Option (GoType × GoVal))
  | structv (tag : Nat)
  | refl (v : RValue)
  | holder (destinations : List RValue) (value : RValue) (resolved : Bool)
/-- The model of `reflect.Value`. -/
inductive RValue
  | invalid
  | val (t : GoType) (x : GoVal) (ro : Bool)
  | ref (t : GoType) (a : Nat) (ro : Bool)
end

/-- An interface value `interface{}`: nil, or a dynamic type with a value. -/
abbrev Iface := Option (GoType × GoVal)

/-- A variable: its type and its current value. -/
structure Var where
  typ : GoType
  val : GoVal

/-- The memory: the variables allocated so far, addressed by position. -/
structure Mem where
  vars : List Var

/-- Value of the variable at an address. -/
def Mem.load (m : Mem) (a : Nat) : Option GoVal :=
  (m.vars[a]?).map Var.val

/-- Type of the variable at an address. -/
def Mem.typeAt (m : Mem) (a : Nat) : Option GoType :=
  (m.vars[a]?).map Var.typ

/-- Overwrite the value of the variable at an address. -/
def Mem.store (m : Mem) (a : Nat) (x : GoVal) : Mem :=
  match m.vars[a]? with
  | some v => ⟨m.vars.set a ⟨v.typ, x⟩⟩
  | none => m

/-- Allocate one new variable; its address is returned. -/
def Mem.alloc (m : Mem) (t : GoType) (x : GoVal) : Nat × Mem :=
  (m.vars.length, ⟨m.vars ++ [⟨t, x⟩]⟩)

/-- Allocate `n` consecutive variables with the same content; the address of
the first is returned. -/
def Mem.allocN (m : Mem) (t : GoType) (x : GoVal) (n : Nat) : Nat × Mem :=
  (m.vars.length, ⟨m.vars ++ List.replicate n ⟨t, x⟩⟩)

/-- Zero value of a type. -/
def zeroOf : GoType → GoVal
  | .bool => .bool false
  | .int => .int 0 | .int8 => .int 0 | .int16 => .int 0 | .int32 => .int 0 | .int64 => .int 0
  | .uint => .int 0 | .uint8 => .int 0 | .uint16 => .int 0 | .uint32 => .int 0
  | .uint64 => .int 0 | .uintptr => .int 0
  | .float32 => .float 0 | .float64 => .float 0
  | .string => .str []
  | .iface => .iface none
  | .struct name =>
      if name = "reflect.Value" then .refl .invalid
      else if name = "_refHolder" then .holder [] .invalid false
      else .structv 0
  | .named _ u => zeroOf u
  | .ptr _ => .ptr none
  | .slice _ => .slice none 0
  | .array n e => .arr (List.replicate n (zeroOf e))
  | .map _ _ => .mapv none

/-! ## Outcomes -/

/-- How a call ends. -/
inductive Res (α : Type)
  | ok (a : α) (m : Mem)
  | panic (msg : String) (m : Mem)
  | stuck

/-- Computations over the memory that may panic. -/
def M (α : Type) : Type := Mem → Res α

/-- Sequencing: a panic ends the computation and keeps the memory reached. -/
def M.bind {α β : Type} (x : M α) (f : α → M β) : M β := fun m =>
  match x m with
  | .ok a m1 => f a m1
  | .panic s m1 => .panic s m1
  | .stuck => .stuck

instance : Monad M where
  pure a := fun m => .ok a m
  bind := M.bind

/-- A Go panic. -/
def goPanic {α : Type} (msg : String) : M α := fun m => .panic msg m

/-- A state outside the model, or a call that never ends. -/
def stuck {α : Type} : M α := fun _ => .stuck

/-- Conversions between the two floating-point formats, on bit patterns:
`widen` is `float64(x)` for a `float32` `x`, `narrow` is `float32(x)` for a
`float64` `x`. -/
structure FloatOps where
  widen : Nat → Nat
  narrow : Nat → Nat

/-- Two's-complement wrap of an integer to `w` bits (`int8(x)`, `int16(x)`, ...). -/
def wrapSigned (w : Nat) (x : Int) : Int :=
  (x + 2 ^ (w - 1)) % 2 ^ w - 2 ^ (w - 1)

/-- Wrap of an integer to `w` bits, unsigned (`uint8(x)`, `uint64(x)`, ...). -/
def wrapUnsigned (w : Nat) (x : Int) : Int :=
  x % 2 ^ w

/-! ## The operations of package reflect used by the codec -/

/-- The content of a Value: the value held, or the content of the variable
referred to. -/
def RValue.read (v : RValue) : M GoVal := fun m =>
  match v with
  | .invalid => .stuck
  | .val _ x _ => .ok x m
  | .ref _ a _ =>
    match m.load a with
    | some x => .ok x m
    | none => .stuck

/-- Assignment to an existing variable. -/
def writeVar (a : Nat) (x : GoVal) : M Unit := fun m =>
  match m.vars[a]? with
  | some _ => .ok () (m.store a x)
  | none => .stuck

/-- Method `Value.IsValid`. -/
def RValue.isValid : RValue → Bool
  | .invalid => false
  | _ => true

/-- Method `Value.Kind`; the zero Value has kind `Invalid`. -/
def RValue.kind : RValue → Kind
  | .invalid => .Invalid
  | .val t _ _ => t.kind
  | .ref t _ _ => t.kind

/-- Method `Value.Type`; it panics on the zero Value. -/
def RValue.typ : RValue → M GoType
  | .invalid => goPanic "reflect: call of reflect.Value.Type on zero Value"
  | .val t _ _ => pure t
  | .ref t _ _ => pure t

/-- Method `Value.CanAddr`. -/
def RValue.canAddr : RValue → Bool
  | .ref _ _ _ => true
  | _ => false

/-- Method `Value.CanSet`: addressable and not read-only. -/
def RValue.canSet : RValue → Bool
  | .ref _ _ ro => !ro
  | _ => false

/-- The read-only flag. -/
def RValue.isRO : RValue → Bool
  | .invalid => false
  | .val _ _ ro => ro
  | .ref _ _ ro => ro

/-- The check `mustBeAssignable` of the setters. -/
def RValue.mustBeAssignable : RValue → M Unit
  | .invalid => goPanic "reflect: call of a setter on zero Value"
  | .val _ _ true => goPanic "reflect: setter using value obtained using unexported field"
  | .val _ _ false => goPanic "reflect: setter using unaddressable value"
  | .ref _ _ true => goPanic "reflect: setter using value obtained using unexported field"
  | .ref _ _ false => pure ()

/-- The check `mustBeExported` on the argument of `Set`. -/
def RValue.mustBeExported : RValue → M Unit
  | .invalid => goPanic "reflect: call of reflect.Value.Set on zero Value"
  | .val _ _ true => goPanic "reflect: reflect.Value.Set using value obtained using unexported field"
  | .ref _ _ true => goPanic "reflect: reflect.Value.Set using value obtained using unexported field"
  | _ => pure ()

/-- Method `Value.Elem`: the variable a pointer points to (addressable, the
zero Value for a nil pointer), or the value inside an interface (not
addressable, the zero Value for a nil interface); a panic on other kinds. -/
def RValue.elem (v : RValue) : M RValue :=
  match v with
  | .invalid => goPanic "reflect: call of reflect.Value.Elem on zero Value"
  | .val t _ ro | .ref t _ ro =>
    match t.kind with
    | .Ptr => do
      let x ← v.read
      match x, t.elem? with
      | .ptr none, _ => pure .invalid
      | .ptr (some a), some e => pure (.ref e a ro)
      | _, _ => stuck
    | .Interface => do
      let x ← v.read
      match x with
      | .iface none => pure .invalid
      | .iface (some (dt, y)) => pure (.val dt y ro)
      | _ => stuck
    | _ => goPanic "reflect: call of reflect.Value.Elem on a Value that is neither pointer nor interface"

/-- The conversion `assignTo` inside `Value.Set`: the Go value to store in a
variable of type `dst`, or the panic when the type of `v` is not assignable. -/
def RValue.assignTo (v : RValue) (dst : GoType) : M GoVal :=
  match v with
  | .invalid => stuck
  | .val vt _ _ | .ref vt _ _ =>
    if directlyAssignable dst vt then v.read
    else if implements dst vt then
      if vt.kind == Kind.Interface then v.read
      else do
        let x ← v.read
        pure (.iface (some (vt, x)))
    else goPanic "reflect.Set: value is not assignable to the type of the destination"

/-- Method `Value.Set`. -/
def RValue.set (dest x : RValue) : M Unit := do
  dest.mustBeAssignable
  x.mustBeExported
  match dest with
  | .ref t a _ => do
    let y ← x.assignTo t
    writeVar a y
  | _ => stuck

/-- Method `Value.Int`: the content as `int64`, a panic unless the kind is a
signed integer kind. -/
def RValue.int (v : RValue) : M Int :=
  match v.kind with
  | .Int | .Int8 | .Int16 | .Int32 | .Int64 => do
    match (← v.read) with
    | .int x => pure x
    | _ => stuck
  | _ => goPanic "reflect: call of reflect.Value.Int on a Value that is not a signed integer"

/-- Method `Value.Uint`: the content as `uint64`, a panic unless the kind is
an unsigned integer kind. -/
def RValue.uint (v : RValue) : M Int :=
  match v.kind with
  | .Uint | .Uint8 | .Uint16 | .Uint32 | .Uint64 | .Uintptr => do
    match (← v.read) with
    | .int x => pure x
    | _ => stuck
  | _ => goPanic "reflect: call of reflect.Value.Uint on a Value that is not an unsigned integer"

/-- Method `Value.Float`: the content as `float64`, a panic unless the kind is
a floating-point kind. -/
def RValue.float (fp : FloatOps) (v : RValue) : M Nat :=
  match v.kind with
  | .Float32 => do
    match (← v.read) with
    | .float b => pure (fp.widen b)
    | _ => stuck
  | .Float64 => do
    match (← v.read) with
    | .float b => pure b
    | _ => stuck
  | _ => goPanic "reflect: call of reflect.Value.Float on a Value that is not a float"

/-- Method `Value.String` on a Value of kind `String` (the only use in the
codec, guarded by a test of the kind). -/
def RValue.string (v : RValue) : M (List Nat) :=
  match v.kind with
  | .String => do
    match (← v.read) with
    | .str bs => pure bs
    | _ => stuck
  | _ => stuck

/-- Method `Value.SetInt`: the argument is converted to the width of the
destination. -/
def RValue.setInt (dest : RValue) (x : Int) : M Unit := do
  dest.mustBeAssignable
  match dest with
  | .ref t a _ =>
    match t.kind with
    | .Int | .Int8 | .Int16 | .Int32 | .Int64 => writeVar a (.int (wrapSigned t.kind.bits x))
    | _ => goPanic "reflect: call of reflect.Value.SetInt on a Value that is not a signed integer"
  | _ => stuck

/-- Method `Value.SetUint`. -/
def RValue.setUint (dest : RValue) (x : Int) : M Unit := do
  dest.mustBeAssignable
  match dest with
  | .ref t a _ =>
    match t.kind with
    | .Uint | .Uint8 | .Uint16 | .Uint32 | .Uint64 | .Uintptr =>
      writeVar a (.int (wrapUnsigned t.kind.bits x))
    | _ => goPanic "reflect: call of reflect.Value.SetUint on a Value that is not an unsigned integer"
  | _ => stuck

/-- Method `Value.SetFloat`. -/
def RValue.setFloat (fp : FloatOps) (dest : RValue) (x : Nat) : M Unit := do
  dest.mustBeAssignable
  match dest with
  | .ref t a _ =>
    match t.kind with
    | .Float32 => writeVar a (.float (fp.narrow x))
    | .Float64 => writeVar a (.float x)
    | _ => goPanic "reflect: call of reflect.Value.SetFloat on a Value that is not a float"
  | _ => stuck

/-- Method `Value.Len` for slices, arrays and strings. -/
def RValue.len (v : RValue) : M Nat :=
  match v.kind with
  | .Slice => do
    match (← v.read) with
    | .slice _ n => pure n
    | _ => stuck
  | .Array => do
    match (← v.read) with
    | .arr xs => pure xs.length
    | _ => stuck
  | .String => do
    match (← v.read) with
    | .str bs => pure bs.length
    | _ => stuck
  | _ => goPanic "reflect: call of reflect.Value.Len on a Value without length"

/-- Method `Value.Index` for slices and arrays.  An element of a slice is the
variable of the backing array, addressable; an element of an array is given as
a copy (the codec only reads it). -/
def RValue.index (v : RValue) (i : Nat) : M RValue :=
  match v with
  | .invalid => goPanic "reflect: call of reflect.Value.Index on zero Value"
  | .val t _ ro | .ref t _ ro =>
    match t.kind, t.elem? with
    | .Slice, some e => do
      match (← v.read) with
      | .slice (some base) n =>
        if i < n then pure (.ref e (base + i) ro)
        else goPanic "reflect: slice index out of range"
      | .slice none _ => goPanic "reflect: slice index out of range"
      | _ => stuck
    | .Array, some e => do
      match (← v.read) with
      | .arr xs =>
        match xs[i]? with
        | some x => pure (.val e x ro)
        | none => goPanic "reflect: array index out of range"
      | _ => stuck
    | _, _ => goPanic "reflect: call of reflect.Value.Index on a Value that is neither slice nor array"

/-- Method `Value.Interface`: the value as an `interface{}`; the content itself
when the Value is of interface kind. -/
def RValue.interface (v : RValue) : M Iface :=
  match v with
  | .invalid => goPanic "reflect: call of reflect.Value.Interface on zero Value"
  | .val t _ ro | .ref t _ ro =>
    if ro then goPanic "reflect.Value.Interface: cannot return value obtained from unexported field or method"
    else do
      let x ← v.read
      if t.kind == Kind.Interface then
        match x with
        | .iface d => pure d
        | _ => stuck
      else pure (some (t, x))

/-- The function `reflect.ValueOf`. -/
def ValueOf : Iface → RValue
  | none => .invalid
  | some (t, x) => .val t x false

/-- The function `reflect.New`: a pointer to a new zero variable. -/
def New (t : GoType) : M RValue := fun m =>
  let r := m.alloc t (zeroOf t)
  .ok (.val (.ptr t) (.ptr (some r.1)) false) r.2

/-- The function `reflect.Zero`. -/
def Zero (t : GoType) : RValue :=
  .val t (zeroOf t) false

/-- The function `reflect.MakeSlice` with equal length and capacity. -/
def MakeSlice (t : GoType) (n : Nat) : M RValue :=
  match t.kind, t.elem? with
  | .Slice, some e => fun m =>
    let r := m.allocN e (zeroOf e) n
    .ok (.val t (.slice (some r.1) n) false) r.2
  | _, _ => goPanic "reflect.MakeSlice of non-slice type"

/-- A new variable holding `x`, and the Value of its address
(`vv := x; reflect.ValueOf(&vv)`). -/
def addrOfNew (t : GoType) (x : GoVal) : M RValue := fun m =>
  let r := m.alloc t x
  .ok (.val (.ptr t) (.ptr (some r.1)) false) r.2

/-! ## Declarations of the package that the sources use but do not contain -/

/-- The type `_refHolder` (a struct; its declaration is not among the sources). -/
def _refHolderType : GoType := .struct "_refHolder"

/-- The variable `_refHolderPtrType`, the type `*_refHolder`. -/
def _refHolderPtrType : GoType := .ptr _refHolderType

/-- The type `reflect.Value` itself, for Values boxed in an `interface{}`. -/
def reflectValueType : GoType := .struct "reflect.Value"

/-- The type `Rune` of the package, a defined type over `rune` (`int32`), as the
conversions `Rune(v.Int())` and `Rune(v.String()[0])` show. -/
def Rune : GoType := .named "Rune" .int32

/-- The variable `_typeOfIntPtr`, the type `*int`. -/
def _typeOfIntPtr : GoType := .ptr .int
/-- The variable `_typeOfInt8Ptr`, the type `*int8`. -/
def _typeOfInt8Ptr : GoType := .ptr .int8
/-- The variable `_typeOfInt16Ptr`, the type `*int16`. -/
def _typeOfInt16Ptr : GoType := .ptr .int16
/-- The variable `_typeOfInt32Ptr`, the type `*int32`. -/
def _typeOfInt32Ptr : GoType := .ptr .int32
/-- The variable `_typeOfInt64Ptr`, the type `*int64`. -/
def _typeOfInt64Ptr : GoType := .ptr .int64
/-- The variable `_typeOfUintPtr`, the type `*uint`. -/
def _typeOfUintPtr : GoType := .ptr .uint
/-- The variable `_typeOfUint8Ptr`, the type `*uint8`. -/
def _typeOfUint8Ptr : GoType := .ptr .uint8
/-- The variable `_typeOfUint16Ptr`, the type `*uint16`. -/
def _typeOfUint16Ptr : GoType := .ptr .uint16
/-- The variable `_typeOfUint32Ptr`, the type `*uint32`. -/
def _typeOfUint32Ptr : GoType := .ptr .uint32
/-- The variable `_typeOfUint64Ptr`, the type `*uint64`. -/
def _typeOfUint64Ptr : GoType := .ptr .uint64
/-- The variable `_typeOfFloat32Ptr`, the type `*float32`. -/
def _typeOfFloat32Ptr : GoType := .ptr .float32
/-- The variable `_typeOfFloat64Ptr`, the type `*float64`. -/
def _typeOfFloat64Ptr : GoType := .ptr .float64
/-- The variable `_typeOfRunePtr`, the type `*Rune`. -/
def _typeOfRunePtr : GoType := .ptr Rune

/-- The variable `_zeroValue`: `reflect.ValueOf(_zeroBoolPinter).Elem()`, the
`Elem` of a nil pointer, which is the zero Value. -/
def _zeroValue : RValue := .invalid

/-- The type assertion `x.(*_refHolder)` with the comma-ok form: the pointer
when the dynamic type is `*_refHolder`. -/
def asRefHolder : Iface → Option (Option Nat)
  | some (t, .ptr a) => if t = _refHolderPtrType then some a else none
  | _ => none

/-- The type assertion `x.(reflect.Value)` with the comma-ok form. -/
def asReflectValue : Iface → Option RValue
  | some (t, .refl v) => if t = reflectValueType then some v else none
  | _ => none

/-- The field `value` of the holder `h` points to; a nil pointer panics. -/
def _refHolder.value (h : Option Nat) : M RValue := fun m =>
  match h with
  | none => .panic "runtime error: invalid memory address or nil pointer dereference" m
  | some a =>
    match m.load a with
    | some (.holder _ v _) => .ok v m
    | _ => .stuck

/-- Modelled from the spec: the method `add` of `_refHolder`, which is not
among the sources.  Registering a destination slot with a holder that is not
resolved appends the slot to the holder's ordered list of pending
destinations.  A slot registered after resolution is not queued: it receives
the holder's value immediately, through the coercion `deliver` (the codec
passes `SetValue`, the coercion by which the pending slots are written). -/
def _refHolder.add (deliver : RValue → RValue → M Unit) (h : Option Nat) (dest : RValue) :
    M Unit := fun m =>
  match h with
  | none => .panic "runtime error: invalid memory address or nil pointer dereference" m
  | some a =>
    match m.load a with
    | some (.holder ds v resolved) =>
      if resolved then deliver dest v m
      else .ok () (m.store a (.holder (ds ++ [dest]) v resolved))
    | _ => .stuck

/-- Modelled from the spec: the method `change` of `_refHolder`, which is not
among the sources.  It replaces the holder's current best-known value. -/
def _refHolder.change (h : Option Nat) (v : RValue) : M Unit := fun m =>
  match h with
  | none => .panic "runtime error: invalid memory address or nil pointer dereference" m
  | some a =>
    match m.load a with
    | some (.holder ds _ resolved) => .ok () (m.store a (.holder ds v resolved))
    | _ => .stuck

/-- The pending destinations of the holder `h` points to. -/
def _refHolder.destinations (h : Option Nat) : M (List RValue) := fun m =>
  match h with
  | none => .panic "runtime error: invalid memory address or nil pointer dereference" m
  | some a =>
    match m.load a with
    | some (.holder ds _ _) => .ok ds m
    | _ => .stuck

/-! ## The codec -/

/-- Source `validateIntKind`. -/
def validateIntKind (k : Kind) : Bool :=
  match k with
  | .Int | .Int8 | .Int16 | .Int32 | .Int64 => true
  | _ => false

/-- Source `validateUintKind`. -/
def validateUintKind (k : Kind) : Bool :=
  match k with
  | .Uint | .Uint8 | .Uint16 | .Uint32 | .Uint64 => true
  | _ => false

/-- Source `validateFloatKind`. -/
def validateFloatKind (k : Kind) : Bool :=
  match k with
  | .Float32 | .Float64 => true
  | _ => false

/-- Source `PackPtr`: a pointer to a new variable holding a copy of `v`. -/
def PackPtr (v : RValue) : M RValue := do
  let t ← v.typ
  let vv ← New t
  let e ← vv.elem
  e.set v
  pure vv

/-- Source `UnpackPtrType`: strip the pointer levels of a type. -/
def UnpackPtrType : GoType → GoType
  | .ptr e => UnpackPtrType e
  | .named n u => if u.kind = Kind.Ptr then UnpackPtrType u else .named n u
  | t => t

/-- The loop of `UnpackType`, with the depth counted so far. -/
def unpackTypeLoop : GoType → Nat → GoType × Nat
  | .ptr e, depth => unpackTypeLoop e (depth + 1)
  | .named n u, depth => if u.kind = Kind.Ptr then unpackTypeLoop u depth else (.named n u, depth)
  | t, depth => (t, depth)

/-- Source `UnpackType`: the type under the pointer levels, and their number. -/
def UnpackType (typ : GoType) : GoType × Nat :=
  unpackTypeLoop typ 0

/-- Pointer depth of the type of a Value (0 for the zero Value): the number of
iterations the loops over `v.Kind() == reflect.Ptr` can make. -/
def RValue.ptrDepth : RValue → Nat
  | .invalid => 0
  | .val t _ _ => (UnpackType t).2
  | .ref t _ _ => (UnpackType t).2

/-- The loop of `UnpackPtrValue`, with a bound on the iterations left. -/
def unpackPtrValueLoop : Nat → RValue → M RValue
  | 0, v => pure v
  | n + 1, v =>
    if v.kind == Kind.Ptr then do
      let e ← v.elem
      if e.isValid then unpackPtrValueLoop n e else pure v
    else pure v

/-- Source `UnpackPtrValue`: follow the pointer while it is not nil. -/
def UnpackPtrValue (v : RValue) : M RValue :=
  unpackPtrValueLoop v.ptrDepth v

/-- The loop of `UnpackToRootAddressableValue`, with a bound on the iterations
left. -/
def unpackRootLoop : Nat → RValue → M RValue
  | 0, v => pure v
  | n + 1, v =>
    if v.kind == Kind.Ptr then do
      let e ← v.elem
      if e.canAddr then unpackRootLoop n e else pure v
    else pure v

/-- Source `UnpackToRootAddressableValue`: follow the pointer while what it
points to is addressable. -/
def UnpackToRootAddressableValue (v : RValue) : M RValue :=
  unpackRootLoop v.ptrDepth v

/-- The loop `for i := 0; i < n; i++ { v = PackPtr(v) }` of `SetValue`. -/
def packLoop : Nat → RValue → M RValue
  | 0, v => pure v
  | n + 1, v => do
    let v1 ← PackPtr v
    packLoop n v1

/-- The loop `for i := 0; i < n; i++ { v = v.Elem() }` of `SetValue`. -/
def elemLoop : Nat → RValue → M RValue
  | 0, v => pure v
  | n + 1, v => do
    let v1 ← v.elem
    elemLoop n v1

/-- Source `EnsurePackValue`. -/
def EnsurePackValue (i : Iface) : RValue :=
  match asReflectValue i with
  | some v => v
  | none => ValueOf i

/-- Source `EnsureRawValue`. -/
def EnsureRawValue (i : Iface) : M RValue :=
  match asReflectValue i with
  | some v =>
    if v.isValid then do
      let x ← v.interface
      match asRefHolder x with
      | some r => _refHolder.value r
      | none => pure v
    else pure v
  | none =>
    match asRefHolder i with
    | some r => _refHolder.value r
    | none => pure (ValueOf i)

/-- The first byte of a string, `s[0]`; indexing an empty string panics. -/
def firstByte (bs : List Nat) : M Int :=
  match bs with
  | [] => goPanic "runtime error: index out of range [0] with length 0"
  | b :: _ => pure (Int.ofNat b)

/-- Source `SetValueToPtrDest`. -/
def SetValueToPtrDest (fp : FloatOps) (dest v : RValue) : M Unit := do
  let dt ← dest.typ
  if dt = _typeOfIntPtr then do
    let vv ← v.int
    dest.set (← addrOfNew .int64 (.int vv))
  else if dt = _typeOfInt8Ptr then do
    let vv := wrapSigned 8 (← v.int)
    dest.set (← addrOfNew .int8 (.int vv))
  else if dt = _typeOfInt16Ptr then do
    let vv := wrapSigned 16 (← v.int)
    dest.set (← addrOfNew .int16 (.int vv))
  else if dt = _typeOfInt32Ptr then do
    if v.kind == Kind.String then do
      let vv ← firstByte (← v.string)
      dest.set (← addrOfNew .int32 (.int vv))
    else do
      let vv := wrapSigned 32 (← v.int)
      dest.set (← addrOfNew .int32 (.int vv))
  else if dt = _typeOfInt64Ptr then do
    let vv ← v.int
    dest.set (← addrOfNew .int64 (.int vv))
  else if dt = _typeOfUintPtr then do
    let vv := wrapUnsigned 64 (← v.uint)
    dest.set (← addrOfNew .uint (.int vv))
  else if dt = _typeOfUint8Ptr then do
    let vv := wrapUnsigned 8 (← v.int)
    dest.set (← addrOfNew .uint8 (.int vv))
  else if dt = _typeOfUint16Ptr then do
    let vv := wrapUnsigned 16 (← v.uint)
    dest.set (← addrOfNew .uint16 (.int vv))
  else if dt = _typeOfUint32Ptr then do
    let vv := wrapUnsigned 32 (← v.uint)
    dest.set (← addrOfNew .uint32 (.int vv))
  else if dt = _typeOfUint64Ptr then do
    let vv ← v.uint
    dest.set (← addrOfNew .uint64 (.int vv))
  else if dt = _typeOfFloat32Ptr then do
    let vv := fp.narrow (← v.float fp)
    dest.set (← addrOfNew .float32 (.float vv))
  else if dt = _typeOfFloat64Ptr then do
    let vv ← v.float fp
    dest.set (← addrOfNew .float64 (.float vv))
  else if dt = _typeOfRunePtr then do
    if v.kind == Kind.String then do
      let vv ← firstByte (← v.string)
      dest.set (← addrOfNew Rune (.int vv))
    else do
      let vv := wrapSigned 32 (← v.int)
      dest.set (← addrOfNew Rune (.int vv))
  else dest.set v

/-- Source `SetValue`, the body of the function; `add` is the method `add` of
`_refHolder` as the function calls it (`h.add(dest)`). -/
def SetValueBody (fp : FloatOps) (add : Option Nat → RValue → M Unit) (dest v : RValue) :
    M Unit :=
  if !v.isValid then pure ()
  else do
    let vType ← v.typ
    let destType ← dest.typ
    if dest.canSet && destType == vType then dest.set v
    else if vType == _refHolderPtrType then do
      let h ← v.interface
      match asRefHolder h with
      | some p => add p dest
      | none => stuck
    else do
      let (vRawType, vPtrDepth) := UnpackType vType
      let dest ← UnpackToRootAddressableValue dest
      let destType ← dest.typ
      let (destRawType, destPtrDepth) := UnpackType destType
      if destRawType == vRawType then do
        let v ←
          if destPtrDepth > vPtrDepth then packLoop (destPtrDepth - vPtrDepth) v
          else if destPtrDepth < vPtrDepth then elemLoop (vPtrDepth - destPtrDepth) v
          else pure v
        dest.set v
      else
        match destType.kind with
        | .Float32 | .Float64 => do
          let x ← v.float fp
          dest.setFloat fp x
        | .Int | .Int8 | .Int16 | .Int32 | .Int64 => do
          let x ← v.int
          dest.setInt x
        | .Uint | .Uint8 | .Uint16 | .Uint32 | .Uint64 => do
          let x ← v.int
          dest.setUint (wrapUnsigned 64 x)
        | .Ptr => SetValueToPtrDest fp dest v
        | _ => dest.set v

/-- The function `SetValue` when at most `n` calls of it are nested.  A call is
nested in another only through the method `add` of a resolved holder, which
delivers the value of the holder with `SetValue`.  Allowing more nesting does
not change an outcome (`SetValueN_succ`). -/
def SetValueN (fp : FloatOps) : Nat → RValue → RValue → M Unit
  | 0 => fun _ _ => stuck
  | n + 1 => SetValueBody fp (_refHolder.add (SetValueN fp n))

/-- Source `SetValue`.  Between two nested calls nothing is written and each
nested call comes from another resolved holder, so that a nesting deeper than
the number of variables goes through one holder twice and never ends: the
nesting is bounded by the number of variables, and a call that never ends has
no outcome (`Res.stuck`). -/
def SetValue (fp : FloatOps) (dest v : RValue) : M Unit := fun m =>
  SetValueN fp (m.vars.length + 1) dest v m

/-- An error value returned to the caller (`perrors.Errorf`). -/
abbrev GoError := String

/-- Method `Type.Elem` as a call: it panics on a type without element type. -/
def typeElem (t : GoType) : M GoType :=
  match t.elem? with
  | some e => pure e
  | none => goPanic "reflect: Elem of invalid type"

/-- The body of the loop of `ConvertSliceValueType` for the index `i`:
the item of `v` is unboxed, unpacked when the element type is not a pointer,
and stored in element `i` of the new slice `sl`. -/
def convertItem (fp : FloatOps) (destTyp : GoType) (elemKind : Kind) (sl v : RValue) (i : Nat) :
    M Unit := do
  let item ← (← v.index i).interface
  let itemValue0 ←
    match asReflectValue item with
    | some cv => pure cv
    | none =>
      match item with
      | none => do
        let e ← typeElem destTyp
        pure (Zero e)
      | some _ => pure (ValueOf item)
  let itemValue ←
    if !(elemKind == Kind.Ptr) && itemValue0.kind == Kind.Ptr then UnpackPtrValue itemValue0
    else pure itemValue0
  if validateFloatKind elemKind then do
    let d ← sl.index i
    let x ← itemValue.float fp
    d.setFloat fp x
  else if validateIntKind elemKind then do
    let d ← sl.index i
    let x ← itemValue.int
    d.setInt x
  else if validateUintKind elemKind then do
    let d ← sl.index i
    let x ← itemValue.uint
    d.setUint x
  else do
    let d ← sl.index i
    SetValue fp d itemValue

/-- The loop `for i := 0; i < v.Len(); i++` of `ConvertSliceValueType`, with
the number of iterations left (the length of `v` does not change in the loop). -/
def convertLoop (fp : FloatOps) (destTyp : GoType) (elemKind : Kind) (sl v : RValue) :
    Nat → Nat → M Unit
  | 0, _ => pure ()
  | k + 1, i => do
    convertItem fp destTyp elemKind sl v i
    convertLoop fp destTyp elemKind sl v k (i + 1)

/-- Source `ConvertSliceValueType`: the converted slice and the error. -/
def ConvertSliceValueType (fp : FloatOps) (destTyp : GoType) (v : RValue) :
    M (RValue × Option GoError) := do
  let vt ← v.typ
  if destTyp == vt || destTyp.kind == Kind.Interface then pure (v, none)
  else
    let k := vt.kind
    if k != Kind.Slice && k != Kind.Array then
      pure (_zeroValue, some "expect slice type")
    else do
      let n ← v.len
      if n ≤ 0 then pure (_zeroValue, none)
      else do
        let elemKind := (← typeElem destTyp).kind
        let sl ← MakeSlice destTyp n
        convertLoop fp destTyp elemKind sl v n 0
        pure (sl, none)

/-- The loop of `notify` over the pending destinations. -/
def notifyLoop (fp : FloatOps) (h : Option Nat) : List RValue → M Unit
  | [] => pure ()
  | d :: ds => do
    let v ← _refHolder.value h
    SetValue fp d v
    notifyLoop fp h ds

/-- Modelled from the spec: the last step of `notify`, which marks the holder
`h` points to as resolved. -/
def _refHolder.resolve (h : Option Nat) : M Unit := fun m =>
  match h with
  | none => .panic "runtime error: invalid memory address or nil pointer dereference" m
  | some a =>
    match m.load a with
    | some (.holder ds v _) => .ok () (m.store a (.holder ds v true))
    | _ => .stuck

/-- Modelled from the spec: the method `notify` of `_refHolder`, which is not
among the sources.  Every destination slot pending on the holder is coerced and
written, in the order in which the slots were registered, and the holder is
marked resolved. -/
def _refHolder.notify (fp : FloatOps) (h : Option Nat) : M Unit := do
  let ds ← _refHolder.destinations h
  notifyLoop fp h ds
  _refHolder.resolve h

/-- Source `unpackRefHolder`. -/
def unpackRefHolder (fp : FloatOps) (dest : RValue) (destTyp : GoType) (ref : Option Nat) :
    M (Option GoError) := do
  let hv ← _refHolder.value ref
  let (v, err) ← ConvertSliceValueType fp destTyp hv
  match err with
  | some e => pure (some e)
  | none => do
    SetValue fp dest v
    _refHolder.change ref v
    _refHolder.notify fp ref
    pure none

/-- Source `SetSlice`. -/
def SetSlice (fp : FloatOps) (dest : RValue) (objects : Iface) : M (Option GoError) :=
  match objects with
  | none => pure none
  | some _ => do
    let dest ← UnpackPtrValue dest
    let destTyp := UnpackPtrType (← dest.typ)
    let elemKind := (← typeElem destTyp).kind
    if elemKind == Kind.Uint8 then do
      dest.set (← EnsureRawValue objects)
      pure none
    else
      match asRefHolder objects with
      | some ref => unpackRefHolder fp dest destTyp ref
      | none => do
        let v := EnsurePackValue objects
        match asRefHolder (← v.interface) with
        | some h => do
          _refHolder.add (SetValue fp) h dest
          pure none
        | none => do
          let (v, err) ← ConvertSliceValueType fp destTyp v
          match err with
          | some e => pure (some e)
          | none => do
            SetValue fp dest v
            pure none

/-! ## Notions used to state the properties -/

/-- The type `t` under `n` pointer levels. -/
def ptrN : Nat → GoType → GoType
  | 0, t => t
  | n + 1, t => .ptr (ptrN n t)

/-- Dereference a Go value `n` times; `none` when a pointer on the way is nil
or dangling. -/
def Mem.derefN (m : Mem) : Nat → GoVal → Option GoVal
  | 0, x => some x
  | n + 1, .ptr (some a) =>
    match m.load a with
    | some y => m.derefN n y
    | none => none
  | _ + 1, _ => none

/-- The value `c` is a pointer of depth `n` over the type `B`, not nil at any
level, whose variables have the types of their level, and which leads to `b`
when dereferenced `n` times. -/
def Chain (m : Mem) (B : GoType) : Nat → GoVal → GoVal → Prop
  | 0, c, b => c = b
  | n + 1, c, b =>
    ∃ a x, c = .ptr (some a) ∧ m.typeAt a = some (ptrN n B) ∧ m.load a = some x ∧
      Chain m B n x b

/-- A variable is well typed when, its type being of pointer kind, it holds nil
or the address of a variable of the element type. -/
def Var.okIn (m : Mem) (c : Var) : Bool :=
  match c.typ.kind, c.val with
  | .Ptr, .ptr none => true
  | .Ptr, .ptr (some b) => m.typeAt b == c.typ.elem?
  | .Ptr, _ => false
  | _, _ => true

/-- Well-formed memory: every variable is well typed. -/
def Mem.WF (m : Mem) : Prop :=
  m.vars.all (fun c => c.okIn m) = true

instance (m : Mem) : Decidable m.WF := by
  unfold Mem.WF
  infer_instance

/-- The variable `a`, of type `ptrN n B`, leads through non-nil pointers to the
variable `r` of type `ptrN k B`, which holds nil unless `k = 0`: `r` is the
root addressable value of `a`. -/
def RootAt (m : Mem) (B : GoType) : Nat → Nat → Nat → Nat → Prop
  | 0, a, r, k => a = r ∧ k = 0 ∧ m.typeAt a = some B
  | n + 1, a, r, k =>
    m.typeAt a = some (ptrN (n + 1) B) ∧
      ((m.load a = some (.ptr none) ∧ a = r ∧ k = n + 1) ∨
        ∃ a1, m.load a = some (.ptr (some a1)) ∧ RootAt m B n a1 r k)

/-- The Value `v` is valid, exported, of type `t`, and its content is `c`. -/
def Holds (m : Mem) (v : RValue) (t : GoType) (c : GoVal) : Prop :=
  v = .val t c false ∨ ∃ a, v = .ref t a false ∧ m.load a = some c

/-- Float conversions for the concrete examples below (none of them converts a
float). -/
def exampleFloatOps : FloatOps := ⟨fun b => b, fun b => b⟩

/-- The static type of a Value, `none` for the zero Value. -/
def RValue.typeOf? : RValue → Option GoType
  | .invalid => none
  | .val t _ _ => some t
  | .ref t _ _ => some t

/-- What `Value.Float` returns for a float of kind `k` with bit pattern `b`. -/
def floatOfKind (fp : FloatOps) (k : Kind) (b : Nat) : Nat :=
  if k = Kind.Float32 then fp.widen b else b

/-- What `Value.SetFloat` stores in a float variable of kind `k` for the
argument `x`. -/
def floatToKind (fp : FloatOps) (k : Kind) (x : Nat) : Nat :=
  if k = Kind.Float32 then fp.narrow x else x

/-- The conversions of the numeric family that `SetValue` performs, from a
value `c` of type `vt` to the type `dt`: the value itself for the same type, a
signed integer wrapped to the width of a destination of a signed integer kind
or of an unsigned integer kind other than uintptr (the kinds of
`validateIntKind` and `validateUintKind`, which are those the switch of
`SetValue` lists), a float converted to any float destination; `none` for the
other pairs of types. -/
def convertNumeric (fp : FloatOps) (vt dt : GoType) (c : GoVal) : Option GoVal :=
  if dt = vt then some c
  else
    match c with
    | .int x =>
      if validateIntKind vt.kind then
        if validateIntKind dt.kind then some (.int (wrapSigned dt.kind.bits x))
        else if validateUintKind dt.kind then some (.int (x % 2 ^ dt.kind.bits))
        else none
      else none
    | .float b =>
      if validateFloatKind vt.kind && validateFloatKind dt.kind then
        some (.float (floatToKind fp dt.kind (floatOfKind fp vt.kind b)))
      else none
    | _ => none

/-- The interface value `objects` carries the raw byte sequence `b`, a value of
type `[]byte`: directly, wrapped in a `reflect.Value`, held by a reference
holder, or held by a reference holder wrapped in a `reflect.Value`. -/
def RawBytes (m : Mem) (objects : Iface) (b : GoVal) : Prop :=
  objects = some (.slice .uint8, b) ∨
  (∃ v, objects = some (reflectValueType, .refl v) ∧ Holds m v (.slice .uint8) b) ∨
  (∃ h ds hv r, objects = some (_refHolderPtrType, .ptr (some h)) ∧
    m.load h = some (.holder ds hv r) ∧ Holds m hv (.slice .uint8) b) ∨
  (∃ v h ds hv r, objects = some (reflectValueType, .refl v) ∧
    Holds m v _refHolderPtrType (.ptr (some h)) ∧
    m.load h = some (.holder ds hv r) ∧ Holds m hv (.slice .uint8) b)

/-- The contents of the elements of a slice value, in order. -/
def Mem.elemsOf (m : Mem) : GoVal → List (Option GoVal)
  | .slice (some base) n => (List.range n).map (fun i => m.load (base + i))
  | _ => []

/-- The kinds of the destinations that are neither containers nor pointers nor
interfaces: booleans, numbers, strings and structs. -/
def plainKind (k : Kind) : Bool :=
  match k with
  | .Bool | .Int | .Int8 | .Int16 | .Int32 | .Int64
  | .Uint | .Uint8 | .Uint16 | .Uint32 | .Uint64 | .Uintptr
  | .Float32 | .Float64 | .String | .Struct => true
  | _ => false

/-- The kinds of a decoded sequence: slice or array. -/
def sequenceKind (k : Kind) : Bool :=
  match k with
  | .Slice | .Array => true
  | _ => false

/-- The call ended in a panic in the memory `m`. -/
def Res.panicsAt {α : Type} (r : Res α) (m : Mem) : Prop :=
  match r with
  | .panic _ m1 => m1 = m
  | _ => False

/-- What `v.Index(i).Interface()` returns for an element variable of type `S`
holding `x`: the interface value held when `S` is an interface type, else `x`
boxed with its type. -/
def itemOf (S : GoType) (x : GoVal) : Option Iface :=
  if S.kind = Kind.Interface then
    match x with
    | .iface d => some d
    | _ => none
  else some (some (S, x))

/-- Coercion of one item of a sequence to the element type `E`, as a function of
the item alone: a nil item gives the zero value of `E`; a float item gives a
float element, a signed integer item a signed integer element, an unsigned
integer item an unsigned integer element, converted to the kind of `E`; an item
of type `E` gives itself; an item that is neither a pointer nor an interface is
boxed for the element type `interface{}`.  `none`: not covered. -/
def coerceItem (fp : FloatOps) (E : GoType) : Iface → Option GoVal
  | none => some (zeroOf E)
  | some (t, x) =>
    if validateFloatKind E.kind then
      match x with
      | .float b =>
        if validateFloatKind t.kind then
          some (.float (floatToKind fp E.kind (floatOfKind fp t.kind b)))
        else none
      | _ => none
    else if validateIntKind E.kind then
      match x with
      | .int n => if validateIntKind t.kind then some (.int (wrapSigned E.kind.bits n)) else none
      | _ => none
    else if validateUintKind E.kind then
      match x with
      | .int n =>
        if validateUintKind t.kind then some (.int (wrapUnsigned E.kind.bits n)) else none
      | _ => none
    else if t = reflectValueType then none
    else if t = E then some x
    else if E = GoType.iface ∧ t.kind ≠ Kind.Ptr ∧ t.kind ≠ Kind.Interface then
      some (.iface (some (t, x)))
    else none

/-! ## Fixed-width packing and unpacking -/

/-- Outcome of a function without state: it returns, or it panics at run time. -/
inductive Outcome (α : Type)
  | ret (a : α)
  | panic (msg : String)

/-- Method `binary.BigEndian.PutUint16` of the standard library on a two-byte
array: `b[0] = byte(v >> 8); b[1] = byte(v)`. -/
def BigEndian.PutUint16 (v : Nat) : List Nat :=
  [v / 2 ^ 8 % 256, v % 256]

/-- Method `binary.BigEndian.PutUint32` on a four-byte array. -/
def BigEndian.PutUint32 (v : Nat) : List Nat :=
  [v / 2 ^ 24 % 256, v / 2 ^ 16 % 256, v / 2 ^ 8 % 256, v % 256]

/-- Method `binary.BigEndian.PutUint64` on an eight-byte array. -/
def BigEndian.PutUint64 (v : Nat) : List Nat :=
  [v / 2 ^ 56 % 256, v / 2 ^ 48 % 256, v / 2 ^ 40 % 256, v / 2 ^ 32 % 256,
   v / 2 ^ 24 % 256, v / 2 ^ 16 % 256, v / 2 ^ 8 % 256, v % 256]

/-- Source `PackInt16`; `uint16(v)` is `v` modulo `2^16`. -/
def PackInt16 (v : Int) : List Nat :=
  BigEndian.PutUint16 (wrapUnsigned 16 v).toNat

/-- Source `PackUint16`. -/
def PackUint16 (v : Int) : List Nat :=
  BigEndian.PutUint16 (wrapUnsigned 16 v).toNat

/-- Source `PackInt32`. -/
def PackInt32 (v : Int) : List Nat :=
  BigEndian.PutUint32 (wrapUnsigned 32 v).toNat

/-- Source `PackInt64`. -/
def PackInt64 (v : Int) : List Nat :=
  BigEndian.PutUint64 (wrapUnsigned 64 v).toNat

/-- A value of type `[]byte`: the bytes of the backing array from the first
element of the slice up to its capacity, and the length of the slice. -/
structure ByteSlice where
  array : List Nat
  len : Nat

/-- Capacity of a byte slice. -/
def ByteSlice.cap (b : ByteSlice) : Nat := b.array.length

/-- Byte slices of the language: the length is at most the capacity and every
element is a byte. -/
def ByteSlice.WF (b : ByteSlice) : Prop :=
  b.len ≤ b.cap ∧ ∀ x ∈ b.array, x < 256

/-- Message of the run-time panic of a slice expression `b[:n]` with `n` above
the capacity. -/
def sliceBoundsMsg (n cap : Nat) : String :=
  "runtime error: slice bounds out of range [:" ++ toString n ++ "] with capacity " ++
    toString cap

/-- Slice expression `b[:n]`: it panics when `n` exceeds the capacity, and is
the slice of length `n` on the same array otherwise. -/
def ByteSlice.upTo (b : ByteSlice) (n : Nat) : Outcome ByteSlice :=
  if n > b.cap then .panic (sliceBoundsMsg n b.cap) else .ret ⟨b.array, n⟩

/-- Method `binary.BigEndian.Uint16`: `uint16(b[1]) | uint16(b[0])<<8`; on bytes
the shifted operands have no bit in common, so that the disjunction is a sum. -/
def BigEndian.Uint16 (b : ByteSlice) : Nat :=
  b.array.getD 1 0 + b.array.getD 0 0 * 2 ^ 8

/-- Method `binary.BigEndian.Uint32`. -/
def BigEndian.Uint32 (b : ByteSlice) : Nat :=
  b.array.getD 3 0 + b.array.getD 2 0 * 2 ^ 8 + b.array.getD 1 0 * 2 ^ 16 +
    b.array.getD 0 0 * 2 ^ 24

/-- Method `binary.BigEndian.Uint64`. -/
def BigEndian.Uint64 (b : ByteSlice) : Nat :=
  b.array.getD 7 0 + b.array.getD 6 0 * 2 ^ 8 + b.array.getD 5 0 * 2 ^ 16 +
    b.array.getD 4 0 * 2 ^ 24 + b.array.getD 3 0 * 2 ^ 32 + b.array.getD 2 0 * 2 ^ 40 +
    b.array.getD 1 0 * 2 ^ 48 + b.array.getD 0 0 * 2 ^ 56

/-- Source `UnpackInt16`: `arr := b[:2]`, then the two bytes read as `int16`. -/
def UnpackInt16 (b : ByteSlice) : Outcome Int :=
  match b.upTo 2 with
  | .panic msg => .panic msg
  | .ret arr => .ret (wrapSigned 16 (BigEndian.Uint16 arr))

/-- Source `UnpackUint16`. -/
def UnpackUint16 (b : ByteSlice) : Outcome Int :=
  match b.upTo 2 with
  | .panic msg => .panic msg
  | .ret arr => .ret (BigEndian.Uint16 arr)

/-- Source `UnpackInt32`. -/
def UnpackInt32 (b : ByteSlice) : Outcome Int :=
  match b.upTo 4 with
  | .panic msg => .panic msg
  | .ret arr => .ret (wrapSigned 32 (BigEndian.Uint32 arr))

/-- Source `UnpackInt64`. -/
def UnpackInt64 (b : ByteSlice) : Outcome Int :=
  match b.upTo 8 with
  | .panic msg => .panic msg
  | .ret arr => .ret (wrapSigned 64 (BigEndian.Uint64 arr))

/-- Source `UnpackFloat64`: the result is the float with the bits read
(`math.Float64frombits`), kept as its bit pattern. -/
def UnpackFloat64 (b : ByteSlice) : Outcome Nat :=
  match b.upTo 8 with
  | .panic msg => .panic msg
  | .ret arr => .ret (BigEndian.Uint64 arr)

/-- Number written by a sequence of bytes, most significant byte first. -/
def bigEndianValue (bytes : List Nat) : Nat :=
  bytes.foldl (fun acc x => acc * 256 + x) 0

end Hessian

/-! ## Package `model` of the service mesh client: delay ranges -/

namespace Polaris

open Hessian (Outcome)

/-- Type `ApiDelayRange`, an `int`. -/
abbrev ApiDelayRange := Int

/-- Constant `ApiDelayBelow50`, the first of the `iota` block. -/
def ApiDelayBelow50 : ApiDelayRange := 0

/-- Constant `ApiDelayBelow100`. -/
def ApiDelayBelow100 : ApiDelayRange := 1

/-- Constant `ApiDelayBelow150`. -/
def ApiDelayBelow150 : ApiDelayRange := 2

/-- Constant `ApiDelayBelow200`. -/
def ApiDelayBelow200 : ApiDelayRange := 3

/-- Constant `ApiDelayOver200`. -/
def ApiDelayOver200 : ApiDelayRange := 4

/-- Constant `ApiDelayMax`. -/
def ApiDelayMax : ApiDelayRange := 5

/-- Constant `time.Millisecond` of the standard library: a `time.Duration` is a
number of nanoseconds. -/
def Millisecond : Int := 1000000

/-- Constant `timeRange`. -/
def timeRange : Int := 50 * Millisecond

/-- Constant `maxTimeRange`. -/
def maxTimeRange : Int := 200 * Millisecond

/-- Source `GetApiDelayRange`; the division of the language on `int64` truncates
towards zero. -/
def GetApiDelayRange (delay : Int) : ApiDelayRange :=
  let delay := if delay > maxTimeRange then maxTimeRange else delay
  let diff := Int.tdiv delay timeRange
  diff

/-! ## Package `data` of the service mesh client: synchronous calls with retries -/

/-- Values of the interface type `error` that are not nil: the ones that
implement `model.SDKError`, with their error code, cause and message, and the
others. -/
inductive GoErr
  | sdk (code : Nat) (cause : Option GoErr) (msg : String)
  | other (msg : String)

/-- The declarations of package `model` on error codes that `RetrySyncCall` uses:
method `ErrCode.Retryable` and constant `ErrCodeAPITimeoutError`. -/
structure ErrCodes where
  Retryable : Nat → Bool
  ErrCodeAPITimeoutError : Nat

/-- Function `model.NewSDKError`: the SDK error of a code, a cause and a message. -/
def NewSDKError (code : Nat) (cause : Option GoErr) (msg : String) : GoErr :=
  .sdk code cause msg

/-- Type assertion `err.(model.SDKError)` with its `ok`, read on the error code. -/
def asSDKError : GoErr → Option Nat
  | .sdk code _ _ => some code
  | .other _ => none

/-- The fields of `model.ControlParam` that the sources read or write; the
durations are numbers of nanoseconds. -/
structure ControlParam where
  MaxRetry : Int
  RetryInterval : Int
  Timeout : Int

/-- Result of a call of type `SingleInvoke`: the response, an `interface{}` that
may be nil, and the error, nil on success. -/
abbrev CallResult (ρ : Type) := Option ρ × Option GoErr

/-- Type `SingleInvoke`: a call may read and change a state `σ` of its own. -/
abbrev SingleInvoke (α ρ σ : Type) := α → σ → CallResult ρ × σ

/-- Message of the error returned once the retries are used up. -/
def retryMessage (name : String) (retryTimes : Int) : String :=
  "fail to do " ++ name ++ " after retry " ++ toString retryTimes ++ " times"

/-- The statement after the loop of `RetrySyncCall`. -/
def retryTimeout (E : ErrCodes) {ρ : Type} (name : String) (resp : Option ρ)
    (err : Option GoErr) (retryTimes : Int) : CallResult ρ :=
  (resp, some (NewSDKError E.ErrCodeAPITimeoutError err (retryMessage name retryTimes)))

/-- The loop of `RetrySyncCall`, from the values of `retryTimes`, `resp` and `err`
at the loop test; the fuel bounds the number of iterations, `none` is fuel
exhausted.  Reading the clock, sleeping and logging, the only use of `svcKey`,
have no part in the result; `svcKey` and `param` are taken not nil. -/
def retryLoop (E : ErrCodes) {α ρ σ : Type} (name : String) (request : α)
    (call : SingleInvoke α ρ σ) (param : ControlParam) :
    Nat → Int → Option ρ → Option GoErr → σ → Option (CallResult ρ × σ)
  | fuel, retryTimes, resp, err, s =>
    if retryTimes < param.MaxRetry then
      match fuel with
      | 0 => none
      | fuel + 1 =>
        match call request s with
        | ((resp, none), s) => some ((resp, none), s)
        | ((resp, some e), s) =>
          match asSDKError e with
          | none => some ((resp, none), s)
          | some code =>
            if !E.Retryable code then some ((resp, some e), s)
            else
              let retryTimes := retryTimes + 1
              if retryTimes ≥ param.MaxRetry then
                some (retryTimeout E name resp (some e) retryTimes, s)
              else retryLoop E name request call param fuel retryTimes resp (some e) s
    else some (retryTimeout E name resp err retryTimes, s)

/-- Source `RetrySyncCall`: the result and the state of `call` afterwards. -/
def RetrySyncCall (E : ErrCodes) {α ρ σ : Type} (name : String) (request : α)
    (call : SingleInvoke α ρ σ) (param : ControlParam) (s : σ) :
    Option (CallResult ρ × σ) :=
  retryLoop E name request call param (param.MaxRetry + 1).toNat (-1) none none s

/-- State of `call` after `k` invocations from the state `s`. -/
def stateAfter {α ρ σ : Type} (call : SingleInvoke α ρ σ) (request : α) (k : Nat) (s : σ) : σ :=
  (fun s => (call request s).2)^[k] s

/-- The invocation of `call` in the state `s` fails with a retryable SDK error. -/
def FailsRetryably (E : ErrCodes) {α ρ σ : Type} (call : SingleInvoke α ρ σ) (request : α)
    (s : σ) : Prop :=
  ∃ e code, (call request s).1.2 = some e ∧ asSDKError e = some code ∧ E.Retryable code = true

/-! ## Package `inmemory` of the service mesh client: cache objects -/

/-- Values of the interface `model.RegistryValue` that are not nil: the ones of
concrete type `*pb.ServiceInstancesInProto`, with their instances, and the ones
of another concrete type, by the name of it; each with the results of its
methods `GetType` and `GetRevision`.  An instance is kept as its identifier. -/
inductive RegistryValue
  | serviceInstancesInProto (typ : Nat) (instances : List String) (revision : String)
  | other (concrete : String) (typ : Nat) (revision : String)
  deriving DecidableEq

/-- Method `GetType`. -/
def RegistryValue.GetType : RegistryValue → Nat
  | .serviceInstancesInProto typ _ _ => typ
  | .other _ typ _ => typ

/-- Name of the concrete type of a value. -/
def RegistryValue.concrete : RegistryValue → String
  | .serviceInstancesInProto _ _ _ => "*pb.ServiceInstancesInProto"
  | .other concrete _ _ => concrete

/-- The fields of `CacheObject` that `SetValue` reads or writes: `value`, an
`atomic.Value`, empty until the first store, and `pushEmptyProtection`. -/
structure CacheObject where
  value : Option RegistryValue
  pushEmptyProtection : Bool
  deriving DecidableEq

/-- Method `Store` of `atomic.Value` in the standard library: it panics when the
concrete type of the value is not the one of the value stored before. -/
def atomicStore (old : Option RegistryValue) (val : RegistryValue) :
    Outcome (Option RegistryValue) :=
  match old with
  | none => .ret (some val)
  | some o =>
    if o.concrete = val.concrete then .ret (some val)
    else .panic "sync/atomic: store of inconsistently typed value into Value"

/-- Source `CacheObject.SetValue`, with the constant `model.EventInstances` as a
parameter: the result and the cache object afterwards.  Logging has no part in
the result; the value given and `serviceValueKey` are taken not nil. -/
def CacheObject.SetValue (EventInstances : Nat) (s : CacheObject)
    (cacheValue : RegistryValue) : Outcome (Bool × CacheObject) :=
  let canSet : Outcome Bool :=
    if cacheValue.GetType = EventInstances && s.pushEmptyProtection then
      match cacheValue with
      | .serviceInstancesInProto _ instances _ => .ret (!(instances.length == 0))
      | .other concrete _ _ =>
        .panic ("interface conversion: model.RegistryValue is " ++ concrete ++
          ", not *pb.ServiceInstancesInProto")
    else .ret true
  match canSet with
  | .panic msg => .panic msg
  | .ret canSet =>
    if !canSet then .ret (false, s)
    else
      match atomicStore s.value cacheValue with
      | .panic msg => .panic msg
      | .ret value => .ret (true, { s with value := value })

end Polaris

/-! ## The demonstration server -/

namespace Demo

open Hessian

/-- Type `api.DubboRequest`: field `Request`, a `map[string]interface{}`, as the
list of its entries; strings are sequences of bytes. -/
structure DubboRequest where
  Request : List (List Nat × Iface)

/-- Type `api.DubboResponse`: field `Reponse`, a `[]byte`. -/
structure DubboResponse where
  Reponse : List Nat

/-- Index expression `m[key]` on a map: the nil interface for a key without
entry. -/
def mapIndex (m : List (List Nat × Iface)) (key : List Nat) : Iface :=
  match m.lookup key with
  | some v => v
  | none => none

/-- Type assertion `x.(string)` with its `ok` dropped: the empty string unless
the dynamic type of `x` is `string`. -/
def assertString : Iface → List Nat
  | some (.string, .str s) => s
  | _ => []

/-- The functions of package `time` of the standard library that `SayHello`
calls: `ParseDuration`, whose result is a duration in nanoseconds or an error,
and method `Duration.String`, the format of a duration under the verb `%v`. -/
structure TimeOps where
  ParseDuration : List Nat → Except String Int
  durationString : Int → List Nat

/-- Bytes of a string literal of ASCII characters. -/
def bytesOf (s : String) : List Nat := s.toList.map Char.toNat

/-- Source `DubboDemoProvider.SayHello`: the response and the error, each nil or
not.  Sleeping and logging have no part in the result; `req` is taken not
nil. -/
def SayHello (T : TimeOps) (req : DubboRequest) : Option DubboResponse × Option String :=
  let cost := assertString (mapIndex req.Request (bytesOf "cost"))
  match T.ParseDuration cost with
  | .error err => (none, some err)
  | .ok t =>
    let msg := bytesOf "Hello, this request cost " ++ T.durationString t
    (some ⟨msg⟩, none)

end Demo

namespace Polaris

/-- An instances-type value with zero instances: a `*pb.ServiceInstancesInProto`
of type `EventInstances` whose list of instances is empty. -/
def RegistryValue.isEmptyInstances (EventInstances : Nat) : RegistryValue → Bool
  | .serviceInstancesInProto typ instances _ => typ == EventInstances && instances.length == 0
  | .other _ _ _ => false

/-- Error codes for concrete inputs: every code is retryable, the code of the
timeout error is 1004. -/
def exampleErrCodes : ErrCodes := ⟨fun _ => true, 1004⟩

/-- A call that fails each time with the retryable SDK error of code 7 and
counts its invocations in its state. -/
def exampleFailingCall : SingleInvoke Unit Unit Nat :=
  fun _ s => ((none, some (.sdk 7 none "unavailable")), s + 1)

end Polaris

namespace Demo

/-- Functions of package `time` for concrete inputs: they agree with the
standard library on the strings `5s`, parsed as five seconds, and on the empty
string, which is no duration, and on printing five seconds. -/
def exampleTimeOps : TimeOps :=
  ⟨fun s => if s = bytesOf "5s" then .ok 5000000000 else .error "time: invalid duration",
   fun _ => bytesOf "5s"⟩

end Demo

namespace Hessian

/-! ## The encoder and the decoder, from the specification

The encoder and the decoder of the codec are not among the sources.  They are
modelled from the specification on the part of the value model that a request
with a mapping from strings to primitives inhabits. -/

/-- Source `PackFloat64`, on the bit pattern of the float
(`math.Float64bits`). -/
def PackFloat64 (bits : Nat) : List Nat :=
  BigEndian.PutUint64 (bits % 2 ^ 64)

/-- Modelled from the spec: the error taxonomy of the codec, which is not among
the sources. -/
inductive CodecError
  | UnknownTypeError
  | DuplicateTypeError
  | TypeMismatchError
  | ShapeMismatchError
  | MalformedStreamError
  deriving DecidableEq, Repr

/-- Modelled from the spec: the primitive states of a Decoded Value (bool, int,
float, string, bytes); the declaration is not among the sources.  A float is its
bit pattern, a string and a byte sequence are lists of bytes. -/
inductive Prim
  | bool (b : Bool)
  | int (x : Int)
  | float (bits : Nat)
  | string (s : List Nat)
  | bytes (b : List Nat)
  deriving DecidableEq, Repr

/-- Modelled from the spec: the value of a field of a compound, a Decoded Value
that is a primitive or a mapping, the list of its key/value pairs; here the
pairs are pairs of primitives.  Sequences, nested containers and reference
placeholders are not modelled. -/
inductive FieldValue
  | primitive (p : Prim)
  | mapping (entries : List (Prim × Prim))
  deriving DecidableEq, Repr

/-- Modelled from the spec: an entry of the shape of a Registered Type
Descriptor, the tuple (field name, field type, pointer depth). -/
structure FieldDesc where
  name : List Nat
  typ : List Nat
  depth : Nat
  deriving DecidableEq, Repr

/-- Modelled from the spec: the shape of a compound, the ordered list of its
field descriptors. -/
abbrev Shape := List FieldDesc

/-- Modelled from the spec: a compound value in memory, its shape and the values
of its fields in the declared order. -/
structure Compound where
  shape : Shape
  fields : List FieldValue
  deriving DecidableEq, Repr

/-- Modelled from the spec: the Type Registry, the mapping from wire type names
to shapes, in the order of registration; it is not among the sources. -/
abbrev Registry := List (List Nat × Shape)

/-- Modelled from the spec: operation `resolve(name) -> shape` of the Type
Registry, which fails with `UnknownTypeError` if the name is not found. -/
def Registry.resolve : Registry → List Nat → Except CodecError Shape
  | [], _ => .error .UnknownTypeError
  | (n, s) :: rest, name => if n = name then .ok s else Registry.resolve rest name

/-- Modelled from the spec: operation `nameOf(shape) -> name` of the Type
Registry, the inverse lookup, which fails with `UnknownTypeError` if the shape
was never registered. -/
def Registry.nameOf : Registry → Shape → Except CodecError (List Nat)
  | [], _ => .error .UnknownTypeError
  | (n, s) :: rest, shape => if s = shape then .ok n else Registry.nameOf rest shape

/-- Modelled from the spec: operation `register(name, shape)` of the Type
Registry; it fails with `DuplicateTypeError` if the name is registered with a
different shape, and registering an identical shape again changes nothing. -/
def Registry.register (reg : Registry) (name : List Nat) (shape : Shape) :
    Except CodecError Registry :=
  match reg.resolve name with
  | .ok s => if s = shape then .ok reg else .error .DuplicateTypeError
  | .error _ => .ok (reg ++ [(name, shape)])

/-- Modelled from the spec: the tags of the stream, one per kind of value; the
specification fixes the kinds, not the bytes. -/
def tagFalse : Nat := 70
/-- Modelled from the spec: the tag of the boolean true. -/
def tagTrue : Nat := 84
/-- Modelled from the spec: the tag of an integer. -/
def tagInt : Nat := 76
/-- Modelled from the spec: the tag of a float. -/
def tagFloat : Nat := 68
/-- Modelled from the spec: the tag of a string. -/
def tagString : Nat := 83
/-- Modelled from the spec: the tag of a byte sequence. -/
def tagBytes : Nat := 66
/-- Modelled from the spec: the tag of a mapping. -/
def tagMapping : Nat := 72
/-- Modelled from the spec: the tag of a compound. -/
def tagCompound : Nat := 79

/-- Modelled from the spec: a byte sequence on the stream, its element count,
written with the `PackInt32` of the sources, then its elements. -/
def encodeBytes (b : List Nat) : List Nat :=
  PackInt32 b.length ++ b

/-- Modelled from the spec: the encoding of a primitive, its tag and its
content; the numbers are written with `PackInt64` and `PackFloat64` of the
sources. -/
def encodePrim : Prim → List Nat
  | .bool false => [tagFalse]
  | .bool true => [tagTrue]
  | .int x => tagInt :: PackInt64 x
  | .float bits => tagFloat :: PackFloat64 bits
  | .string s => tagString :: encodeBytes s
  | .bytes b => tagBytes :: encodeBytes b

/-- Modelled from the spec: the elements of a mapping on the stream, each key
followed by its value. -/
def encodeEntries : List (Prim × Prim) → List Nat
  | [] => []
  | (k, v) :: rest => encodePrim k ++ encodePrim v ++ encodeEntries rest

/-- Modelled from the spec: the encoding of a field value; a mapping emits its
tag, its element count, then its elements. -/
def encodeField : FieldValue → List Nat
  | .primitive p => encodePrim p
  | .mapping entries => tagMapping :: PackInt32 entries.length ++ encodeEntries entries

/-- Modelled from the spec: the fields of a compound on the stream, in the
declared order. -/
def encodeFields : List FieldValue → List Nat
  | [] => []
  | f :: rest => encodeField f ++ encodeFields rest

/-- Modelled from the spec: `encode(value) -> bytes | Error` on a compound: its
tag, its wire type name from the Type Registry (`nameOf`), then its fields in
the order of the shape; `UnknownTypeError` if the shape was never registered,
`ShapeMismatchError` if the value has not the fields of its shape. -/
def encode (reg : Registry) (v : Compound) : Except CodecError (List Nat) :=
  match reg.nameOf v.shape with
  | .error e => .error e
  | .ok name =>
    if v.fields.length = v.shape.length then
      .ok (tagCompound :: encodeBytes name ++ encodeFields v.fields)
    else .error .ShapeMismatchError

/-- Modelled from the spec: the next `n` bytes of the stream and the rest of it;
`MalformedStreamError` on a stream that ends before. -/
def readBytes (n : Nat) (bytes : List Nat) : Except CodecError (List Nat × List Nat) :=
  if bytes.length < n then .error .MalformedStreamError
  else .ok (bytes.take n, bytes.drop n)

/-- Modelled from the spec: an element count read from the stream with the
`UnpackInt32` of the sources; a negative count is malformed. -/
def readCount (bytes : List Nat) : Except CodecError (Nat × List Nat) :=
  match readBytes 4 bytes with
  | .error e => .error e
  | .ok (b, rest) =>
    match UnpackInt32 ⟨b, 4⟩ with
    | .panic _ => .error .MalformedStreamError
    | .ret n => if n < 0 then .error .MalformedStreamError else .ok (n.toNat, rest)

/-- Modelled from the spec: a byte sequence read from the stream, its count then
its elements. -/
def decodeBytes (bytes : List Nat) : Except CodecError (List Nat × List Nat) :=
  match readCount bytes with
  | .error e => .error e
  | .ok (n, rest) => readBytes n rest

/-- Modelled from the spec: the dispatch of the decoder on the tag of a
primitive, the numbers being read with `UnpackInt64` and `UnpackFloat64` of the
sources; another tag is a type mismatch, the end of the stream is malformed. -/
def decodePrim : List Nat → Except CodecError (Prim × List Nat)
  | [] => .error .MalformedStreamError
  | tag :: rest =>
    if tag = tagFalse then .ok (.bool false, rest)
    else if tag = tagTrue then .ok (.bool true, rest)
    else if tag = tagInt then
      match readBytes 8 rest with
      | .error e => .error e
      | .ok (b, rest) =>
        match UnpackInt64 ⟨b, 8⟩ with
        | .panic _ => .error .MalformedStreamError
        | .ret x => .ok (.int x, rest)
    else if tag = tagFloat then
      match readBytes 8 rest with
      | .error e => .error e
      | .ok (b, rest) =>
        match UnpackFloat64 ⟨b, 8⟩ with
        | .panic _ => .error .MalformedStreamError
        | .ret bits => .ok (.float bits, rest)
    else if tag = tagString then
      match decodeBytes rest with
      | .error e => .error e
      | .ok (s, rest) => .ok (.string s, rest)
    else if tag = tagBytes then
      match decodeBytes rest with
      | .error e => .error e
      | .ok (b, rest) => .ok (.bytes b, rest)
    else .error .TypeMismatchError

/-- Modelled from the spec: the `n` elements of a mapping read from the
stream. -/
def decodeEntries : Nat → List Nat → Except CodecError (List (Prim × Prim) × List Nat)
  | 0, bytes => .ok ([], bytes)
  | n + 1, bytes =>
    match decodePrim bytes with
    | .error e => .error e
    | .ok (k, rest) =>
      match decodePrim rest with
      | .error e => .error e
      | .ok (v, rest) =>
        match decodeEntries n rest with
        | .error e => .error e
        | .ok (entries, rest) => .ok ((k, v) :: entries, rest)

/-- Modelled from the spec: the dispatch of the decoder on the tag of a field
value, a mapping or a primitive. -/
def decodeField : List Nat → Except CodecError (FieldValue × List Nat)
  | [] => .error .MalformedStreamError
  | tag :: rest =>
    if tag = tagMapping then
      match readCount rest with
      | .error e => .error e
      | .ok (n, rest) =>
        match decodeEntries n rest with
        | .error e => .error e
        | .ok (entries, rest) => .ok (.mapping entries, rest)
    else
      match decodePrim (tag :: rest) with
      | .error e => .error e
      | .ok (p, rest) => .ok (.primitive p, rest)

/-- Modelled from the spec: the `n` fields of a compound read from the stream. -/
def decodeFields : Nat → List Nat → Except CodecError (List FieldValue × List Nat)
  | 0, bytes => .ok ([], bytes)
  | n + 1, bytes =>
    match decodeField bytes with
    | .error e => .error e
    | .ok (f, rest) =>
      match decodeFields n rest with
      | .error e => .error e
      | .ok (fields, rest) => .ok (f :: fields, rest)

/-- Modelled from the spec: `decode(bytes) -> Value | Error` on a compound: its
tag, its wire type name, resolved by the Type Registry (`UnknownTypeError` for a
name that is not registered), then the fields of the shape; a stream that does
not start with the tag of a compound is a type mismatch, a stream that ends
early or goes on after the value is malformed. -/
def decode (reg : Registry) (bytes : List Nat) : Except CodecError Compound :=
  match bytes with
  | [] => .error .MalformedStreamError
  | tag :: rest =>
    if tag = tagCompound then
      match decodeBytes rest with
      | .error e => .error e
      | .ok (name, rest) =>
        match reg.resolve name with
        | .error e => .error e
        | .ok shape =>
          match decodeFields shape.length rest with
          | .error e => .error e
          | .ok (fields, rest) =>
            if rest = [] then .ok ⟨shape, fields⟩ else .error .MalformedStreamError
    else .error .TypeMismatchError

/-- Primitives that the stream can carry: an integer of 64 bits, a float of 64
bits, a string or a byte sequence whose length is an `int32`. -/
def Prim.wf : Prim → Bool
  | .bool _ => true
  | .int x => decide (-2 ^ 63 ≤ x ∧ x < 2 ^ 63)
  | .float bits => decide (bits < 2 ^ 64)
  | .string s => decide (s.length < 2 ^ 31)
  | .bytes b => decide (b.length < 2 ^ 31)

/-- Field values that the stream can carry: a primitive that it can carry, or a
mapping of such primitives whose element count is an `int32`. -/
def FieldValue.wf : FieldValue → Bool
  | .primitive p => p.wf
  | .mapping entries =>
    decide (entries.length < 2 ^ 31) && entries.all (fun e => e.1.wf && e.2.wf)

/-- Registries that `register` builds from names that the stream can carry: no
wire type name is registered twice, and the length of each is an `int32`. -/
def Registry.WF (reg : Registry) : Prop :=
  (reg.map Prod.fst).Nodup ∧ reg.all (fun e => decide (e.1.length < 2 ^ 31)) = true

instance (reg : Registry) : Decidable reg.WF := by
  unfold Registry.WF
  infer_instance

/-- The shape of type `DubboRequest`: one field `Request`, a mapping, without
pointer level. -/
def dubboRequestShape : Shape :=
  [⟨Demo.bytesOf "Request", Demo.bytesOf "map[string]interface{}", 0⟩]

/-- The request whose field `Request` holds the mapping `entries`. -/
def dubboRequest (entries : List (Prim × Prim)) : Compound :=
  ⟨dubboRequestShape, [.mapping entries]⟩

/-! ## Notions on pointer types -/

/-- The type reached from `t` by `d` calls of `Elem`, each on a type of pointer
kind; `none` when a type on the way is not of pointer kind. -/
def elemTimes : Nat → GoType → Option GoType
  | 0, t => some t
  | d + 1, t =>
    if t.kind = Kind.Ptr then
      match t.elem? with
      | some e => elemTimes d e
      | none => none
    else none

/-- The pointer levels of the type are pointer type literals: no defined type
whose underlying type is a pointer is among them. -/
def literalPointers : GoType → Bool
  | .ptr e => literalPointers e
  | t => t.kind != Kind.Ptr

end Hessian

namespace Polaris

/-! ## Maps -/

/-- A map of the language, as the list of its entries; no key occurs twice in a
map built with `GoMap.set` and `GoMap.delete` from the empty map. -/
abbrev GoMap (κ α : Type) := List (κ × α)

/-- Index expression `m[k]` with its `ok`: the value of the key, if any. -/
def GoMap.get {κ α : Type} [DecidableEq κ] : GoMap κ α → κ → Option α
  | [], _ => none
  | (k1, v) :: rest, k => if k1 = k then some v else GoMap.get rest k

/-- The builtin `delete(m, k)`. -/
def GoMap.delete {κ α : Type} [DecidableEq κ] (m : GoMap κ α) (k : κ) : GoMap κ α :=
  m.filter (fun e => decide (e.1 ≠ k))

/-- Assignment `m[k] = v`. -/
def GoMap.set {κ α : Type} [DecidableEq κ] (m : GoMap κ α) (k : κ) (v : α) : GoMap κ α :=
  GoMap.delete m k ++ [(k, v)]

/-! ## Package `inmemory` of the service mesh client: the changes of the rate limit rules -/

/-- What `calcRateLimitDiffInfo` reads of a rule of `namingpb.RateLimit`, through
the getters: the value of its id and the value of its revision. -/
structure Rule where
  Id : String
  Revision : String
  deriving DecidableEq, Repr

/-- Type `common.RevisionChange`. -/
structure RevisionChange where
  OldRevision : String
  NewRevision : String
  deriving DecidableEq, Repr

/-- Type `common.RateLimitDiffInfo`. -/
structure RateLimitDiffInfo where
  UpdatedRules : GoMap String RevisionChange
  DeletedRules : GoMap String String
  deriving DecidableEq, Repr

/-- The body of the loop of `calcRateLimitDiffInfo` over the rules of the old
rule set, on the two maps. -/
def diffOldRule (maps : GoMap String RevisionChange × GoMap String String) (rule : Rule) :
    GoMap String RevisionChange × GoMap String String :=
  match maps.1.get rule.Id with
  | none => (maps.1, maps.2.set rule.Id rule.Revision)
  | some newRevision =>
    if newRevision.NewRevision = rule.Revision then (maps.1.delete rule.Id, maps.2)
    else (maps.1.set rule.Id { newRevision with OldRevision := rule.Revision }, maps.2)

/-- The first part of `calcRateLimitDiffInfo`: the map `updatedRules` after the
loop over the rules of the new rule set, when it is not nil. -/
def updatedOfNew (newRule : Option (List Rule)) : GoMap String RevisionChange :=
  match newRule with
  | some rules => rules.foldl (fun m rule => m.set rule.Id ⟨"", rule.Revision⟩) []
  | none => []

/-- The second part of `calcRateLimitDiffInfo`: the two maps after the loop over
the rules of the old rule set, when it is not nil. -/
def diffOfOld (oldRule : Option (List Rule)) (updatedRules : GoMap String RevisionChange) :
    GoMap String RevisionChange × GoMap String String :=
  match oldRule with
  | some rules => rules.foldl diffOldRule (updatedRules, [])
  | none => (updatedRules, [])

/-- Source `calcRateLimitDiffInfo`; a rule set is nil or the list of its rules. -/
def calcRateLimitDiffInfo (oldRule newRule : Option (List Rule)) : RateLimitDiffInfo :=
  let updatedRules := updatedOfNew newRule
  let maps := diffOfOld oldRule updatedRules
  ⟨maps.1, maps.2⟩

/-- Revision of the first rule of an id in a list of rules, if there is one. -/
def revisionIn : List Rule → String → Option String
  | [], _ => none
  | rule :: rest, id => if rule.Id = id then some rule.Revision else revisionIn rest id

/-- Revision of the rule of an id in a rule set, if the set has one. -/
def revisionOf : Option (List Rule) → String → Option String
  | none, _ => none
  | some rules, id => revisionIn rules id

/-- What `DeletedRules` is to hold for an id, from the revision of the id in the
old set and the one in the new set: the old revision of an id that the old set
has and the new set has not. -/
def deletedAt (old new : Option String) : Option String :=
  match old, new with
  | some o, none => some o
  | _, _ => none

/-- What `UpdatedRules` is to hold for an id, from the revision of the id in the
new set and the one in the old set: for an id of the new set that the old set has
not, the empty old revision and the new revision; for an id of both sets with
different revisions, the old and the new revision. -/
def updatedAt (new old : Option String) : Option RevisionChange :=
  match new, old with
  | some n, none => some ⟨"", n⟩
  | some n, some o => if n = o then none else some ⟨o, n⟩
  | none, _ => none

/-- The ids of the rules of a rule set are pairwise distinct. -/
def distinctIds : Option (List Rule) → Prop
  | none => True
  | some rules => (rules.map Rule.Id).Nodup

instance (rules : Option (List Rule)) : Decidable (distinctIds rules) := by
  cases rules <;> unfold distinctIds <;> infer_instance

/-! ## Package `data` of the service mesh client: the request of a quota -/

/-- What `parseArguments` reads of a `model.Argument`, through its methods. -/
structure Argument where
  ArgumentType : Int
  Key : String
  Value : String
  deriving DecidableEq, Repr

/-- What `InitByGetQuotaRequest` reads of a `model.QuotaRequestImpl`, through its
methods; the token count is a `uint32`. -/
structure QuotaRequestImpl where
  Namespace : String
  Service : String
  Token : Nat
  Method : String
  Arguments : List Argument
  deriving DecidableEq, Repr

/-- Type `model.ServiceKey`. -/
structure ServiceKey where
  Namespace : String
  Service : String
  deriving DecidableEq, Repr

/-- Type `CommonRateLimitRequest`, without the fields `RateLimitRule`, `Trigger`
and `CallResult`, whose types are not among the sources; a nil pointer and a nil
map are `none`. -/
structure CommonRateLimitRequest where
  QuotaRequest : Option QuotaRequestImpl
  DstService : ServiceKey
  Token : Nat
  Method : String
  Arguments : Option (GoMap Int (GoMap String String))
  ControlParam : ControlParam

/-- Source `clearValues`, on the fields of the model. -/
def CommonRateLimitRequest.clearValues (cl : CommonRateLimitRequest) :
    CommonRateLimitRequest :=
  { cl with QuotaRequest := none, Method := "", Token := 0, Arguments := none }

/-- Source `parseArguments`. -/
def parseArguments (arguments : List Argument) : GoMap Int (GoMap String String) :=
  if arguments.length = 0 then []
  else
    arguments.foldl (fun argumentMap argument =>
      let stringMatchArgumentMap : GoMap String String :=
        match argumentMap.get argument.ArgumentType with
        | some m => m
        | none => []
      argumentMap.set argument.ArgumentType
        (stringMatchArgumentMap.set argument.Key argument.Value)) []

/-- Source `InitByGetQuotaRequest`, with `BuildControlParam`, which is not among
the sources, as a parameter: it is given the request, the configuration and the
control parameters of the receiver, and returns the control parameters it leaves
there.  The assignments to the fields of the receiver are gathered field by
field; the request is taken not nil. -/
def CommonRateLimitRequest.InitByGetQuotaRequest {κ : Type}
    (BuildControlParam : QuotaRequestImpl → κ → Polaris.ControlParam → Polaris.ControlParam)
    (cl : CommonRateLimitRequest) (request : QuotaRequestImpl) (cfg : κ) :
    CommonRateLimitRequest :=
  let cl := cl.clearValues
  let controlParam := BuildControlParam request cfg cl.ControlParam
  let controlParam :=
    if controlParam.MaxRetry > 2 then { controlParam with MaxRetry := 2 } else controlParam
  let controlParam :=
    if controlParam.RetryInterval > Millisecond * 500 then
      { controlParam with RetryInterval := Millisecond * 500 }
    else controlParam
  let controlParam :=
    if controlParam.Timeout > Millisecond * 500 then
      { controlParam with Timeout := Millisecond * 500 }
    else controlParam
  let token := request.Token
  let token := if token = 0 then 1 else token
  { QuotaRequest := some request
    DstService := ⟨request.Namespace, request.Service⟩
    Token := token
    Method := request.Method
    Arguments := some (parseArguments request.Arguments)
    ControlParam := controlParam }

end Polaris

namespace Hessian

/-! ## Lemmas on the model -/

@[simp] theorem pure_run {α : Type} (a : α) (m : Mem) : (pure a : M α) m = .ok a m := rfl

@[simp] theorem bind_run {α β : Type} (x : M α) (f : α → M β) (m : Mem) :
    (x >>= f) m = match x m with
      | .ok a m1 => f a m1
      | .panic s m1 => .panic s m1
      | .stuck => .stuck := rfl

@[simp] theorem goPanic_run {α : Type} (s : String) (m : Mem) :
    (goPanic s : M α) m = .panic s m := rfl

@[simp] theorem stuck_run {α : Type} (m : Mem) : (stuck : M α) m = .stuck := rfl

theorem unpackTypeLoop_base {B : GoType} (h : B.kind ≠ Kind.Ptr) (d : Nat) :
    unpackTypeLoop B d = (B, d) := by
  cases B <;> simp_all [unpackTypeLoop, GoType.kind]

theorem unpackTypeLoop_ptrN {B : GoType} (h : B.kind ≠ Kind.Ptr) (n d : Nat) :
    unpackTypeLoop (ptrN n B) d = (B, d + n) := by
  induction n generalizing d with
  | zero => simpa [ptrN] using unpackTypeLoop_base h d
  | succ n ih => simp [ptrN, unpackTypeLoop, ih]; omega

theorem UnpackType_ptrN {B : GoType} (h : B.kind ≠ Kind.Ptr) (n : Nat) :
    UnpackType (ptrN n B) = (B, n) := by
  simp [UnpackType, unpackTypeLoop_ptrN h]

theorem ptrN_inj {B : GoType} (h : B.kind ≠ Kind.Ptr) {i j : Nat}
    (e : ptrN i B = ptrN j B) : i = j := by
  have := congrArg (fun t => (UnpackType t).2) e
  simpa [UnpackType_ptrN h] using this

@[simp] theorem ptrN_succ_kind (n : Nat) (B : GoType) : (ptrN (n + 1) B).kind = Kind.Ptr := rfl

@[simp] theorem ptrN_succ_elem (n : Nat) (B : GoType) :
    (ptrN (n + 1) B).elem? = some (ptrN n B) := rfl

/-! ### Memory -/

theorem load_eq_some {m : Mem} {a : Nat} {x : GoVal} (h : m.load a = some x) :
    ∃ t, m.vars[a]? = some ⟨t, x⟩ := by
  unfold Mem.load at h
  cases hv : m.vars[a]? with
  | none => simp [hv] at h
  | some v => 
    simp [hv] at h
    exact ⟨v.typ, by cases v; simp_all⟩

theorem typeAt_eq_some {m : Mem} {a : Nat} {t : GoType} (h : m.typeAt a = some t) :
    ∃ x, m.vars[a]? = some ⟨t, x⟩ := by
  unfold Mem.typeAt at h
  cases hv : m.vars[a]? with
  | none => simp [hv] at h
  | some v => 
    simp [hv] at h
    exact ⟨v.val, by cases v; simp_all⟩

theorem load_store_same {m : Mem} {a : Nat} {t : GoType} (x : GoVal)
    (h : m.typeAt a = some t) : (m.store a x).load a = some x := by
  obtain ⟨y, hy⟩ := typeAt_eq_some h
  have hlt : a < m.vars.length := by
    by_contra hc
    simp [List.getElem?_eq_none (Nat.le_of_not_lt hc)] at hy
  simp [Mem.store, Mem.load, hy, List.getElem?_set_self, hlt]

theorem load_store_other {m : Mem} {a b : Nat} (x : GoVal) (h : a ≠ b) :
    (m.store a x).load b = m.load b := by
  unfold Mem.store Mem.load
  cases hv : m.vars[a]? with
  | none => simp
  | some v => simp [List.getElem?_set_ne h]

theorem typeAt_store {m : Mem} {a b : Nat} (x : GoVal) :
    (m.store a x).typeAt b = m.typeAt b := by
  unfold Mem.store Mem.typeAt
  cases hv : m.vars[a]? with
  | none => simp
  | some v =>
    by_cases h : a = b
    · subst h
      have hlt : a < m.vars.length := by
        by_contra hc
        simp [List.getElem?_eq_none (Nat.le_of_not_lt hc)] at hv
      simp [List.getElem?_set_self, hlt, hv]
    · simp [List.getElem?_set_ne h]

/-! ### Growing the memory -/

theorem load_append {m : Mem} {l : List Var} {a : Nat} {x : GoVal} (h : m.load a = some x) :
    (Mem.mk (m.vars ++ l)).load a = some x := by
  obtain ⟨t, ht⟩ := load_eq_some h
  have hlt : a < m.vars.length := by
    by_contra hc
    simp [List.getElem?_eq_none (Nat.le_of_not_lt hc)] at ht
  simp [Mem.load, List.getElem?_append_left hlt, ht]

theorem typeAt_append {m : Mem} {l : List Var} {a : Nat} {t : GoType} (h : m.typeAt a = some t) :
    (Mem.mk (m.vars ++ l)).typeAt a = some t := by
  obtain ⟨x, hx⟩ := typeAt_eq_some h
  have hlt : a < m.vars.length := by
    by_contra hc
    simp [List.getElem?_eq_none (Nat.le_of_not_lt hc)] at hx
  simp [Mem.typeAt, List.getElem?_append_left hlt, hx]

theorem load_ext {m m1 : Mem} {l : List Var} (e : m1.vars = m.vars ++ l) {a : Nat} {x : GoVal}
    (h : m.load a = some x) : m1.load a = some x := by
  cases m1; simp only at e; subst e; exact load_append h

theorem typeAt_ext {m m1 : Mem} {l : List Var} (e : m1.vars = m.vars ++ l) {a : Nat} {t : GoType}
    (h : m.typeAt a = some t) : m1.typeAt a = some t := by
  cases m1; simp only at e; subst e; exact typeAt_append h

/-! ### Chains of pointers -/

theorem ptrN_ptr (n : Nat) (T : GoType) : ptrN n (.ptr T) = ptrN (n + 1) T := by
  induction n with
  | zero => rfl
  | succ n ih => simp [ptrN, ih]

theorem ptrN_add (i n : Nat) (B : GoType) : ptrN i (ptrN n B) = ptrN (i + n) B := by
  induction i with
  | zero => simp [ptrN]
  | succ i ih => simp [ptrN, ih, Nat.succ_add]

theorem chain_derefN {m : Mem} {B : GoType} {n : Nat} {c b : GoVal} (h : Chain m B n c b) :
    m.derefN n c = some b := by
  induction n generalizing c with
  | zero => simpa [Chain, Mem.derefN] using h
  | succ n ih =>
    obtain ⟨a, x, rfl, _, hl, hc⟩ := h
    simp [Mem.derefN, hl, ih hc]

theorem chain_transfer {m m1 : Mem} {B : GoType} {n : Nat} {c b : GoVal}
    (h : Chain m B n c b)
    (keep : ∀ a j, j < n → m.typeAt a = some (ptrN j B) →
      m1.typeAt a = m.typeAt a ∧ m1.load a = m.load a) :
    Chain m1 B n c b := by
  induction n generalizing c with
  | zero => exact h
  | succ n ih =>
    obtain ⟨a, x, rfl, ht, hl, hc⟩ := h
    obtain ⟨k1, k2⟩ := keep a n (Nat.lt_succ_self n) ht
    refine ⟨a, x, rfl, by rw [k1, ht], by rw [k2, hl], ?_⟩
    exact ih hc (fun a j hj hta => keep a j (Nat.lt_succ_of_lt hj) hta)

theorem chain_ext {m m1 : Mem} {l : List Var} (e : m1.vars = m.vars ++ l) {B : GoType} {n : Nat}
    {c b : GoVal} (h : Chain m B n c b) : Chain m1 B n c b := by
  apply chain_transfer h
  intro a j _ hta
  obtain ⟨x, hx⟩ := typeAt_eq_some hta
  have hl : m.load a = some x := by simp [Mem.load, hx]
  rw [typeAt_ext e hta, hta, load_ext e hl, hl]
  exact ⟨rfl, rfl⟩

theorem chain_store {m : Mem} {B : GoType} (hB : B.kind ≠ Kind.Ptr) {n k r : Nat} {c b y : GoVal}
    (h : Chain m B n c b) (hr : m.typeAt r = some (ptrN k B)) (hk : n ≤ k) :
    Chain (m.store r y) B n c b := by
  apply chain_transfer h
  intro a j hj hta
  have hne : r ≠ a := by
    rintro rfl
    rw [hr] at hta
    have := ptrN_inj hB (Option.some.inj hta)
    omega
  exact ⟨typeAt_store y, load_store_other y hne⟩

theorem chain_snoc {m : Mem} {T : GoType} {j a : Nat} {y c : GoVal}
    (h : Chain m (.ptr T) j y (.ptr (some a))) (ht : m.typeAt a = some T)
    (hl : m.load a = some c) : Chain m T (j + 1) y c := by
  induction j generalizing y with
  | zero =>
    simp only [Chain] at h
    subst h
    exact ⟨a, c, rfl, ht, hl, rfl⟩
  | succ j ih =>
    obtain ⟨a1, x, rfl, ht1, hl1, hc⟩ := h
    exact ⟨a1, x, rfl, by rw [ht1, ptrN_ptr], hl1, ih hc⟩

theorem chain_comp {m : Mem} {B : GoType} {n j : Nat} {y c b : GoVal}
    (h1 : Chain m (ptrN n B) j y c) (h2 : Chain m B n c b) : Chain m B (j + n) y b := by
  induction j generalizing y with
  | zero =>
    simp only [Chain] at h1
    subst h1
    simpa using h2
  | succ j ih =>
    obtain ⟨a1, x, rfl, ht1, hl1, hc⟩ := h1
    have e : j + 1 + n = (j + n) + 1 := by omega
    rw [e]
    exact ⟨a1, x, rfl, by rw [ht1, ptrN_add], hl1, ih hc⟩

/-! ### Values -/

theorem holds_read {m : Mem} {v : RValue} {t : GoType} {c : GoVal} (h : Holds m v t c) :
    v.read m = .ok c m := by
  rcases h with rfl | ⟨a, rfl, hl⟩
  · rfl
  · simp [RValue.read, hl]

theorem holds_ext {m m1 : Mem} {l : List Var} (e : m1.vars = m.vars ++ l) {v : RValue}
    {t : GoType} {c : GoVal} (h : Holds m v t c) : Holds m1 v t c := by
  rcases h with rfl | ⟨a, rfl, hl⟩
  · exact Or.inl rfl
  · exact Or.inr ⟨a, rfl, load_ext e hl⟩

theorem holds_typ {m : Mem} {v : RValue} {t : GoType} {c : GoVal} (h : Holds m v t c) :
    v.typ m = .ok t m := by
  rcases h with rfl | ⟨a, rfl, _⟩ <;> rfl

theorem holds_kind {m : Mem} {v : RValue} {t : GoType} {c : GoVal} (h : Holds m v t c) :
    v.kind = t.kind := by
  rcases h with rfl | ⟨a, rfl, _⟩ <;> rfl

theorem holds_valid {m : Mem} {v : RValue} {t : GoType} {c : GoVal} (h : Holds m v t c) :
    v.isValid = true := by
  rcases h with rfl | ⟨a, rfl, _⟩ <;> rfl

theorem set_holds {m : Mem} {T U : GoType} {r : Nat} {v : RValue} {y : GoVal}
    (hr : m.typeAt r = some U) (hv : Holds m v T y) :
    (RValue.ref T r false).set v m = .ok () (m.store r y) := by
  obtain ⟨x, hx⟩ := typeAt_eq_some hr
  rcases hv with rfl | ⟨a, rfl, hl⟩
  · simp [RValue.set, RValue.mustBeAssignable, RValue.mustBeExported, RValue.assignTo,
      directlyAssignable, RValue.read, writeVar, hx]
  · simp [RValue.set, RValue.mustBeAssignable, RValue.mustBeExported, RValue.assignTo,
      directlyAssignable, RValue.read, writeVar, hx, hl]

theorem elem_holds {m : Mem} {T : GoType} {v : RValue} {a : Nat}
    (hv : Holds m v (.ptr T) (.ptr (some a))) :
    v.elem m = .ok (.ref T a false) m := by
  rcases hv with rfl | ⟨a0, rfl, hl⟩
  · simp [RValue.elem, GoType.kind, RValue.read, GoType.elem?]
  · simp [RValue.elem, GoType.kind, RValue.read, GoType.elem?, hl]

theorem elem_holds_nil {m : Mem} {T : GoType} {v : RValue}
    (hv : Holds m v (.ptr T) (.ptr none)) :
    v.elem m = .ok .invalid m := by
  rcases hv with rfl | ⟨a0, rfl, hl⟩
  · simp [RValue.elem, GoType.kind, RValue.read, GoType.elem?]
  · simp [RValue.elem, GoType.kind, RValue.read, GoType.elem?, hl]

theorem elemLoop_chain {m : Mem} {T : GoType} {j : Nat} {v : RValue} {c y : GoVal}
    (hv : Holds m v (ptrN j T) c) (hc : Chain m T j c y) :
    ∃ v1, elemLoop j v m = .ok v1 m ∧ Holds m v1 T y := by
  induction j generalizing v c with
  | zero =>
    simp only [Chain] at hc
    subst hc
    exact ⟨v, rfl, hv⟩
  | succ j ih =>
    obtain ⟨a, x, rfl, ht, hl, hc1⟩ := hc
    have h1 : Holds m (.ref (ptrN j T) a false) (ptrN j T) x := Or.inr ⟨a, rfl, hl⟩
    obtain ⟨v1, e1, hv1⟩ := ih h1 hc1
    refine ⟨v1, ?_, hv1⟩
    simp [elemLoop, elem_holds hv, e1]

theorem PackPtr_holds {m : Mem} {T : GoType} {v : RValue} {c : GoVal} (hv : Holds m v T c) :
    PackPtr v m = .ok (.val (.ptr T) (.ptr (some m.vars.length)) false)
      ⟨m.vars ++ [⟨T, c⟩]⟩ := by
  have hm : (Mem.mk (m.vars ++ [⟨T, zeroOf T⟩])).vars = m.vars ++ [⟨T, zeroOf T⟩] := rfl
  have hv1 := holds_ext hm hv
  have hs := set_holds (m := Mem.mk (m.vars ++ [⟨T, zeroOf T⟩])) (T := T) (U := T)
    (r := m.vars.length) (by simp [Mem.typeAt]) hv1
  simp [PackPtr, holds_typ hv, New, Mem.alloc, RValue.elem, GoType.kind, RValue.read,
    GoType.elem?, hs, Mem.store]

theorem packLoop_chain {m : Mem} {T : GoType} {j : Nat} {v : RValue} {c : GoVal}
    (hv : Holds m v T c) :
    ∃ v1 m1 y l, packLoop j v m = .ok v1 m1 ∧ Holds m1 v1 (ptrN j T) y ∧
      Chain m1 T j y c ∧ m1.vars = m.vars ++ l ∧ l.length = j := by
  induction j generalizing m v T c with
  | zero => exact ⟨v, m, c, [], rfl, hv, rfl, by simp, rfl⟩
  | succ j ih =>
    have hp := PackPtr_holds hv
    have h1 : Holds (Mem.mk (m.vars ++ [⟨T, c⟩])) (.val (.ptr T) (.ptr (some m.vars.length)) false)
        (.ptr T) (.ptr (some m.vars.length)) := Or.inl rfl
    obtain ⟨v1, m1, y, l, e1, hv1, hc1, hm1, hlen⟩ := ih h1
    refine ⟨v1, m1, y, [⟨T, c⟩] ++ l, ?_, ?_, ?_, ?_, ?_⟩
    · simp [packLoop, hp, e1]
    · rw [← ptrN_ptr]; exact hv1
    · have hm0 : m1.vars = (Mem.mk (m.vars ++ [⟨T, c⟩])).vars ++ l := hm1
      apply chain_snoc hc1
      · exact typeAt_ext hm0 (by simp [Mem.typeAt])
      · exact load_ext hm0 (by simp [Mem.load])
    · simpa using hm1
    · simp [hlen, Nat.add_comm]

/-! ### The root addressable value of a destination -/

theorem rootAt_le {m : Mem} {B : GoType} {n a r k : Nat} (h : RootAt m B n a r k) : k ≤ n := by
  induction n generalizing a with
  | zero => obtain ⟨_, rfl, _⟩ := h; exact Nat.le_refl _
  | succ n ih =>
    obtain ⟨_, ⟨_, _, rfl⟩ | ⟨a1, _, h1⟩⟩ := h
    · exact Nat.le_refl _
    · exact Nat.le_succ_of_le (ih h1)

theorem rootAt_type {m : Mem} {B : GoType} {n a r k : Nat} (h : RootAt m B n a r k) :
    m.typeAt r = some (ptrN k B) := by
  induction n generalizing a with
  | zero => obtain ⟨rfl, rfl, ht⟩ := h; exact ht
  | succ n ih =>
    obtain ⟨ht, ⟨_, rfl, rfl⟩ | ⟨a1, _, h1⟩⟩ := h
    · exact ht
    · exact ih h1

theorem rootAt_nil {m : Mem} {B : GoType} {n a r k : Nat} (h : RootAt m B n a r k) :
    k = 0 ∨ m.load r = some (.ptr none) := by
  induction n generalizing a with
  | zero => obtain ⟨_, rfl, _⟩ := h; exact Or.inl rfl
  | succ n ih =>
    obtain ⟨_, ⟨hl, rfl, rfl⟩ | ⟨a1, _, h1⟩⟩ := h
    · exact Or.inr hl
    · exact ih h1

theorem unpackRootLoop_rootAt {m : Mem} {B : GoType} {n a r k : Nat} (h : RootAt m B n a r k) :
    unpackRootLoop n (.ref (ptrN n B) a false) m = .ok (.ref (ptrN k B) r false) m := by
  induction n generalizing a with
  | zero =>
    obtain ⟨rfl, rfl, _⟩ := h
    rfl
  | succ n ih =>
    obtain ⟨_, ⟨hl, rfl, rfl⟩ | ⟨a1, hl, h1⟩⟩ := h
    · simp [unpackRootLoop, RValue.kind, RValue.elem, RValue.read, hl, RValue.canAddr]
    · simp [unpackRootLoop, RValue.kind, RValue.elem, RValue.read, hl, RValue.canAddr, ih h1]

theorem UnpackToRoot_rootAt {m : Mem} {B : GoType} (hB : B.kind ≠ Kind.Ptr) {n a r k : Nat}
    (h : RootAt m B n a r k) :
    UnpackToRootAddressableValue (.ref (ptrN n B) a false) m =
      .ok (.ref (ptrN k B) r false) m := by
  simp [UnpackToRootAddressableValue, RValue.ptrDepth, UnpackType_ptrN hB,
    unpackRootLoop_rootAt h]

theorem WF_var {m : Mem} (h : m.WF) {a : Nat} {c : Var} (hc : m.vars[a]? = some c) :
    c.okIn m = true := by
  have hmem : c ∈ m.vars := List.getElem?_mem hc
  exact (List.all_eq_true.mp h) c hmem

theorem rootAt_of_WF {m : Mem} (h : m.WF) {B : GoType} {n a : Nat}
    (ht : m.typeAt a = some (ptrN n B)) : ∃ r k, RootAt m B n a r k := by
  induction n generalizing a with
  | zero => exact ⟨a, 0, rfl, rfl, ht⟩
  | succ n ih =>
    obtain ⟨x, hx⟩ := typeAt_eq_some ht
    have hok := WF_var h hx
    have hl : m.load a = some x := by simp [Mem.load, hx]
    cases x with
    | ptr p =>
      cases p with
      | none => exact ⟨a, n + 1, ht, Or.inl ⟨hl, rfl, rfl⟩⟩
      | some a1 =>
        have ht1 : m.typeAt a1 = some (ptrN n B) := by
          simpa [Var.okIn] using hok
        obtain ⟨r, k, hr⟩ := ih ht1
        exact ⟨r, k, ht, Or.inr ⟨a1, hl, hr⟩⟩
    | _ => simp [Var.okIn] at hok

/-- After the root has been given a content that leads to `b`, while the
variables of deeper pointer types are as before, the destination leads to `b`. -/
theorem rootAt_chain {m m1 : Mem} {B : GoType} {n a r k : Nat} {y b : GoVal}
    (h : RootAt m B n a r k)
    (keep : ∀ x j, k < j → m.typeAt x = some (ptrN j B) →
      m1.typeAt x = m.typeAt x ∧ m1.load x = m.load x)
    (hr : m1.load r = some y) (hrt : m1.typeAt r = some (ptrN k B))
    (hy : Chain m1 B k y b) :
    ∃ c, m1.load a = some c ∧ Chain m1 B n c b := by
  induction n generalizing a with
  | zero =>
    obtain ⟨rfl, rfl, _⟩ := h
    exact ⟨y, hr, hy⟩
  | succ n ih =>
    obtain ⟨ht, ⟨_, rfl, rfl⟩ | ⟨a1, hl, h1⟩⟩ := h
    · exact ⟨y, hr, hy⟩
    · have hk := rootAt_le h1
      obtain ⟨k1, k2⟩ := keep a (n + 1) (Nat.lt_succ_of_le hk) ht
      obtain ⟨c, hc1, hc2⟩ := ih h1
      refine ⟨.ptr (some a1), by rw [k2, hl], a1, c, rfl, ?_, hc1, hc2⟩
      cases n with
      | zero =>
        obtain ⟨rfl, rfl, _⟩ := h1
        exact hrt
      | succ n =>
        obtain ⟨ht1, h1c⟩ := h1
        rcases h1c with ⟨_, rfl, rfl⟩ | ⟨a2, hl2, h2⟩
        · exact hrt
        · have hk2 := rootAt_le h2
          obtain ⟨k3, _⟩ := keep a1 (n + 1) (Nat.lt_succ_of_le hk2) ht1
          rw [k3, ht1]

/-! ### `SetValue` on pointer depths -/

/-- One call of `SetValue`: the body of the function, in which the method `add`
delivers the value of a resolved holder by a nested call. -/
theorem SetValue_eq (fp : FloatOps) (dest v : RValue) (m : Mem) :
    SetValue fp dest v m =
      SetValueBody fp (_refHolder.add (SetValueN fp m.vars.length)) dest v m := rfl

/-- A value that is not a pointer to a reference holder is set without a call
of the method `add`. -/
theorem SetValueBody_add (fp : FloatOps) (add1 add2 : Option Nat → RValue → M Unit)
    (dest : RValue) {v : RValue} (hv : v.typeOf? ≠ some _refHolderPtrType) (m : Mem) :
    SetValueBody fp add1 dest v m = SetValueBody fp add2 dest v m := by
  cases v with
  | invalid => rfl
  | val t x ro =>
    have ht : t ≠ _refHolderPtrType := by simpa [RValue.typeOf?] using hv
    unfold SetValueBody
    simp [RValue.isValid, RValue.typ, ht]
  | ref t a ro =>
    have ht : t ≠ _refHolderPtrType := by simpa [RValue.typeOf?] using hv
    unfold SetValueBody
    simp [RValue.isValid, RValue.typ, ht]

/-- The body of `SetValue` either does not call the method `add`, or ends with
one call of it. -/
theorem SetValueBody_cases (fp : FloatOps) (dest v : RValue) (m : Mem) :
    (∃ r, ∀ add, SetValueBody fp add dest v m = r) ∨
    (∃ p m1, ∀ add, SetValueBody fp add dest v m = add p dest m1) := by
  by_cases hvalid : v.isValid = true
  · cases hvt : v.typ m with
    | ok vt m1 =>
      cases hdt : dest.typ m1 with
      | ok dt m2 =>
        by_cases hc : dest.canSet = true ∧ dt = vt
        · left
          exact ⟨dest.set v m2, fun add => by
            simp only [SetValueBody, hvalid, hvt, hdt, bind_run, Bool.not_true,
              Bool.false_eq_true, if_false, Bool.and_eq_true, beq_iff_eq]
            rw [if_pos hc]⟩
        · by_cases hh : vt = _refHolderPtrType
          · cases hi : v.interface m2 with
            | ok h m3 =>
              cases hp : asRefHolder h with
              | some p =>
                right
                exact ⟨p, m3, fun add => by
                  simp only [SetValueBody, hvalid, hvt, hdt, bind_run, Bool.not_true,
                    Bool.false_eq_true, if_false, Bool.and_eq_true, beq_iff_eq]
                  rw [if_neg hc, if_pos hh]
                  simp [hi, hp]⟩
              | none =>
                left
                exact ⟨.stuck, fun add => by
                  simp only [SetValueBody, hvalid, hvt, hdt, bind_run, Bool.not_true,
                    Bool.false_eq_true, if_false, Bool.and_eq_true, beq_iff_eq]
                  rw [if_neg hc, if_pos hh]
                  simp [hi, hp]⟩
            | panic s m3 =>
              left
              exact ⟨.panic s m3, fun add => by
                simp only [SetValueBody, hvalid, hvt, hdt, bind_run, Bool.not_true,
                  Bool.false_eq_true, if_false, Bool.and_eq_true, beq_iff_eq]
                rw [if_neg hc, if_pos hh]
                simp [hi]⟩
            | stuck =>
              left
              exact ⟨.stuck, fun add => by
                simp only [SetValueBody, hvalid, hvt, hdt, bind_run, Bool.not_true,
                  Bool.false_eq_true, if_false, Bool.and_eq_true, beq_iff_eq]
                rw [if_neg hc, if_pos hh]
                simp [hi]⟩
          · left
            refine ⟨SetValueBody fp (fun _ _ => stuck) dest v m, fun add => ?_⟩
            simp only [SetValueBody, hvalid, hvt, hdt, bind_run, Bool.not_true,
              Bool.false_eq_true, if_false, Bool.and_eq_true, beq_iff_eq]
            rw [if_neg hc, if_neg hh, if_neg hc, if_neg hh]
      | panic s m2 =>
        left
        exact ⟨.panic s m2, fun add => by simp [SetValueBody, hvalid, hvt, hdt]⟩
      | stuck =>
        left
        exact ⟨.stuck, fun add => by simp [SetValueBody, hvalid, hvt, hdt]⟩
    | panic s m1 =>
      left
      exact ⟨.panic s m1, fun add => by simp [SetValueBody, hvalid, hvt]⟩
    | stuck =>
      left
      exact ⟨.stuck, fun add => by simp [SetValueBody, hvalid, hvt]⟩
  · left
    exact ⟨.ok () m, fun add => by simp [SetValueBody, hvalid]⟩

/-- More nesting allowed does not change an outcome. -/
theorem SetValueN_succ (fp : FloatOps) (n : Nat) (dest v : RValue) (m : Mem)
    (h : SetValueN fp n dest v m ≠ .stuck) :
    SetValueN fp (n + 1) dest v m = SetValueN fp n dest v m := by
  induction n generalizing dest v m with
  | zero => exact absurd rfl h
  | succ n ih =>
    rw [SetValueN] at h ⊢
    rw [SetValueN]
    rcases SetValueBody_cases fp dest v m with ⟨r, hr⟩ | ⟨p, m1, hr⟩
    · rw [hr, hr]
    · rw [hr] at h ⊢
      rw [hr]
      unfold _refHolder.add at h ⊢
      cases p with
      | none => rfl
      | some a =>
        cases hl : m1.load a with
        | none => simp [hl]
        | some x =>
          cases x <;> simp only [hl] at h ⊢
          rename_i ds hv resolved
          cases resolved
          · simp
          · simp only [if_true] at h ⊢
            exact ih dest hv m1 h

@[simp] theorem typ_ref (t : GoType) (a : Nat) (ro : Bool) :
    (RValue.ref t a ro).typ = pure t := rfl

@[simp] theorem typ_val (t : GoType) (x : GoVal) (ro : Bool) :
    (RValue.val t x ro).typ = pure t := rfl

theorem ptrN_ne {B : GoType} (hB : B.kind ≠ Kind.Ptr) {i j : Nat} (h : i ≠ j) :
    ptrN i B ≠ ptrN j B := fun e => h (ptrN_inj hB e)

/-- The destination's root has at most the depth of `v`: `v` is dereferenced
down to the depth of the root and stored there. -/
theorem SetValue_unwrap (fp : FloatOps) {m : Mem} {B : GoType} (hB : B.kind ≠ Kind.Ptr)
    {N M a r k : Nat} {v : RValue} {c y : GoVal} (hNM : N ≠ M)
    (hroot : RootAt m B M a r k) (hkN : k ≤ N)
    (hv : Holds m v (ptrN N B) c) (hc : Chain m (ptrN k B) (N - k) c y)
    (hh : ptrN N B ≠ _refHolderPtrType) :
    SetValue fp (.ref (ptrN M B) a false) v m = .ok () (m.store r y) := by
  have hv2 : Holds m v (ptrN (N - k) (ptrN k B)) c := by
    rw [ptrN_add, Nat.sub_add_cancel hkN]; exact hv
  obtain ⟨v1, e1, hv1⟩ := elemLoop_chain hv2 hc
  have hset := set_holds (T := ptrN k B) (rootAt_type hroot) hv1
  have hne : ptrN M B ≠ ptrN N B := ptrN_ne hB (Ne.symm hNM)
  rw [SetValue_eq]
  unfold SetValueBody
  simp only [holds_valid hv, Bool.not_true, Bool.false_eq_true, if_false]
  simp [holds_typ hv, RValue.canSet, hne, hh, UnpackType_ptrN hB,
    UnpackToRoot_rootAt hB hroot]
  rcases Nat.lt_or_ge k N with hlt | hge
  · have h1 : ¬ (N < k) := by omega
    simp [h1, hlt, e1, hset]
  · have hk : k = N := by omega
    subst hk
    simp only [Nat.sub_self, elemLoop] at e1
    simp at e1
    subst e1
    simp [hset]

/-- The destination's root is deeper than `v`: `v` is packed in new pointers up
to the depth of the root and stored there. -/
theorem SetValue_wrap (fp : FloatOps) {m : Mem} {B : GoType} (hB : B.kind ≠ Kind.Ptr)
    {N M a r k : Nat} {v : RValue} {c : GoVal} (hNM : N ≠ M)
    (hroot : RootAt m B M a r k) (hkN : N < k)
    (hv : Holds m v (ptrN N B) c)
    (hh : ptrN N B ≠ _refHolderPtrType) :
    ∃ m1 y l, SetValue fp (.ref (ptrN M B) a false) v m = .ok () (m1.store r y) ∧
      m1.vars = m.vars ++ l ∧ l.length = k - N ∧ Chain m1 (ptrN N B) (k - N) y c := by
  obtain ⟨v1, m1, y, l, e1, hv1, hc1, hm1, hlen⟩ := packLoop_chain (j := k - N) hv
  have hv2 : Holds m1 v1 (ptrN k B) y := by
    rw [ptrN_add, Nat.sub_add_cancel (Nat.le_of_lt hkN)] at hv1; exact hv1
  have hset := set_holds (T := ptrN k B) (typeAt_ext hm1 (rootAt_type hroot)) hv2
  have hne : ptrN M B ≠ ptrN N B := ptrN_ne hB (Ne.symm hNM)
  refine ⟨m1, y, l, ?_, hm1, hlen, hc1⟩
  rw [SetValue_eq]
  unfold SetValueBody
  simp only [holds_valid hv, Bool.not_true, Bool.false_eq_true, if_false]
  simp [holds_typ hv, RValue.canSet, hne, hh, UnpackType_ptrN hB,
    UnpackToRoot_rootAt hB hroot, hkN, e1, hset]

theorem chain_split {m : Mem} {B : GoType} {n j : Nat} {c b : GoVal}
    (h : Chain m B (j + n) c b) : ∃ y, Chain m (ptrN n B) j c y ∧ Chain m B n y b := by
  induction j generalizing c with
  | zero => exact ⟨c, rfl, by simpa using h⟩
  | succ j ih =>
    have e : j + 1 + n = (j + n) + 1 := by omega
    rw [e] at h
    obtain ⟨a1, x, rfl, ht1, hl1, hc⟩ := h
    obtain ⟨y, hy1, hy2⟩ := ih hc
    exact ⟨y, ⟨a1, x, rfl, by rw [ht1, ptrN_add], hl1, hy1⟩, hy2⟩

theorem store_length (m : Mem) (a : Nat) (x : GoVal) :
    (m.store a x).vars.length = m.vars.length := by
  unfold Mem.store
  cases m.vars[a]? <;> simp

theorem load_lt {m : Mem} {a : Nat} {x : GoVal} (h : m.load a = some x) :
    a < m.vars.length := by
  obtain ⟨t, ht⟩ := load_eq_some h
  by_contra hc
  simp [List.getElem?_eq_none (Nat.le_of_not_lt hc)] at ht

theorem typeAt_lt {m : Mem} {a : Nat} {t : GoType} (h : m.typeAt a = some t) :
    a < m.vars.length := by
  obtain ⟨x, hx⟩ := typeAt_eq_some h
  by_contra hc
  simp [List.getElem?_eq_none (Nat.le_of_not_lt hc)] at hx

theorem load_ext_lt {m m1 : Mem} {l : List Var} (e : m1.vars = m.vars ++ l) {a : Nat}
    (h : a < m.vars.length) : m1.load a = m.load a := by
  simp [Mem.load, e, List.getElem?_append_left h]

theorem typeAt_ext_lt {m m1 : Mem} {l : List Var} (e : m1.vars = m.vars ++ l) {a : Nat}
    (h : a < m.vars.length) : m1.typeAt a = m.typeAt a := by
  simp [Mem.typeAt, e, List.getElem?_append_left h]

/-- What `SetValue` achieves on pointer depths: it returns, it writes only the
root of the destination, it allocates exactly the pointers that `v` lacks to
reach the depth of the root, and the destination then leads to what `v` leads
to. -/
theorem SetValue_depth (fp : FloatOps) {m : Mem} {B : GoType} (hB : B.kind ≠ Kind.Ptr)
    {N M a r k : Nat} {v : RValue} {c b : GoVal} (hNM : N ≠ M)
    (hroot : RootAt m B M a r k)
    (hv : Holds m v (ptrN N B) c) (hc : Chain m B N c b)
    (hh : ptrN N B ≠ _refHolderPtrType) :
    ∃ mf cf, SetValue fp (.ref (ptrN M B) a false) v m = .ok () mf ∧
      mf.vars.length = m.vars.length + (k - N) ∧
      (∀ x, x ≠ r → x < m.vars.length → mf.load x = m.load x) ∧
      mf.load a = some cf ∧ Chain mf B M cf b := by
  have hrt := rootAt_type hroot
  rcases Nat.lt_or_ge N k with hlt | hge
  · obtain ⟨m1, y, l, hs, hm1, hlen, hy⟩ := SetValue_wrap fp hB hNM hroot hlt hv hh
    have hrt1 : m1.typeAt r = some (ptrN k B) := typeAt_ext hm1 hrt
    have hchain : Chain m1 B k y b := by
      have := chain_comp hy (chain_ext hm1 hc)
      rwa [Nat.sub_add_cancel (Nat.le_of_lt hlt)] at this
    have hkeep : ∀ x j, k < j → m.typeAt x = some (ptrN j B) →
        (m1.store r y).typeAt x = m.typeAt x ∧ (m1.store r y).load x = m.load x := by
      intro x j hj hx
      have hne : r ≠ x := by
        rintro rfl
        rw [hrt] at hx
        have := ptrN_inj hB (Option.some.inj hx)
        omega
      have hxl := typeAt_lt hx
      exact ⟨by rw [typeAt_store, typeAt_ext_lt hm1 hxl],
        by rw [load_store_other y hne, load_ext_lt hm1 hxl]⟩
    obtain ⟨cf, h1, h2⟩ := rootAt_chain hroot hkeep (load_store_same y hrt1)
      (by rw [typeAt_store, hrt1]) (chain_store hB hchain hrt1 (Nat.le_refl k))
    refine ⟨m1.store r y, cf, hs, ?_, ?_, h1, h2⟩
    · rw [store_length, hm1, List.length_append, hlen]
    · intro x hx hxl
      rw [load_store_other y (Ne.symm hx), load_ext_lt hm1 hxl]
  · have hcs : Chain m B ((N - k) + k) c b := by
      rwa [Nat.sub_add_cancel hge]
    obtain ⟨y, hy1, hy2⟩ := chain_split hcs
    have hs := SetValue_unwrap fp hB hNM hroot hge hv hy1 hh
    have hkeep : ∀ x j, k < j → m.typeAt x = some (ptrN j B) →
        (m.store r y).typeAt x = m.typeAt x ∧ (m.store r y).load x = m.load x := by
      intro x j hj hx
      have hne : r ≠ x := by
        rintro rfl
        rw [hrt] at hx
        have := ptrN_inj hB (Option.some.inj hx)
        omega
      exact ⟨typeAt_store y, load_store_other y hne⟩
    obtain ⟨cf, h1, h2⟩ := rootAt_chain hroot hkeep (load_store_same y hrt)
      (by rw [typeAt_store, hrt]) (chain_store hB hy2 hrt (Nat.le_refl k))
    refine ⟨m.store r y, cf, hs, ?_, ?_, h1, h2⟩
    · rw [store_length]; omega
    · intro x hx _
      exact load_store_other y (Ne.symm hx)

/-! ### `SetValue` between types that are not pointers -/

theorem UnpackType_base {B : GoType} (h : B.kind ≠ Kind.Ptr) : UnpackType B = (B, 0) := by
  simpa [UnpackType] using unpackTypeLoop_base h 0

theorem ne_refHolderPtr {t : GoType} (h : t.kind ≠ Kind.Ptr) : t ≠ _refHolderPtrType := by
  rintro rfl
  exact h rfl

theorem UnpackToRoot_base {dest : RValue} {dt : GoType} (hd : dest.typeOf? = some dt)
    (hk : dt.kind ≠ Kind.Ptr) (m : Mem) :
    UnpackToRootAddressableValue dest m = .ok dest m := by
  cases dest with
  | invalid => simp [RValue.typeOf?] at hd
  | val t x ro =>
    simp only [RValue.typeOf?, Option.some.injEq] at hd
    subst hd
    simp [UnpackToRootAddressableValue, RValue.ptrDepth, UnpackType_base hk, unpackRootLoop]
  | ref t a ro =>
    simp only [RValue.typeOf?, Option.some.injEq] at hd
    subst hd
    simp [UnpackToRootAddressableValue, RValue.ptrDepth, UnpackType_base hk, unpackRootLoop]

theorem typ_of_typeOf {v : RValue} {t : GoType} (h : v.typeOf? = some t) : v.typ = pure t := by
  cases v <;> simp_all [RValue.typeOf?]

theorem valid_of_typeOf {v : RValue} {t : GoType} (h : v.typeOf? = some t) :
    v.isValid = true := by
  cases v <;> simp_all [RValue.typeOf?, RValue.isValid]

/-- Between two different types that are not pointers, `SetValue` is the final
switch on the kind of the destination. -/
theorem SetValue_switch (fp : FloatOps) (dest : RValue) {v : RValue} {dt vt : GoType}
    (hd : dest.typeOf? = some dt) (hv : v.typeOf? = some vt)
    (hdk : dt.kind ≠ Kind.Ptr) (hvk : vt.kind ≠ Kind.Ptr) (hne : dt ≠ vt) (m : Mem) :
    SetValue fp dest v m =
      (match dt.kind with
        | .Float32 | .Float64 => do
          let x ← v.float fp
          dest.setFloat fp x
        | .Int | .Int8 | .Int16 | .Int32 | .Int64 => do
          let x ← v.int
          dest.setInt x
        | .Uint | .Uint8 | .Uint16 | .Uint32 | .Uint64 => do
          let x ← v.int
          dest.setUint (wrapUnsigned 64 x)
        | .Ptr => SetValueToPtrDest fp dest v
        | _ => dest.set v) m := by
  rw [SetValue_eq]
  unfold SetValueBody
  simp only [valid_of_typeOf hv, Bool.not_true, Bool.false_eq_true, if_false]
  simp [typ_of_typeOf hv, typ_of_typeOf hd, hne, ne_refHolderPtr hvk, UnpackType_base hdk,
    UnpackType_base hvk, UnpackToRoot_base hd hdk]

theorem holds_typeOf {m : Mem} {v : RValue} {t : GoType} {c : GoVal} (h : Holds m v t c) :
    v.typeOf? = some t := by
  rcases h with rfl | ⟨a, rfl, _⟩ <;> rfl

theorem int_kind_ne_ptr {k : Kind} (h : validateIntKind k = true) : k ≠ Kind.Ptr := by
  rintro rfl; simp [validateIntKind] at h

theorem uint_kind_ne_ptr {k : Kind} (h : validateUintKind k = true) : k ≠ Kind.Ptr := by
  rintro rfl; simp [validateUintKind] at h

theorem float_kind_ne_ptr {k : Kind} (h : validateFloatKind k = true) : k ≠ Kind.Ptr := by
  rintro rfl; simp [validateFloatKind] at h

theorem int_holds {m : Mem} {v : RValue} {vt : GoType} {x : Int}
    (hv : Holds m v vt (.int x)) (hk : validateIntKind vt.kind = true) :
    v.int m = .ok x m := by
  have hkind := holds_kind hv
  have hr := holds_read hv
  unfold RValue.int
  rw [hkind]
  cases hvk : vt.kind <;> simp [validateIntKind, hvk] at hk <;> simp [hr]

theorem float_holds (fp : FloatOps) {m : Mem} {v : RValue} {vt : GoType} {b : Nat}
    (hv : Holds m v vt (.float b)) (hk : validateFloatKind vt.kind = true) :
    v.float fp m = .ok (floatOfKind fp vt.kind b) m := by
  have hkind := holds_kind hv
  have hr := holds_read hv
  unfold RValue.float
  rw [hkind]
  cases hvk : vt.kind <;> simp [validateFloatKind, hvk] at hk <;> simp [hr, floatOfKind]

theorem writeVar_typed {m : Mem} {a : Nat} {t : GoType} (x : GoVal)
    (h : m.typeAt a = some t) : writeVar a x m = .ok () (m.store a x) := by
  obtain ⟨y, hy⟩ := typeAt_eq_some h
  simp [writeVar, hy]

theorem setInt_ref {m : Mem} {dt t : GoType} {a : Nat} (x : Int)
    (ha : m.typeAt a = some t) (hk : validateIntKind dt.kind = true) :
    (RValue.ref dt a false).setInt x m =
      .ok () (m.store a (.int (wrapSigned dt.kind.bits x))) := by
  unfold RValue.setInt
  cases hdk : dt.kind <;> simp [validateIntKind, hdk] at hk <;>
    simp [RValue.mustBeAssignable, hdk, writeVar_typed _ ha]

theorem setUint_ref {m : Mem} {dt t : GoType} {a : Nat} (x : Int)
    (ha : m.typeAt a = some t) (hk : validateUintKind dt.kind = true) :
    (RValue.ref dt a false).setUint x m =
      .ok () (m.store a (.int (wrapUnsigned dt.kind.bits x))) := by
  unfold RValue.setUint
  cases hdk : dt.kind <;> simp [validateUintKind, hdk] at hk <;>
    simp [RValue.mustBeAssignable, hdk, writeVar_typed _ ha]

theorem setFloat_ref (fp : FloatOps) {m : Mem} {dt t : GoType} {a : Nat} (x : Nat)
    (ha : m.typeAt a = some t) (hk : validateFloatKind dt.kind = true) :
    (RValue.ref dt a false).setFloat fp x m =
      .ok () (m.store a (.float (floatToKind fp dt.kind x))) := by
  unfold RValue.setFloat
  cases hdk : dt.kind <;> simp [validateFloatKind, hdk] at hk <;>
    simp [RValue.mustBeAssignable, hdk, writeVar_typed _ ha, floatToKind]

theorem wrapUnsigned_wrapUnsigned {k : Kind} (h : validateUintKind k = true) (x : Int) :
    wrapUnsigned k.bits (wrapUnsigned 64 x) = x % 2 ^ k.bits := by
  unfold wrapUnsigned
  apply Int.emod_emod_of_dvd
  cases k <;> simp [validateUintKind] at h <;> simp [Kind.bits] <;> norm_num

theorem SetValue_int_to_int (fp : FloatOps) {m : Mem} {v : RValue} {vt dt t : GoType} {x : Int}
    {a : Nat} (hv : Holds m v vt (.int x)) (hvk : validateIntKind vt.kind = true)
    (hne : dt ≠ vt) (ha : m.typeAt a = some t) (hdk : validateIntKind dt.kind = true) :
    SetValue fp (.ref dt a false) v m =
      .ok () (m.store a (.int (wrapSigned dt.kind.bits x))) := by
  rw [SetValue_switch fp (.ref dt a false) rfl (holds_typeOf hv) (int_kind_ne_ptr hdk)
    (int_kind_ne_ptr hvk) hne]
  have h1 := setInt_ref (m := m) (a := a) x ha hdk
  cases hk : dt.kind <;> simp [validateIntKind, hk] at hdk <;>
    simp [int_holds hv hvk, h1, hk]

theorem SetValue_int_to_uint (fp : FloatOps) {m : Mem} {v : RValue} {vt dt t : GoType} {x : Int}
    {a : Nat} (hv : Holds m v vt (.int x)) (hvk : validateIntKind vt.kind = true)
    (hne : dt ≠ vt) (ha : m.typeAt a = some t) (hdk : validateUintKind dt.kind = true) :
    SetValue fp (.ref dt a false) v m = .ok () (m.store a (.int (x % 2 ^ dt.kind.bits))) := by
  rw [SetValue_switch fp (.ref dt a false) rfl (holds_typeOf hv) (uint_kind_ne_ptr hdk)
    (int_kind_ne_ptr hvk) hne, ← wrapUnsigned_wrapUnsigned hdk]
  have h1 := setUint_ref (m := m) (a := a) (wrapUnsigned 64 x) ha hdk
  cases hk : dt.kind <;> simp [validateUintKind, hk] at hdk <;>
    simp [int_holds hv hvk, h1, hk]

theorem SetValue_float_to_float (fp : FloatOps) {m : Mem} {v : RValue} {vt dt t : GoType}
    {b : Nat} {a : Nat} (hv : Holds m v vt (.float b)) (hvk : validateFloatKind vt.kind = true)
    (hne : dt ≠ vt) (ha : m.typeAt a = some t) (hdk : validateFloatKind dt.kind = true) :
    SetValue fp (.ref dt a false) v m =
      .ok () (m.store a (.float (floatToKind fp dt.kind (floatOfKind fp vt.kind b)))) := by
  rw [SetValue_switch fp (.ref dt a false) rfl (holds_typeOf hv) (float_kind_ne_ptr hdk)
    (float_kind_ne_ptr hvk) hne]
  have h1 := setFloat_ref fp (m := m) (a := a) (floatOfKind fp vt.kind b) ha hdk
  cases hk : dt.kind <;> simp [validateFloatKind, hk] at hdk <;>
    simp [float_holds fp hv hvk, h1, hk]

theorem SetValue_same_type (fp : FloatOps) {m : Mem} {v : RValue} {t u : GoType} {c : GoVal}
    {a : Nat} (hv : Holds m v t c) (ha : m.typeAt a = some u) :
    SetValue fp (.ref t a false) v m = .ok () (m.store a c) := by
  rw [SetValue_eq]
  unfold SetValueBody
  simp only [holds_valid hv, Bool.not_true, Bool.false_eq_true, if_false]
  simp [holds_typ hv, RValue.canSet, set_holds ha hv]

theorem wrapSigned_spec (w : Nat) (hw : 1 ≤ w) (x : Int) :
    -(2 : Int) ^ (w - 1) ≤ wrapSigned w x ∧ wrapSigned w x < (2 : Int) ^ (w - 1) ∧
      (wrapSigned w x - x) % (2 : Int) ^ w = 0 := by
  obtain ⟨u, rfl⟩ : ∃ u, w = u + 1 := ⟨w - 1, by omega⟩
  have hpos : (0 : Int) < 2 ^ u := by positivity
  have h2 : (2 : Int) ^ (u + 1) = 2 * 2 ^ u := by ring
  have hm : (0 : Int) < 2 ^ (u + 1) := by positivity
  unfold wrapSigned
  simp only [Nat.add_sub_cancel]
  have hlo := Int.emod_nonneg (x + 2 ^ u) (ne_of_gt hm)
  have hhi := Int.emod_lt_of_pos (x + 2 ^ u) hm
  refine ⟨by omega, by omega, ?_⟩
  have e : (x + 2 ^ u) % 2 ^ (u + 1) - 2 ^ u - x =
      -(2 ^ (u + 1) * ((x + 2 ^ u) / 2 ^ (u + 1))) := by
    have := Int.emod_add_ediv (x + 2 ^ u) (2 ^ (u + 1))
    omega
  rw [e]
  simp

theorem int_bits_pos {k : Kind} (h : validateIntKind k = true) : 1 ≤ k.bits := by
  cases k <;> simp [validateIntKind] at h <;> simp [Kind.bits]

theorem float_int_ne {vt dt : GoType} (hvk : validateFloatKind vt.kind = true)
    (hdk : validateIntKind dt.kind = true ∨ validateUintKind dt.kind = true) : dt ≠ vt := by
  rintro rfl
  cases hk : dt.kind <;>
    simp [validateFloatKind, validateIntKind, validateUintKind, hk] at hvk hdk

theorem float_int_panics {v : RValue} {vt : GoType} (hv : v.typeOf? = some vt)
    (hvk : validateFloatKind vt.kind = true) (m : Mem) :
    v.int m =
      .panic "reflect: call of reflect.Value.Int on a Value that is not a signed integer" m := by
  have hkind : v.kind = vt.kind := by
    cases v <;> simp_all [RValue.typeOf?, RValue.kind]
  unfold RValue.int
  rw [hkind]
  cases hk : vt.kind <;> simp [validateFloatKind, hk] at hvk <;> rfl

/-! ### `SetSlice` on byte slices -/

theorem EnsureRawValue_rawBytes {m : Mem} {objects : Iface} {b : GoVal}
    (h : RawBytes m objects b) :
    ∃ v, EnsureRawValue objects m = .ok v m ∧ Holds m v (.slice .uint8) b := by
  rcases h with rfl | ⟨v, rfl, hv⟩ | ⟨p, ds, hv, r, rfl, hl, hh⟩ | ⟨v, p, ds, hv, r, rfl, hp, hl, hh⟩
  · refine ⟨.val (.slice .uint8) b false, ?_, Or.inl rfl⟩
    cases b <;>
      simp [EnsureRawValue, asReflectValue, asRefHolder, ValueOf, reflectValueType,
        _refHolderPtrType]
  · refine ⟨v, ?_, hv⟩
    have hi : v.interface m = .ok (some (.slice .uint8, b)) m := by
      rcases hv with rfl | ⟨a, rfl, hl⟩
      · simp [RValue.interface, RValue.read, GoType.kind]
      · simp [RValue.interface, RValue.read, hl, GoType.kind]
    cases b <;>
      simp [EnsureRawValue, asReflectValue, holds_valid hv, hi, asRefHolder, _refHolderPtrType]
  · refine ⟨hv, ?_, hh⟩
    simp [EnsureRawValue, asReflectValue, asRefHolder, _refHolder.value, hl, reflectValueType,
      _refHolderPtrType, _refHolderType]
  · refine ⟨hv, ?_, hh⟩
    have hi : v.interface m = .ok (some (_refHolderPtrType, .ptr (some p))) m := by
      rcases hp with rfl | ⟨a, rfl, hl1⟩
      · simp [RValue.interface, RValue.read, _refHolderPtrType, GoType.kind]
      · simp [RValue.interface, RValue.read, hl1, _refHolderPtrType, GoType.kind]
    simp [EnsureRawValue, asReflectValue, holds_valid hp, hi, asRefHolder, _refHolder.value, hl]

theorem rawBytes_ne_none {m : Mem} {objects : Iface} {b : GoVal} (h : RawBytes m objects b) :
    ∃ o, objects = some o := by
  rcases h with rfl | ⟨v, rfl, _⟩ | ⟨p, ds, hv, r, rfl, _, _⟩ | ⟨v, p, ds, hv, r, rfl, _, _, _⟩ <;>
    exact ⟨_, rfl⟩

theorem SetSlice_bytes (fp : FloatOps) {m : Mem} {objects : Iface} {b : GoVal} {a : Nat}
    {t : GoType} (ha : m.typeAt a = some t) (hb : RawBytes m objects b) :
    SetSlice fp (.ref (.slice .uint8) a false) objects m = .ok none (m.store a b) := by
  obtain ⟨v, hv, hh⟩ := EnsureRawValue_rawBytes hb
  obtain ⟨o, rfl⟩ := rawBytes_ne_none hb
  have hs := set_holds ha hh
  simp [SetSlice, UnpackPtrValue, RValue.ptrDepth, UnpackType, unpackTypeLoop,
    unpackPtrValueLoop, UnpackPtrType, typeElem, GoType.elem?, GoType.kind, hv, hs]

theorem elemsOf_congr {m m1 : Mem} {base n : Nat}
    (h : ∀ i, i < n → m1.load (base + i) = m.load (base + i)) :
    m1.elemsOf (.slice (some base) n) = m.elemsOf (.slice (some base) n) := by
  simp only [Mem.elemsOf]
  apply List.map_congr_left
  intro i hi
  exact h i (List.mem_range.mp hi)

/-! ### A sequence set into a destination of another kind -/

theorem kind_of_typeOf {v : RValue} {t : GoType} (h : v.typeOf? = some t) : v.kind = t.kind := by
  cases v <;> simp_all [RValue.typeOf?, RValue.kind]

theorem seq_int_panics {v : RValue} {vt : GoType} (hv : v.typeOf? = some vt)
    (hk : sequenceKind vt.kind = true) (m : Mem) :
    v.int m =
      .panic "reflect: call of reflect.Value.Int on a Value that is not a signed integer" m := by
  unfold RValue.int
  rw [kind_of_typeOf hv]
  cases h : vt.kind <;> simp [sequenceKind, h] at hk <;> rfl

theorem seq_uint_panics {v : RValue} {vt : GoType} (hv : v.typeOf? = some vt)
    (hk : sequenceKind vt.kind = true) (m : Mem) :
    v.uint m =
      .panic "reflect: call of reflect.Value.Uint on a Value that is not an unsigned integer"
        m := by
  unfold RValue.uint
  rw [kind_of_typeOf hv]
  cases h : vt.kind <;> simp [sequenceKind, h] at hk <;> rfl

theorem seq_float_panics (fp : FloatOps) {v : RValue} {vt : GoType} (hv : v.typeOf? = some vt)
    (hk : sequenceKind vt.kind = true) (m : Mem) :
    v.float fp m =
      .panic "reflect: call of reflect.Value.Float on a Value that is not a float" m := by
  unfold RValue.float
  rw [kind_of_typeOf hv]
  cases h : vt.kind <;> simp [sequenceKind, h] at hk <;> rfl

theorem panicsAt_iff {α : Type} (r : Res α) (m : Mem) :
    r.panicsAt m ↔ ∃ msg, r = .panic msg m := by
  cases r with
  | ok a m1 => simp [Res.panicsAt]
  | panic s m1 =>
    simp only [Res.panicsAt, Res.panic.injEq]
    constructor
    · rintro rfl; exact ⟨s, rfl, rfl⟩
    · rintro ⟨_, _, h⟩; exact h
  | stuck => simp [Res.panicsAt]

@[simp] theorem panicsAt_panic {α : Type} (s : String) (m : Mem) :
    (Res.panic s m : Res α).panicsAt m := rfl

theorem panicsAt_ite {α : Type} {c : Prop} [Decidable c] {x y : M α} {m : Mem}
    (hx : (x m).panicsAt m) (hy : (y m).panicsAt m) :
    ((if c then x else y) m).panicsAt m := by
  split_ifs <;> assumption

theorem panicsAt_bind {α β : Type} {x : M α} {f : α → M β} {m : Mem}
    (hx : (x m).panicsAt m) : ((x >>= f) m).panicsAt m := by
  rw [panicsAt_iff] at hx
  obtain ⟨msg, h⟩ := hx
  simp [h]

theorem set_panics_of_kind (dt : GoType) {v : RValue} {vt : GoType} (hv : v.typeOf? = some vt)
    (hne : dt.kind ≠ vt.kind) (hi : dt.kind ≠ Kind.Interface) (r : Nat) (m : Mem) :
    ((RValue.ref dt r false).set v m).panicsAt m := by
  have hda : directlyAssignable dt vt = false := by
    have : dt ≠ vt := fun e => hne (by rw [e])
    simp [directlyAssignable, this, hne]
  have him : implements dt vt = false := by simp [implements, hi]
  cases v with
  | invalid => simp [RValue.typeOf?] at hv
  | val t x ro =>
    simp only [RValue.typeOf?, Option.some.injEq] at hv
    subst hv
    cases ro <;>
      simp [RValue.set, RValue.mustBeAssignable, RValue.mustBeExported, RValue.assignTo, hda, him]
  | ref t a ro =>
    simp only [RValue.typeOf?, Option.some.injEq] at hv
    subst hv
    cases ro <;>
      simp [RValue.set, RValue.mustBeAssignable, RValue.mustBeExported, RValue.assignTo, hda, him]

theorem seq_kind_ne_ptr {k : Kind} (h : sequenceKind k = true) : k ≠ Kind.Ptr := by
  rintro rfl; simp [sequenceKind] at h

theorem seq_kind_ne_string {k : Kind} (h : sequenceKind k = true) : k ≠ Kind.String := by
  rintro rfl; simp [sequenceKind] at h

theorem SetValueToPtrDest_seq_panics (fp : FloatOps) {v : RValue} {vt T : GoType}
    (hv : v.typeOf? = some vt) (hk : sequenceKind vt.kind = true) (r : Nat) (m : Mem) :
    (SetValueToPtrDest fp (.ref (.ptr T) r false) v m).panicsAt m := by
  have h1 := seq_int_panics hv hk m
  have h2 := seq_uint_panics hv hk m
  have h3 := seq_float_panics fp hv hk m
  have hs : (v.kind == Kind.String) = false := by
    rw [kind_of_typeOf hv]
    simpa using seq_kind_ne_string hk
  have h4 := set_panics_of_kind (.ptr T) hv
    (fun e => seq_kind_ne_ptr hk e.symm) (by simp [GoType.kind]) r m
  have p1 : (v.int m).panicsAt m := by rw [h1]; rfl
  have p2 : (v.uint m).panicsAt m := by rw [h2]; rfl
  have p3 : (v.float fp m).panicsAt m := by rw [h3]; rfl
  unfold SetValueToPtrDest
  simp only [typ_ref, bind_run, pure_run, hs, Bool.false_eq_true, if_false]
  repeat' apply panicsAt_ite
  all_goals first
    | exact panicsAt_bind p1
    | exact panicsAt_bind p2
    | exact panicsAt_bind p3
    | exact h4

theorem plain_kind_ne_ptr {k : Kind} (h : plainKind k = true) : k ≠ Kind.Ptr := by
  rintro rfl; simp [plainKind] at h

theorem plain_ne_seq {k1 k2 : Kind} (h1 : plainKind k1 = true) (h2 : sequenceKind k2 = true) :
    k1 ≠ k2 := by
  rintro rfl
  cases k1 <;> simp [plainKind, sequenceKind] at h1 h2

/-! ### `ConvertSliceValueType`, item by item -/

theorem index_slice {m : Mem} {v : RValue} {vt S : GoType} {base n i : Nat}
    (hv : Holds m v vt (.slice (some base) n)) (hk : vt.kind = Kind.Slice)
    (hS : vt.elem? = some S) (hi : i < n) :
    v.index i m = .ok (.ref S (base + i) false) m := by
  rcases hv with rfl | ⟨a, rfl, hl⟩
  · simp [RValue.index, hk, hS, RValue.read, hi]
  · simp [RValue.index, hk, hS, RValue.read, hl, hi]

theorem interface_item {m : Mem} {S : GoType} {a : Nat} {x : GoVal} {item : Iface}
    (hl : m.load a = some x) (hit : itemOf S x = some item) :
    (RValue.ref S a false).interface m = .ok item m := by
  unfold itemOf at hit
  by_cases hk : S.kind = Kind.Interface
  · simp only [hk, if_true] at hit
    cases x <;> simp at hit
    subst hit
    simp [RValue.interface, RValue.read, hl, hk]
  · simp only [hk, if_false, Option.some.injEq] at hit
    subst hit
    simp [RValue.interface, RValue.read, hl, hk]

theorem asReflectValue_none {t : GoType} (x : GoVal) (h : t ≠ reflectValueType) :
    asReflectValue (some (t, x)) = none := by
  cases x <;> simp [asReflectValue, h]

theorem zeroOf_float {E : GoType} (h : validateFloatKind E.kind = true) :
    zeroOf E = .float 0 := by
  induction E with
  | named n u ih => exact ih h
  | _ => first | rfl | simp [validateFloatKind, GoType.kind] at h

theorem zeroOf_int {E : GoType} (h : validateIntKind E.kind = true) : zeroOf E = .int 0 := by
  induction E with
  | named n u ih => exact ih h
  | _ => first | rfl | simp [validateIntKind, GoType.kind] at h

theorem zeroOf_uint {E : GoType} (h : validateUintKind E.kind = true) : zeroOf E = .int 0 := by
  induction E with
  | named n u ih => exact ih h
  | _ => first | rfl | simp [validateUintKind, GoType.kind] at h

theorem wrapSigned_zero {k : Kind} (h : validateIntKind k = true) : wrapSigned k.bits 0 = 0 := by
  cases k <;> simp [validateIntKind] at h <;> simp [Kind.bits, wrapSigned]

theorem wrapUnsigned_zero (w : Nat) : wrapUnsigned w 0 = 0 := by
  simp [wrapUnsigned]

theorem uint_holds {m : Mem} {v : RValue} {vt : GoType} {x : Int}
    (hv : Holds m v vt (.int x)) (hk : validateUintKind vt.kind = true) :
    v.uint m = .ok x m := by
  have hkind := holds_kind hv
  have hr := holds_read hv
  unfold RValue.uint
  rw [hkind]
  cases hvk : vt.kind <;> simp [validateUintKind, hvk] at hk <;> simp [hr]

theorem floatToKind_zero (fp : FloatOps) (hz : fp.narrow (fp.widen 0) = 0) (k : Kind) :
    floatToKind fp k (floatOfKind fp k 0) = 0 := by
  by_cases h : k = Kind.Float32
  · simp [floatToKind, floatOfKind, h, hz]
  · simp [floatToKind, floatOfKind, h]

theorem not_and_self_kind (k1 k2 : Kind) (h : k1 = k2) :
    (!(k1 == Kind.Ptr) && k2 == Kind.Ptr) = false := by
  subst h
  cases k1 <;> rfl

theorem not_ptr_and (k1 k2 : Kind) (h : k2 ≠ Kind.Ptr) :
    (!(k1 == Kind.Ptr) && k2 == Kind.Ptr) = false := by
  cases k2 <;> simp at h ⊢

/-- The second half of the loop body, once the item Value is known: an item
Value `iv` of type `t` holding `x`, not unpacked, is converted and stored. -/
theorem storeItem_numeric_float (fp : FloatOps) {m : Mem} {destTyp E t u : GoType}
    {L n i : Nat} {b : Nat} {iv : RValue}
    (hE : destTyp.elem? = some E) (hdk : destTyp.kind = Kind.Slice) (hi : i < n)
    (hL : m.typeAt (L + i) = some u) (hiv : Holds m iv t (.float b))
    (hEk : validateFloatKind E.kind = true) (htk : validateFloatKind t.kind = true) :
    (do
      let d ← (RValue.val destTyp (.slice (some L) n) false).index i
      let x ← iv.float fp
      d.setFloat fp x) m =
      .ok () (m.store (L + i) (.float (floatToKind fp E.kind (floatOfKind fp t.kind b)))) := by
  have h1 := index_slice (m := m) (v := .val destTyp (.slice (some L) n) false)
    (Or.inl rfl) hdk hE hi
  simp [h1, float_holds fp hiv htk, setFloat_ref fp _ hL hEk]

theorem storeItem_numeric_int {m : Mem} {destTyp E t u : GoType}
    {L n i : Nat} {z : Int} {iv : RValue}
    (hE : destTyp.elem? = some E) (hdk : destTyp.kind = Kind.Slice) (hi : i < n)
    (hL : m.typeAt (L + i) = some u) (hiv : Holds m iv t (.int z))
    (hEk : validateIntKind E.kind = true) (htk : validateIntKind t.kind = true) :
    (do
      let d ← (RValue.val destTyp (.slice (some L) n) false).index i
      let x ← iv.int
      d.setInt x) m =
      .ok () (m.store (L + i) (.int (wrapSigned E.kind.bits z))) := by
  have h1 := index_slice (m := m) (v := .val destTyp (.slice (some L) n) false)
    (Or.inl rfl) hdk hE hi
  simp [h1, int_holds hiv htk, setInt_ref _ hL hEk]

theorem storeItem_numeric_uint {m : Mem} {destTyp E t u : GoType}
    {L n i : Nat} {z : Int} {iv : RValue}
    (hE : destTyp.elem? = some E) (hdk : destTyp.kind = Kind.Slice) (hi : i < n)
    (hL : m.typeAt (L + i) = some u) (hiv : Holds m iv t (.int z))
    (hEk : validateUintKind E.kind = true) (htk : validateUintKind t.kind = true) :
    (do
      let d ← (RValue.val destTyp (.slice (some L) n) false).index i
      let x ← iv.uint
      d.setUint x) m =
      .ok () (m.store (L + i) (.int (wrapUnsigned E.kind.bits z))) := by
  have h1 := index_slice (m := m) (v := .val destTyp (.slice (some L) n) false)
    (Or.inl rfl) hdk hE hi
  simp [h1, uint_holds hiv htk, setUint_ref _ hL hEk]

theorem convertItem_step (fp : FloatOps) (hz : fp.narrow (fp.widen 0) = 0) {m : Mem}
    {v : RValue} {vt S destTyp E u : GoType} {base n i L : Nat} {x y : GoVal} {item : Iface}
    (hv : Holds m v vt (.slice (some base) n)) (hk : vt.kind = Kind.Slice)
    (hS : vt.elem? = some S) (hE : destTyp.elem? = some E) (hdk : destTyp.kind = Kind.Slice)
    (hi : i < n) (hl : m.load (base + i) = some x) (hit : itemOf S x = some item)
    (hc : coerceItem fp E item = some y) (hL : m.typeAt (L + i) = some u) :
    convertItem fp destTyp E.kind (.val destTyp (.slice (some L) n) false) v i m =
      .ok () (m.store (L + i) y) := by
  have hsl := index_slice (m := m) (v := .val destTyp (.slice (some L) n) false)
    (Or.inl rfl) hdk hE hi
  unfold convertItem
  simp only [bind_run, index_slice hv hk hS hi, interface_item hl hit]
  cases item with
  | none =>
    simp only [coerceItem, Option.some.injEq] at hc
    subst hc
    have hiv : Holds m (Zero E) E (zeroOf E) := Or.inl rfl
    have hcond := not_and_self_kind E.kind E.kind rfl
    by_cases hf : validateFloatKind E.kind = true
    · have h := storeItem_numeric_float fp hE hdk hi hL (zeroOf_float hf ▸ hiv) hf hf
      rw [floatToKind_zero fp hz] at h
      simpa [asReflectValue, typeElem, hE, Zero, RValue.kind, hcond, hf, zeroOf_float hf]
        using h
    · by_cases hin : validateIntKind E.kind = true
      · have h := storeItem_numeric_int hE hdk hi hL (zeroOf_int hin ▸ hiv) hin hin
        rw [wrapSigned_zero hin] at h
        simpa [asReflectValue, typeElem, hE, Zero, RValue.kind, hcond, hf, hin,
          zeroOf_int hin] using h
      · by_cases hu : validateUintKind E.kind = true
        · have h := storeItem_numeric_uint hE hdk hi hL (zeroOf_uint hu ▸ hiv) hu hu
          rw [wrapUnsigned_zero] at h
          simpa [asReflectValue, typeElem, hE, Zero, RValue.kind, hcond, hf, hin, hu,
            zeroOf_uint hu] using h
        · have h := SetValue_same_type fp hiv hL
          simpa [asReflectValue, typeElem, hE, Zero, RValue.kind, hcond, hf, hin, hu, hsl]
            using h
  | some p =>
    obtain ⟨t, x1⟩ := p
    simp only [coerceItem] at hc
    by_cases hf : validateFloatKind E.kind = true
    · simp only [hf, if_true] at hc
      cases x1 <;> simp at hc
      rename_i b
      obtain ⟨htk, rfl⟩ := hc
      have ht : t ≠ reflectValueType := by
        rintro rfl; simp [reflectValueType, GoType.kind, validateFloatKind] at htk
      have hiv : Holds m (.val t (.float b) false) t (.float b) := Or.inl rfl
      have h := storeItem_numeric_float fp hE hdk hi hL hiv hf htk
      simpa [asReflectValue_none _ ht, ValueOf, RValue.kind,
        float_kind_ne_ptr htk, hf] using h
    · by_cases hin : validateIntKind E.kind = true
      · simp only [hf, hin, if_true, if_false, Bool.false_eq_true] at hc
        cases x1 <;> simp at hc
        rename_i z
        obtain ⟨htk, rfl⟩ := hc
        have ht : t ≠ reflectValueType := by
          rintro rfl; simp [reflectValueType, GoType.kind, validateIntKind] at htk
        have hiv : Holds m (.val t (.int z) false) t (.int z) := Or.inl rfl
        have h := storeItem_numeric_int hE hdk hi hL hiv hin htk
        simpa [asReflectValue_none _ ht, ValueOf, RValue.kind,
          int_kind_ne_ptr htk, hf, hin] using h
      · by_cases hu : validateUintKind E.kind = true
        · simp only [hf, hin, hu, if_true, if_false, Bool.false_eq_true] at hc
          cases x1 <;> simp at hc
          rename_i z
          obtain ⟨htk, rfl⟩ := hc
          have ht : t ≠ reflectValueType := by
            rintro rfl; simp [reflectValueType, GoType.kind, validateUintKind] at htk
          have hiv : Holds m (.val t (.int z) false) t (.int z) := Or.inl rfl
          have h := storeItem_numeric_uint hE hdk hi hL hiv hu htk
          simpa [asReflectValue_none _ ht, ValueOf, RValue.kind,
            uint_kind_ne_ptr htk, hf, hin, hu] using h
        · simp only [hf, hin, hu, if_false, Bool.false_eq_true] at hc
          by_cases ht : t = reflectValueType
          · simp [ht] at hc
          · simp only [ht, if_false] at hc
            have hiv : Holds m (.val t x1 false) t x1 := Or.inl rfl
            by_cases hte : t = E
            · simp only [hte, if_true, Option.some.injEq] at hc
              subst hc
              subst hte
              have h := SetValue_same_type fp hiv hL
              simpa [asReflectValue_none _ ht, ValueOf, RValue.kind,
                not_and_self_kind t.kind t.kind rfl, hf, hin, hu, hsl] using h
            · simp only [hte, if_false] at hc
              by_cases hb : E = GoType.iface ∧ t.kind ≠ Kind.Ptr ∧ t.kind ≠ Kind.Interface
              · obtain ⟨rfl, hp, hni⟩ := hb
                simp [hp, hni] at hc
                subst hc
                have hda : directlyAssignable GoType.iface t = false := by
                  have h1 : GoType.iface ≠ t := Ne.symm hte
                  have h2 : Kind.Interface ≠ t.kind := Ne.symm hni
                  simp [directlyAssignable, h1, GoType.kind, h2]
                have h : SetValue fp (.ref .iface (L + i) false) (.val t x1 false) m =
                    .ok () (m.store (L + i) (.iface (some (t, x1)))) := by
                  rw [SetValue_switch fp (.ref .iface (L + i) false) rfl (holds_typeOf hiv)
                    (by simp [GoType.kind]) hp (Ne.symm hte)]
                  simp [GoType.kind, RValue.set, RValue.mustBeAssignable,
                    RValue.mustBeExported, RValue.assignTo, hda, implements, hni, RValue.read,
                    writeVar_typed _ hL]
                simpa [asReflectValue_none _ ht, ValueOf, RValue.kind, hp, hf, hin, hu, hsl]
                  using h
              · simp [hb] at hc

theorem store_append_map (A : List Var) (E : GoType) (vals : List GoVal) (i : Nat) (y : GoVal)
    (hi : i < vals.length) :
    (Mem.mk (A ++ vals.map (Var.mk E))).store (A.length + i) y =
      Mem.mk (A ++ (vals.set i y).map (Var.mk E)) := by
  have h1 : (A ++ vals.map (Var.mk E))[A.length + i]? = some ⟨E, vals[i]⟩ := by
    rw [List.getElem?_append_right (Nat.le_add_right _ _)]
    simp [hi]
  simp [Mem.store, h1, List.set_append_right, List.map_set]

theorem take_set_drop (vals ys : List GoVal) (i : Nat) (y : GoVal) (hi : i < vals.length)
    (hy : ys[i]? = some y) :
    (vals.set i y).take (i + 1) ++ ys.drop (i + 1) = vals.take i ++ ys.drop i := by
  have hlt : i < ys.length := by
    by_contra hc
    simp [List.getElem?_eq_none (Nat.le_of_not_lt hc)] at hy
  have hyi : ys[i] = y := by
    rw [List.getElem?_eq_getElem hlt] at hy
    exact Option.some.inj hy
  have ht : (vals.set i y).take i = vals.take i := by
    rw [List.set_take]
    exact List.set_eq_of_length_le (by simp)
  rw [List.drop_eq_getElem_cons hlt, hyi, List.take_succ, ht]
  simp [List.getElem?_set_self, hi]

theorem convertLoop_run (fp : FloatOps) (hz : fp.narrow (fp.widen 0) = 0) {m : Mem}
    {v : RValue} {vt S destTyp E : GoType} {base n : Nat} {ys : List GoVal}
    (hv : Holds m v vt (.slice (some base) n)) (hk : vt.kind = Kind.Slice)
    (hS : vt.elem? = some S) (hE : destTyp.elem? = some E) (hdk : destTyp.kind = Kind.Slice)
    (hitems : ∀ i y, ys[i]? = some y → ∃ x item, m.load (base + i) = some x ∧
      itemOf S x = some item ∧ coerceItem fp E item = some y)
    (hys : ys.length = n) :
    ∀ k i (vals : List GoVal), i + k = n → vals.length = n →
      convertLoop fp destTyp E.kind (.val destTyp (.slice (some m.vars.length) n) false) v k i
          ⟨m.vars ++ vals.map (Var.mk E)⟩ =
        .ok () ⟨m.vars ++ (vals.take i ++ ys.drop i).map (Var.mk E)⟩ := by
  intro k
  induction k with
  | zero =>
    intro i vals hik hlen
    have hi : i = n := by omega
    subst hi
    simp [convertLoop, ← hlen, List.drop_of_length_le (Nat.le_of_eq (hys.trans hlen.symm))]
  | succ k ih =>
    intro i vals hik hlen
    have hi : i < n := by omega
    have hyi : ys[i]? = some ys[i] := List.getElem?_eq_getElem (by omega)
    obtain ⟨x, item, hl, hit, hc⟩ := hitems i _ hyi
    have hm : (Mem.mk (m.vars ++ vals.map (Var.mk E))).vars = m.vars ++ vals.map (Var.mk E) := rfl
    have hstep := convertItem_step fp hz (m := Mem.mk (m.vars ++ vals.map (Var.mk E)))
      (L := m.vars.length) (u := E) (holds_ext hm hv) hk hS hE hdk hi (load_ext hm hl) hit hc
      (by
        simp only [Mem.typeAt]
        rw [List.getElem?_append_right (Nat.le_add_right _ _)]
        simp [hlen, hi])
    rw [store_append_map _ _ _ _ _ (by omega)] at hstep
    have hnext := ih (i + 1) (vals.set i ys[i]) (by omega) (by simpa using hlen)
    rw [take_set_drop vals ys i ys[i] (by omega) hyi] at hnext
    rw [convertLoop]
    simp only [bind_run, hstep]
    exact hnext

/-- Element-wise conversion: for a non-empty source slice `v` of `n` items, a
slice type `destTyp` other than the type of `v`, and items that `coerceItem`
covers, `ConvertSliceValueType` returns, without error, a new slice of type
`destTyp` and length `n` whose elements are the coerced items in order; the
memory is extended by these `n` elements and otherwise unchanged. -/
theorem ConvertSliceValueType_elementwise (fp : FloatOps) (hz : fp.narrow (fp.widen 0) = 0)
    {m : Mem} {v : RValue} {vt S destTyp E : GoType} {base n : Nat} {ys : List GoVal}
    (hv : Holds m v vt (.slice (some base) n)) (hk : vt.kind = Kind.Slice)
    (hS : vt.elem? = some S) (hE : destTyp.elem? = some E) (hdk : destTyp.kind = Kind.Slice)
    (hne : destTyp ≠ vt) (hn : 0 < n) (hys : ys.length = n)
    (hitems : ∀ i y, ys[i]? = some y → ∃ x item, m.load (base + i) = some x ∧
      itemOf S x = some item ∧ coerceItem fp E item = some y) :
    ConvertSliceValueType fp destTyp v m =
      .ok (.val destTyp (.slice (some m.vars.length) n) false, none)
        ⟨m.vars ++ ys.map (Var.mk E)⟩ := by
  have hloop := convertLoop_run fp hz hv hk hS hE hdk hitems hys n 0
    (List.replicate n (zeroOf E)) (by omega) (by simp)
  have hlen : v.len m = .ok n m := by
    simp [RValue.len, holds_kind hv, hk, holds_read hv]
  have hn0 : ¬ n ≤ 0 := by omega
  have hn1 : n ≠ 0 := by omega
  simp only [List.take_zero, List.nil_append, List.drop_zero, List.map_replicate] at hloop
  unfold ConvertSliceValueType
  simp [holds_typ hv, hne, hdk, hk, hlen, hn1, typeElem, hE, MakeSlice, Mem.allocN, hloop]

/-! ### Slice expressions and big-endian reads -/

theorem upTo_short (b : ByteSlice) (n : Nat) (h : b.cap < n) :
    b.upTo n = .panic (sliceBoundsMsg n b.cap) := by
  unfold ByteSlice.upTo
  rw [if_pos h]

theorem upTo_long (b : ByteSlice) (n : Nat) (h : ¬ b.cap < n) :
    b.upTo n = .ret ⟨b.array, n⟩ := by
  unfold ByteSlice.upTo
  rw [if_neg h]

theorem Uint64_take (b : ByteSlice) (h : ¬ b.cap < 8) :
    BigEndian.Uint64 ⟨b.array, 8⟩ = bigEndianValue (b.array.take 8) := by
  obtain ⟨arr, len⟩ := b
  rcases arr with
    _ | ⟨x0, _ | ⟨x1, _ | ⟨x2, _ | ⟨x3, _ | ⟨x4, _ | ⟨x5, _ | ⟨x6, _ | ⟨x7, r⟩⟩⟩⟩⟩⟩⟩⟩
  any_goals simp [ByteSlice.cap] at h
  simp only [BigEndian.Uint64, bigEndianValue, List.take_succ_cons, List.take_zero,
    List.foldl, List.getD_cons_zero, List.getD_cons_succ]
  ring

end Hessian

namespace Polaris

/-! ### The retry loop -/

theorem stateAfter_succ {α ρ σ : Type} (call : SingleInvoke α ρ σ) (request : α) (k : Nat)
    (s : σ) : stateAfter call request (k + 1) s = stateAfter call request k (call request s).2 := by
  simp [stateAfter, Function.iterate_succ_apply]

theorem stateAfter_zero {α ρ σ : Type} (call : SingleInvoke α ρ σ) (request : α) (s : σ) :
    stateAfter call request 0 s = s := rfl

theorem retryLoop_success (E : ErrCodes) {α ρ σ : Type} (name : String) (request : α)
    (call : SingleInvoke α ρ σ) (param : ControlParam) (fuel : Nat) (t : Int)
    (resp : Option ρ) (err : Option GoErr) (s : σ) (ht : t < param.MaxRetry)
    (hs : (call request s).1.2 = none) :
    retryLoop E name request call param (fuel + 1) t resp err s =
      some (((call request s).1.1, none), (call request s).2) := by
  rcases hc : call request s with ⟨⟨r, e⟩, s1⟩
  rw [hc] at hs
  simp only at hs
  subst hs
  rw [retryLoop, if_pos ht]
  simp only [hc]

theorem retryLoop_fail (E : ErrCodes) {α ρ σ : Type} (name : String) (request : α)
    (call : SingleInvoke α ρ σ) (param : ControlParam) (fuel : Nat) (t : Int)
    (resp : Option ρ) (err : Option GoErr) (s : σ) (ht : t < param.MaxRetry)
    (hf : FailsRetryably E call request s) :
    retryLoop E name request call param (fuel + 1) t resp err s =
      if t + 1 ≥ param.MaxRetry then
        some (retryTimeout E name (call request s).1.1 (call request s).1.2 (t + 1),
          (call request s).2)
      else
        retryLoop E name request call param fuel (t + 1) (call request s).1.1
          (call request s).1.2 (call request s).2 := by
  obtain ⟨e, code, he, hcode, hr⟩ := hf
  rcases hc : call request s with ⟨⟨r, e1⟩, s1⟩
  rw [hc] at he
  simp only at he
  subst he
  rw [retryLoop, if_pos ht]
  simp only [hc, hcode, hr, Bool.not_true, Bool.false_eq_true, if_false]

theorem retryLoop_all_fail (E : ErrCodes) {α ρ σ : Type} (name : String) (request : α)
    (call : SingleInvoke α ρ σ) (param : ControlParam) (q : Nat) :
    ∀ (fuel : Nat) (t : Int) (resp : Option ρ) (err : Option GoErr) (s : σ),
      q + 1 ≤ fuel → t + (q + 1) = param.MaxRetry →
      (∀ i, i ≤ q → FailsRetryably E call request (stateAfter call request i s)) →
      retryLoop E name request call param fuel t resp err s =
        some (retryTimeout E name (call request (stateAfter call request q s)).1.1
          (call request (stateAfter call request q s)).1.2 param.MaxRetry,
          stateAfter call request (q + 1) s) := by
  induction q with
  | zero =>
    intro fuel t resp err s hfuel ht hall
    obtain ⟨f, rfl⟩ : ∃ f, fuel = f + 1 := ⟨fuel - 1, by omega⟩
    have h0 := hall 0 (le_refl _)
    rw [stateAfter_zero] at h0
    rw [retryLoop_fail E name request call param f t resp err s (by omega) h0,
      if_pos (by omega)]
    simp only [stateAfter_zero, stateAfter_succ]
    have : t + 1 = param.MaxRetry := by omega
    rw [this]
  | succ q ih =>
    intro fuel t resp err s hfuel ht hall
    obtain ⟨f, rfl⟩ : ∃ f, fuel = f + 1 := ⟨fuel - 1, by omega⟩
    have h0 := hall 0 (Nat.zero_le _)
    rw [stateAfter_zero] at h0
    rw [retryLoop_fail E name request call param f t resp err s (by omega) h0,
      if_neg (by omega)]
    rw [ih f (t + 1) _ _ _ (by omega) (by push_cast at ht ⊢; omega)
      (fun i hi => by
        have := hall (i + 1) (by omega)
        rwa [stateAfter_succ] at this)]
    simp only [stateAfter_succ]

theorem retryLoop_succeeds (E : ErrCodes) {α ρ σ : Type} (name : String) (request : α)
    (call : SingleInvoke α ρ σ) (param : ControlParam) (k : Nat) :
    ∀ (fuel : Nat) (t : Int) (resp : Option ρ) (err : Option GoErr) (s : σ),
      k + 1 ≤ fuel → t + k < param.MaxRetry →
      (∀ i, i < k → FailsRetryably E call request (stateAfter call request i s)) →
      (call request (stateAfter call request k s)).1.2 = none →
      retryLoop E name request call param fuel t resp err s =
        some (((call request (stateAfter call request k s)).1.1, none),
          stateAfter call request (k + 1) s) := by
  induction k with
  | zero =>
    intro fuel t resp err s hfuel ht _ hs
    obtain ⟨f, rfl⟩ : ∃ f, fuel = f + 1 := ⟨fuel - 1, by omega⟩
    rw [stateAfter_zero] at hs
    rw [retryLoop_success E name request call param f t resp err s (by omega) hs]
    simp only [stateAfter_zero, stateAfter_succ]
  | succ k ih =>
    intro fuel t resp err s hfuel ht hall hs
    obtain ⟨f, rfl⟩ : ∃ f, fuel = f + 1 := ⟨fuel - 1, by omega⟩
    have h0 := hall 0 (Nat.succ_pos _)
    rw [stateAfter_zero] at h0
    rw [retryLoop_fail E name request call param f t resp err s (by omega) h0,
      if_neg (by push_cast at ht; omega)]
    rw [ih f (t + 1) _ _ _ (by omega) (by push_cast at ht ⊢; omega)
      (fun i hi => by
        have := hall (i + 1) (by omega)
        rwa [stateAfter_succ] at this)
      (by rwa [stateAfter_succ] at hs)]
    simp only [stateAfter_succ]

end Polaris

namespace Hessian

/-! ### A pointer to a new variable stored in a destination -/

theorem addrOfNew_run (T : GoType) (c : GoVal) (m : Mem) :
    addrOfNew T c m =
      .ok (.val (.ptr T) (.ptr (some m.vars.length)) false) ⟨m.vars ++ [⟨T, c⟩]⟩ := rfl

theorem set_new_ptr {m : Mem} {T : GoType} {a : Nat} (c : GoVal)
    (ha : m.typeAt a = some (.ptr T)) :
    (RValue.ref (.ptr T) a false).set (.val (.ptr T) (.ptr (some m.vars.length)) false)
        ⟨m.vars ++ [⟨T, c⟩]⟩ =
      .ok () ((Mem.mk (m.vars ++ [⟨T, c⟩])).store a (.ptr (some m.vars.length))) :=
  set_holds (typeAt_append ha) (Or.inl rfl)

theorem new_ptr_memory {m : Mem} {T : GoType} {a : Nat} (c : GoVal)
    (ha : m.typeAt a = some (.ptr T)) :
    let mf := (Mem.mk (m.vars ++ [⟨T, c⟩])).store a (.ptr (some m.vars.length))
    mf.typeAt a = some (.ptr T) ∧ mf.load a = some (.ptr (some m.vars.length)) ∧
      m.typeAt m.vars.length = none ∧ mf.typeAt m.vars.length = some T ∧
      mf.load m.vars.length = some c ∧
      ∀ b, b ≠ a → b < m.vars.length → mf.load b = m.load b := by
  have hlt := typeAt_lt ha
  have ha1 : (Mem.mk (m.vars ++ [⟨T, c⟩])).typeAt a = some (.ptr T) := typeAt_append ha
  refine ⟨?_, ?_, ?_, ?_, ?_, ?_⟩
  · rw [typeAt_store]; exact ha1
  · exact load_store_same _ ha1
  · simp [Mem.typeAt]
  · rw [typeAt_store]; simp [Mem.typeAt]
  · rw [load_store_other _ (Nat.ne_of_lt hlt)]; simp [Mem.load]
  · intro b hb hbl
    rw [load_store_other _ (Ne.symm hb)]
    simp [Mem.load, List.getElem?_append_left hbl]

theorem int_float_panics (fp : FloatOps) {v : RValue} {vt : GoType} (hv : v.typeOf? = some vt)
    (hk : validateIntKind vt.kind = true) (m : Mem) :
    (v.float fp m).panicsAt m := by
  unfold RValue.float
  rw [kind_of_typeOf hv]
  cases hvk : vt.kind <;> simp [validateIntKind, hvk] at hk <;> simp [Res.panicsAt]

theorem int_kind_ne_string {k : Kind} (h : validateIntKind k = true) : k ≠ Kind.String := by
  rintro rfl; simp [validateIntKind] at h

theorem ptrDest_int8 (fp : FloatOps) {m : Mem} {a : Nat} {v : RValue} {x : Int}
    (ha : m.typeAt a = some (.ptr .int8)) (hi : v.int m = .ok x m) :
    SetValueToPtrDest fp (.ref (.ptr .int8) a false) v m = .ok ()
      ((Mem.mk (m.vars ++ [⟨.int8, .int (wrapSigned 8 x)⟩])).store a
        (.ptr (some m.vars.length))) := by
  have h : SetValueToPtrDest fp (.ref (.ptr .int8) a false) v m =
      (v.int >>= fun x => addrOfNew .int8 (.int (wrapSigned 8 x)) >>= fun p =>
        (RValue.ref (.ptr .int8) a false).set p) m := rfl
  rw [h]
  simp only [bind_run, hi, addrOfNew_run, set_new_ptr _ ha]

theorem ptrDest_int16 (fp : FloatOps) {m : Mem} {a : Nat} {v : RValue} {x : Int}
    (ha : m.typeAt a = some (.ptr .int16)) (hi : v.int m = .ok x m) :
    SetValueToPtrDest fp (.ref (.ptr .int16) a false) v m = .ok ()
      ((Mem.mk (m.vars ++ [⟨.int16, .int (wrapSigned 16 x)⟩])).store a
        (.ptr (some m.vars.length))) := by
  have h : SetValueToPtrDest fp (.ref (.ptr .int16) a false) v m =
      (v.int >>= fun x => addrOfNew .int16 (.int (wrapSigned 16 x)) >>= fun p =>
        (RValue.ref (.ptr .int16) a false).set p) m := rfl
  rw [h]
  simp only [bind_run, hi, addrOfNew_run, set_new_ptr _ ha]

theorem ptrDest_int32 (fp : FloatOps) {m : Mem} {a : Nat} {v : RValue} {x : Int}
    (ha : m.typeAt a = some (.ptr .int32)) (hi : v.int m = .ok x m)
    (hs : (v.kind == Kind.String) = false) :
    SetValueToPtrDest fp (.ref (.ptr .int32) a false) v m = .ok ()
      ((Mem.mk (m.vars ++ [⟨.int32, .int (wrapSigned 32 x)⟩])).store a
        (.ptr (some m.vars.length))) := by
  have h : SetValueToPtrDest fp (.ref (.ptr .int32) a false) v m =
      (if v.kind == Kind.String then
        (v.string >>= fun s => firstByte s >>= fun vv => addrOfNew .int32 (.int vv) >>= fun p =>
          (RValue.ref (.ptr .int32) a false).set p)
      else
        (v.int >>= fun x => addrOfNew .int32 (.int (wrapSigned 32 x)) >>= fun p =>
          (RValue.ref (.ptr .int32) a false).set p)) m := rfl
  rw [h, hs]
  simp only [Bool.false_eq_true, if_false, bind_run, hi, addrOfNew_run, set_new_ptr _ ha]

theorem ptrDest_int64 (fp : FloatOps) {m : Mem} {a : Nat} {v : RValue} {x : Int}
    (ha : m.typeAt a = some (.ptr .int64)) (hi : v.int m = .ok x m) :
    SetValueToPtrDest fp (.ref (.ptr .int64) a false) v m = .ok ()
      ((Mem.mk (m.vars ++ [⟨.int64, .int x⟩])).store a (.ptr (some m.vars.length))) := by
  have h : SetValueToPtrDest fp (.ref (.ptr .int64) a false) v m =
      (v.int >>= fun x => addrOfNew .int64 (.int x) >>= fun p =>
        (RValue.ref (.ptr .int64) a false).set p) m := rfl
  rw [h]
  simp only [bind_run, hi, addrOfNew_run, set_new_ptr _ ha]

theorem ptrDest_uint8 (fp : FloatOps) {m : Mem} {a : Nat} {v : RValue} {x : Int}
    (ha : m.typeAt a = some (.ptr .uint8)) (hi : v.int m = .ok x m) :
    SetValueToPtrDest fp (.ref (.ptr .uint8) a false) v m = .ok ()
      ((Mem.mk (m.vars ++ [⟨.uint8, .int (wrapUnsigned 8 x)⟩])).store a
        (.ptr (some m.vars.length))) := by
  have h : SetValueToPtrDest fp (.ref (.ptr .uint8) a false) v m =
      (v.int >>= fun x => addrOfNew .uint8 (.int (wrapUnsigned 8 x)) >>= fun p =>
        (RValue.ref (.ptr .uint8) a false).set p) m := rfl
  rw [h]
  simp only [bind_run, hi, addrOfNew_run, set_new_ptr _ ha]

theorem wrapSigned_64 (x : Int) (hx : -2 ^ 63 ≤ x ∧ x < 2 ^ 63) : wrapSigned 64 x = x := by
  unfold wrapSigned
  norm_num
  omega

theorem ptrDest_float_panics (fp : FloatOps) {m : Mem} {a : Nat} {v : RValue} {T : GoType}
    (hT : T = .float32 ∨ T = .float64) (p : (v.float fp m).panicsAt m) :
    (SetValueToPtrDest fp (.ref (.ptr T) a false) v m).panicsAt m := by
  rcases hT with rfl | rfl
  · have h : SetValueToPtrDest fp (.ref (.ptr .float32) a false) v m =
        (v.float fp >>= fun x => addrOfNew .float32 (.float (fp.narrow x)) >>= fun p =>
          (RValue.ref (.ptr .float32) a false).set p) m := rfl
    rw [h]
    exact panicsAt_bind p
  · have h : SetValueToPtrDest fp (.ref (.ptr .float64) a false) v m =
        (v.float fp >>= fun x => addrOfNew .float64 (.float x) >>= fun p =>
          (RValue.ref (.ptr .float64) a false).set p) m := rfl
    rw [h]
    exact panicsAt_bind p

/-! ### Packing then unpacking -/

theorem UnpackInt32_PackInt32 (v : Int) (h : -2 ^ 31 ≤ v ∧ v < 2 ^ 31) (len : Nat) :
    UnpackInt32 ⟨PackInt32 v, len⟩ = .ret v := by
  have hlo : 0 ≤ v % 2 ^ 32 := Int.emod_nonneg _ (by norm_num)
  have hhi : v % 2 ^ 32 < 2 ^ 32 := Int.emod_lt_of_pos _ (by norm_num)
  obtain ⟨u, hu⟩ : ∃ u : Nat, (u : Int) = v % 2 ^ 32 := ⟨(v % 2 ^ 32).toNat, by omega⟩
  have hun : (v % 2 ^ 32).toNat = u := by omega
  have hsum : u % 256 + u / 2 ^ 8 % 256 * 2 ^ 8 + u / 2 ^ 16 % 256 * 2 ^ 16 +
      u / 2 ^ 24 % 256 * 2 ^ 24 = u := by
    norm_num at hhi ⊢
    omega
  unfold UnpackInt32
  rw [upTo_long _ 4 (by simp [ByteSlice.cap, PackInt32, BigEndian.PutUint32])]
  simp only [PackInt32, BigEndian.PutUint32, BigEndian.Uint32, wrapUnsigned, hun,
    List.getD_cons_zero, List.getD_cons_succ, hsum]
  have hw : wrapSigned 32 (u : Int) = v := by
    unfold wrapSigned
    norm_num at h hu ⊢
    omega
  rw [hw]

theorem digits_u64 (u : Nat) (h : u < 2 ^ 64) :
    u % 256 + u / 2 ^ 8 % 256 * 2 ^ 8 + u / 2 ^ 16 % 256 * 2 ^ 16 +
      u / 2 ^ 24 % 256 * 2 ^ 24 + u / 2 ^ 32 % 256 * 2 ^ 32 + u / 2 ^ 40 % 256 * 2 ^ 40 +
      u / 2 ^ 48 % 256 * 2 ^ 48 + u / 2 ^ 56 % 256 * 2 ^ 56 = u := by
  have e2 : u / 2 ^ 16 = u / 2 ^ 8 / 256 := by rw [Nat.div_div_eq_div_mul]; norm_num
  have e3 : u / 2 ^ 24 = u / 2 ^ 16 / 256 := by rw [Nat.div_div_eq_div_mul]; norm_num
  have e4 : u / 2 ^ 32 = u / 2 ^ 24 / 256 := by rw [Nat.div_div_eq_div_mul]; norm_num
  have e5 : u / 2 ^ 40 = u / 2 ^ 32 / 256 := by rw [Nat.div_div_eq_div_mul]; norm_num
  have e6 : u / 2 ^ 48 = u / 2 ^ 40 / 256 := by rw [Nat.div_div_eq_div_mul]; norm_num
  have e7 : u / 2 ^ 56 = u / 2 ^ 48 / 256 := by rw [Nat.div_div_eq_div_mul]; norm_num
  have e8 : u / 2 ^ 56 / 256 = 0 := by
    rw [Nat.div_div_eq_div_mul]
    exact Nat.div_eq_of_lt h
  have d0 := Nat.div_add_mod u 256
  have d1 := Nat.div_add_mod (u / 2 ^ 8) 256
  have d2 := Nat.div_add_mod (u / 2 ^ 16) 256
  have d3 := Nat.div_add_mod (u / 2 ^ 24) 256
  have d4 := Nat.div_add_mod (u / 2 ^ 32) 256
  have d5 := Nat.div_add_mod (u / 2 ^ 40) 256
  have d6 := Nat.div_add_mod (u / 2 ^ 48) 256
  have d7 := Nat.div_add_mod (u / 2 ^ 56) 256
  rw [← e2] at d1
  rw [← e3] at d2
  rw [← e4] at d3
  rw [← e5] at d4
  rw [← e6] at d5
  rw [← e7] at d6
  rw [e8] at d7
  have e1 : u / 256 = u / 2 ^ 8 := rfl
  rw [e1] at d0
  generalize u / 2 ^ 8 = q1 at *
  generalize u / 2 ^ 16 = q2 at *
  generalize u / 2 ^ 24 = q3 at *
  generalize u / 2 ^ 32 = q4 at *
  generalize u / 2 ^ 40 = q5 at *
  generalize u / 2 ^ 48 = q6 at *
  generalize u / 2 ^ 56 = q7 at *
  generalize u % 256 = r0 at *
  generalize q1 % 256 = r1 at *
  generalize q2 % 256 = r2 at *
  generalize q3 % 256 = r3 at *
  generalize q4 % 256 = r4 at *
  generalize q5 % 256 = r5 at *
  generalize q6 % 256 = r6 at *
  generalize q7 % 256 = r7 at *
  norm_num at *
  omega

theorem UnpackInt64_PackInt64 (v : Int) (h : -2 ^ 63 ≤ v ∧ v < 2 ^ 63) (len : Nat) :
    UnpackInt64 ⟨PackInt64 v, len⟩ = .ret v := by
  have hlo : 0 ≤ v % 2 ^ 64 := Int.emod_nonneg _ (by norm_num)
  have hhi : v % 2 ^ 64 < 2 ^ 64 := Int.emod_lt_of_pos _ (by norm_num)
  obtain ⟨u, hu⟩ : ∃ u : Nat, (u : Int) = v % 2 ^ 64 := ⟨(v % 2 ^ 64).toNat, by omega⟩
  have hun : (v % 2 ^ 64).toNat = u := by omega
  have hsum : u % 256 + u / 2 ^ 8 % 256 * 2 ^ 8 + u / 2 ^ 16 % 256 * 2 ^ 16 +
      u / 2 ^ 24 % 256 * 2 ^ 24 + u / 2 ^ 32 % 256 * 2 ^ 32 + u / 2 ^ 40 % 256 * 2 ^ 40 +
      u / 2 ^ 48 % 256 * 2 ^ 48 + u / 2 ^ 56 % 256 * 2 ^ 56 = u :=
    digits_u64 u (by omega)
  unfold UnpackInt64
  rw [upTo_long _ 8 (by simp [ByteSlice.cap, PackInt64, BigEndian.PutUint64])]
  simp only [PackInt64, BigEndian.PutUint64, BigEndian.Uint64, wrapUnsigned, hun,
    List.getD_cons_zero, List.getD_cons_succ, hsum]
  have hw : wrapSigned 64 (u : Int) = v := by
    unfold wrapSigned
    norm_num at h hu ⊢
    omega
  rw [hw]

theorem UnpackFloat64_PackFloat64 (bits : Nat) (h : bits < 2 ^ 64) (len : Nat) :
    UnpackFloat64 ⟨PackFloat64 bits, len⟩ = .ret bits := by
  have hsum : bits % 256 + bits / 2 ^ 8 % 256 * 2 ^ 8 + bits / 2 ^ 16 % 256 * 2 ^ 16 +
      bits / 2 ^ 24 % 256 * 2 ^ 24 + bits / 2 ^ 32 % 256 * 2 ^ 32 +
      bits / 2 ^ 40 % 256 * 2 ^ 40 + bits / 2 ^ 48 % 256 * 2 ^ 48 +
      bits / 2 ^ 56 % 256 * 2 ^ 56 = bits :=
    digits_u64 bits h
  unfold UnpackFloat64
  rw [upTo_long _ 8 (by simp [ByteSlice.cap, PackFloat64, BigEndian.PutUint64])]
  simp only [PackFloat64, BigEndian.PutUint64, BigEndian.Uint64, Nat.mod_eq_of_lt h,
    List.getD_cons_zero, List.getD_cons_succ, hsum]

/-! ### The decoder on the output of the encoder -/

theorem readBytes_append (a rest : List Nat) :
    readBytes a.length (a ++ rest) = .ok (a, rest) := by
  simp [readBytes]

theorem readCount_pack (n : Nat) (h : n < 2 ^ 31) (rest : List Nat) :
    readCount (PackInt32 n ++ rest) = .ok (n, rest) := by
  have hl : (PackInt32 n).length = 4 := rfl
  have hr := readBytes_append (PackInt32 n) rest
  rw [hl] at hr
  have hu := UnpackInt32_PackInt32 (n : Int) (by norm_num at h ⊢; omega) 4
  simp [readCount, hr, hu]

theorem decodeBytes_step {bytes rest : List Nat} {n : Nat}
    (h : readCount bytes = .ok (n, rest)) : decodeBytes bytes = readBytes n rest := by
  unfold decodeBytes
  rw [h]

theorem decodeBytes_encodeBytes (b : List Nat) (h : b.length < 2 ^ 31) (rest : List Nat) :
    decodeBytes (encodeBytes b ++ rest) = .ok (b, rest) :=
  (decodeBytes_step ((congrArg readCount (List.append_assoc _ _ _)).trans
    (readCount_pack b.length h (b ++ rest)))).trans (readBytes_append b rest)

theorem decodePrim_int {rest b rest1 : List Nat} {x : Int}
    (hr : readBytes 8 rest = .ok (b, rest1)) (hu : UnpackInt64 ⟨b, 8⟩ = .ret x) :
    decodePrim (tagInt :: rest) = .ok (.int x, rest1) := by
  simp [decodePrim, tagFalse, tagTrue, tagInt, hr, hu]

theorem decodePrim_float {rest b rest1 : List Nat} {bits : Nat}
    (hr : readBytes 8 rest = .ok (b, rest1)) (hu : UnpackFloat64 ⟨b, 8⟩ = .ret bits) :
    decodePrim (tagFloat :: rest) = .ok (.float bits, rest1) := by
  simp [decodePrim, tagFalse, tagTrue, tagInt, tagFloat, hr, hu]

theorem decodePrim_string {rest s rest1 : List Nat}
    (hd : decodeBytes rest = .ok (s, rest1)) :
    decodePrim (tagString :: rest) = .ok (.string s, rest1) := by
  simp [decodePrim, tagFalse, tagTrue, tagInt, tagFloat, tagString, hd]

theorem decodePrim_bytes {rest b rest1 : List Nat}
    (hd : decodeBytes rest = .ok (b, rest1)) :
    decodePrim (tagBytes :: rest) = .ok (.bytes b, rest1) := by
  simp [decodePrim, tagFalse, tagTrue, tagInt, tagFloat, tagString, tagBytes, hd]

theorem decodePrim_encodePrim (p : Prim) (h : p.wf = true) (rest : List Nat) :
    decodePrim (encodePrim p ++ rest) = .ok (p, rest) := by
  cases p with
  | bool b => cases b <;> rfl
  | int x =>
    have hx : -2 ^ 63 ≤ x ∧ x < 2 ^ 63 := by simpa [Prim.wf] using h
    exact decodePrim_int (readBytes_append (PackInt64 x) rest) (UnpackInt64_PackInt64 x hx 8)
  | float bits =>
    have hx : bits < 2 ^ 64 := by simpa [Prim.wf] using h
    exact decodePrim_float (readBytes_append (PackFloat64 bits) rest)
      (UnpackFloat64_PackFloat64 bits hx 8)
  | string s =>
    have hx : s.length < 2 ^ 31 := by simpa [Prim.wf] using h
    exact decodePrim_string (decodeBytes_encodeBytes s hx rest)
  | bytes b =>
    have hx : b.length < 2 ^ 31 := by simpa [Prim.wf] using h
    exact decodePrim_bytes (decodeBytes_encodeBytes b hx rest)

theorem decodeEntries_step {bytes r1 r2 r3 : List Nat} {n : Nat} {k v : Prim}
    {entries : List (Prim × Prim)} (hk : decodePrim bytes = .ok (k, r1))
    (hv : decodePrim r1 = .ok (v, r2)) (he : decodeEntries n r2 = .ok (entries, r3)) :
    decodeEntries (n + 1) bytes = .ok ((k, v) :: entries, r3) := by
  rw [decodeEntries]
  simp only [hk, hv, he]

theorem decodeEntries_encodeEntries (entries : List (Prim × Prim))
    (h : entries.all (fun e => e.1.wf && e.2.wf) = true) (rest : List Nat) :
    decodeEntries entries.length (encodeEntries entries ++ rest) = .ok (entries, rest) := by
  induction entries with
  | nil => rfl
  | cons e es ih =>
    obtain ⟨k, v⟩ := e
    simp only [List.all_cons, Bool.and_eq_true] at h
    obtain ⟨⟨hk, hv⟩, hes⟩ := h
    have e1 : encodeEntries ((k, v) :: es) ++ rest =
        encodePrim k ++ (encodePrim v ++ (encodeEntries es ++ rest)) := by
      rw [encodeEntries, List.append_assoc, List.append_assoc]
    rw [e1]
    exact decodeEntries_step (decodePrim_encodePrim k hk _) (decodePrim_encodePrim v hv _)
      (ih hes)

theorem encodePrim_tag (p : Prim) : ∃ tag tl, encodePrim p = tag :: tl ∧ tag ≠ tagMapping := by
  cases p with
  | bool b => cases b <;> exact ⟨_, _, rfl, by decide⟩
  | int x => exact ⟨_, _, rfl, by decide⟩
  | float bits => exact ⟨_, _, rfl, by decide⟩
  | string s => exact ⟨_, _, rfl, by decide⟩
  | bytes b => exact ⟨_, _, rfl, by decide⟩

theorem decodeField_prim {tag : Nat} {rest rest1 : List Nat} {p : Prim}
    (ht : tag ≠ tagMapping) (hp : decodePrim (tag :: rest) = .ok (p, rest1)) :
    decodeField (tag :: rest) = .ok (.primitive p, rest1) := by
  rw [decodeField]
  simp only [ht, if_false, hp]

theorem decodeField_mapping {rest r1 r2 : List Nat} {n : Nat} {entries : List (Prim × Prim)}
    (hc : readCount rest = .ok (n, r1)) (he : decodeEntries n r1 = .ok (entries, r2)) :
    decodeField (tagMapping :: rest) = .ok (.mapping entries, r2) := by
  rw [decodeField]
  simp only [if_true, hc, he]

theorem decodeField_encodeField (f : FieldValue) (h : f.wf = true) (rest : List Nat) :
    decodeField (encodeField f ++ rest) = .ok (f, rest) := by
  cases f with
  | primitive p =>
    have hp : p.wf = true := h
    have hd := decodePrim_encodePrim p hp rest
    obtain ⟨tag, tl, he, ht⟩ := encodePrim_tag p
    have e1 : encodeField (.primitive p) ++ rest = tag :: (tl ++ rest) := by
      rw [encodeField, he, List.cons_append]
    rw [he, List.cons_append] at hd
    rw [e1]
    exact decodeField_prim ht hd
  | mapping entries =>
    simp only [FieldValue.wf, Bool.and_eq_true, decide_eq_true_eq] at h
    obtain ⟨hl, hes⟩ := h
    have e1 : encodeField (.mapping entries) ++ rest =
        tagMapping :: (PackInt32 entries.length ++ (encodeEntries entries ++ rest)) := by
      simp only [encodeField, List.cons_append, List.append_assoc]
    rw [e1]
    exact decodeField_mapping (readCount_pack _ hl _) (decodeEntries_encodeEntries entries hes rest)

theorem decodeFields_step {bytes r1 r2 : List Nat} {n : Nat} {f : FieldValue}
    {fields : List FieldValue} (hf : decodeField bytes = .ok (f, r1))
    (hr : decodeFields n r1 = .ok (fields, r2)) :
    decodeFields (n + 1) bytes = .ok (f :: fields, r2) := by
  rw [decodeFields]
  simp only [hf, hr]

theorem decodeFields_encodeFields (fields : List FieldValue)
    (h : fields.all FieldValue.wf = true) (rest : List Nat) :
    decodeFields fields.length (encodeFields fields ++ rest) = .ok (fields, rest) := by
  induction fields with
  | nil => rfl
  | cons f fs ih =>
    simp only [List.all_cons, Bool.and_eq_true] at h
    have e1 : encodeFields (f :: fs) ++ rest = encodeField f ++ (encodeFields fs ++ rest) := by
      rw [encodeFields, List.append_assoc]
    rw [e1]
    exact decodeFields_step (decodeField_encodeField f h.1 _) (ih h.2)

/-! ### The Type Registry -/

theorem resolve_error_not_mem (reg : Registry) (name : List Nat) (e : CodecError)
    (h : reg.resolve name = .error e) : name ∉ reg.map Prod.fst := by
  induction reg with
  | nil => simp
  | cons p rest ih =>
    obtain ⟨n, s⟩ := p
    rw [Registry.resolve] at h
    by_cases hn : n = name
    · simp [hn] at h
    · simp only [hn, if_false] at h
      simp only [List.map_cons, List.mem_cons, not_or]
      exact ⟨fun e1 => hn e1.symm, ih h⟩

theorem resolve_of_mem (reg : Registry) (name : List Nat) (shape : Shape)
    (hnd : (reg.map Prod.fst).Nodup) (h : (name, shape) ∈ reg) :
    reg.resolve name = .ok shape := by
  induction reg with
  | nil => simp at h
  | cons p rest ih =>
    obtain ⟨n, s⟩ := p
    simp only [List.map_cons, List.nodup_cons] at hnd
    rw [Registry.resolve]
    rcases List.mem_cons.mp h with h1 | h1
    · cases h1
      simp
    · have hne : n ≠ name := by
        rintro rfl
        exact hnd.1 (List.mem_map.mpr ⟨(n, shape), h1, rfl⟩)
      simp only [hne, if_false]
      exact ih hnd.2 h1

theorem nameOf_mem (reg : Registry) (shape : Shape) (name : List Nat)
    (h : reg.nameOf shape = .ok name) : (name, shape) ∈ reg := by
  induction reg with
  | nil => simp [Registry.nameOf] at h
  | cons p rest ih =>
    obtain ⟨n, s⟩ := p
    rw [Registry.nameOf] at h
    by_cases hs : s = shape
    · simp only [hs, if_true, Except.ok.injEq] at h
      subst h; subst hs
      exact List.mem_cons_self _ _
    · simp only [hs, if_false] at h
      exact List.mem_cons_of_mem _ (ih h)

theorem nameOf_of_mem (reg : Registry) (shape : Shape) (name : List Nat)
    (h : (name, shape) ∈ reg) : ∃ n, reg.nameOf shape = .ok n := by
  induction reg with
  | nil => simp at h
  | cons p rest ih =>
    obtain ⟨n, s⟩ := p
    rw [Registry.nameOf]
    by_cases hs : s = shape
    · exact ⟨n, by simp [hs]⟩
    · simp only [hs, if_false]
      rcases List.mem_cons.mp h with h1 | h1
      · cases h1
        exact absurd rfl hs
      · exact ih h1

theorem register_spec (reg0 reg : Registry) (name : List Nat) (shape : Shape)
    (hwf : reg0.WF) (hname : name.length < 2 ^ 31)
    (h : reg0.register name shape = .ok reg) : reg.WF ∧ (name, shape) ∈ reg := by
  unfold Registry.register at h
  cases hr : reg0.resolve name with
  | ok s =>
    rw [hr] at h
    by_cases hs : s = shape
    · simp only [hs, if_true, Except.ok.injEq] at h
      subst h
      refine ⟨hwf, ?_⟩
      subst hs
      clear hwf hname
      induction reg0 with
      | nil => simp [Registry.resolve] at hr
      | cons p rest ih =>
        obtain ⟨n, s1⟩ := p
        rw [Registry.resolve] at hr
        by_cases hn : n = name
        · simp only [hn, if_true, Except.ok.injEq] at hr
          subst hr; subst hn
          exact List.mem_cons_self _ _
        · simp only [hn, if_false] at hr
          exact List.mem_cons_of_mem _ (ih hr)
    · simp [hs] at h
  | error e =>
    rw [hr] at h
    simp only [Except.ok.injEq] at h
    subst h
    have hnot := resolve_error_not_mem reg0 name e hr
    refine ⟨⟨?_, ?_⟩, by simp⟩
    · rw [List.map_append, List.nodup_append]
      refine ⟨hwf.1, by simp, ?_⟩
      intro a ha hb
      simp only [List.map_cons, List.map_nil, List.mem_singleton] at hb
      subst hb
      exact hnot ha
    · have h2 := hwf.2
      simp only [List.all_append, List.all_cons, List.all_nil, Bool.and_true,
        Bool.and_eq_true, decide_eq_true_eq]
      exact ⟨h2, hname⟩

theorem name_length_of_mem (reg : Registry) (hwf : reg.WF) (name : List Nat) (shape : Shape)
    (h : (name, shape) ∈ reg) : name.length < 2 ^ 31 := by
  have h2 := hwf.2
  rw [List.all_eq_true] at h2
  simpa using h2 (name, shape) h

/-! ### Decoding an encoded compound -/

theorem encode_step {reg : Registry} {v : Compound} {name : List Nat}
    (hn : reg.nameOf v.shape = .ok name) (hl : v.fields.length = v.shape.length) :
    encode reg v = .ok (tagCompound :: encodeBytes name ++ encodeFields v.fields) := by
  unfold encode
  rw [hn]
  simp only [hl, if_true]

theorem decode_step {reg : Registry} {rest rest1 name : List Nat} {shape : Shape}
    {fields : List FieldValue} (hn : decodeBytes rest = .ok (name, rest1))
    (hr : reg.resolve name = .ok shape)
    (hf : decodeFields shape.length rest1 = .ok (fields, [])) :
    decode reg (tagCompound :: rest) = .ok ⟨shape, fields⟩ := by
  rw [decode]
  simp only [if_true, hn, hr, hf]

theorem decode_encode (reg : Registry) (v : Compound) (hwf : reg.WF)
    (hreg : ∃ n, (n, v.shape) ∈ reg) (hl : v.fields.length = v.shape.length)
    (hf : v.fields.all FieldValue.wf = true) :
    ∃ bytes, encode reg v = .ok bytes ∧ decode reg bytes = .ok v := by
  obtain ⟨n0, hn0⟩ := hreg
  obtain ⟨name, hname⟩ := nameOf_of_mem reg v.shape n0 hn0
  have hmem := nameOf_mem reg v.shape name hname
  have hlen := name_length_of_mem reg hwf name v.shape hmem
  have hres := resolve_of_mem reg name v.shape hwf.1 hmem
  refine ⟨_, encode_step hname hl, ?_⟩
  have hfields := decodeFields_encodeFields v.fields hf []
  rw [List.append_nil, hl] at hfields
  have hd := decode_step (decodeBytes_encodeBytes name hlen (encodeFields v.fields)) hres hfields
  obtain ⟨shape, fields⟩ := v
  exact hd

/-! ### `UnpackType` on every type -/

theorem unpackTypeLoop_shift (t : GoType) :
    ∀ d, unpackTypeLoop t d = ((unpackTypeLoop t 0).1, (unpackTypeLoop t 0).2 + d) := by
  induction t with
  | ptr e ih =>
    intro d
    rw [unpackTypeLoop, ih (d + 1), unpackTypeLoop, ih (0 + 1)]
    simp only [Prod.mk.injEq, true_and]
    omega
  | named n u ih =>
    intro d
    rw [unpackTypeLoop, unpackTypeLoop]
    by_cases hk : u.kind = Kind.Ptr
    · simp only [hk, if_true]
      exact ih d
    · simp [hk]
  | _ => intro d; simp [unpackTypeLoop]

theorem unpackTypeLoop_kind (t : GoType) : ∀ d, (unpackTypeLoop t d).1.kind ≠ Kind.Ptr := by
  induction t with
  | ptr e ih => intro d; rw [unpackTypeLoop]; exact ih _
  | named n u ih =>
    intro d
    rw [unpackTypeLoop]
    by_cases hk : u.kind = Kind.Ptr
    · simp only [hk, if_true]
      exact ih d
    · simp [hk, GoType.kind]
  | _ => intro d; simp [unpackTypeLoop, GoType.kind]

theorem unpackTypeLoop_ptrType (t : GoType) : ∀ d, (unpackTypeLoop t d).1 = UnpackPtrType t := by
  induction t with
  | ptr e ih => intro d; rw [unpackTypeLoop, UnpackPtrType]; exact ih _
  | named n u ih =>
    intro d
    rw [unpackTypeLoop, UnpackPtrType]
    by_cases hk : u.kind = Kind.Ptr
    · simp only [hk, if_true]
      exact ih d
    · simp [hk]
  | _ => intro d; simp [unpackTypeLoop, UnpackPtrType]

theorem elemTimes_named (n : String) (u : GoType) (d : Nat) (hd : 0 < d) :
    elemTimes d (.named n u) = elemTimes d u := by
  obtain ⟨k, rfl⟩ : ∃ k, d = k + 1 := ⟨d - 1, by omega⟩
  simp [elemTimes, GoType.kind, GoType.elem?]

theorem unpackTypeLoop_pos (t : GoType) (h : t.kind = Kind.Ptr) :
    0 < (unpackTypeLoop t 0).2 := by
  induction t with
  | ptr e _ =>
    rw [unpackTypeLoop, unpackTypeLoop_shift]
    simp
  | named n u ih =>
    have hu : u.kind = Kind.Ptr := h
    rw [unpackTypeLoop]
    simp only [hu, if_true]
    exact ih hu
  | _ => simp [GoType.kind] at h

theorem unpackTypeLoop_elemTimes (t : GoType) :
    elemTimes (unpackTypeLoop t 0).2 t = some (unpackTypeLoop t 0).1 := by
  induction t with
  | ptr e ih =>
    rw [unpackTypeLoop, unpackTypeLoop_shift]
    simpa [elemTimes, GoType.kind, GoType.elem?] using ih
  | named n u ih =>
    rw [unpackTypeLoop]
    by_cases hk : u.kind = Kind.Ptr
    · simp only [hk, if_true]
      rw [elemTimes_named n u _ (unpackTypeLoop_pos u hk)]
      exact ih
    · simp [hk, elemTimes]
  | _ => simp [unpackTypeLoop, elemTimes]

theorem literalPointers_ptrN (t : GoType) (h : literalPointers t = true) :
    ptrN (unpackTypeLoop t 0).2 (unpackTypeLoop t 0).1 = t := by
  induction t with
  | ptr e ih =>
    rw [unpackTypeLoop, unpackTypeLoop_shift]
    simp only [literalPointers] at h
    simp only [ptrN, ih h]
  | named n u _ =>
    have hk : u.kind ≠ Kind.Ptr := by simpa [literalPointers, GoType.kind] using h
    simp [unpackTypeLoop, hk, ptrN]
  | _ => simp [unpackTypeLoop, ptrN]

end Hessian

namespace Polaris

/-! ### Maps -/

theorem get_append {κ α : Type} [DecidableEq κ] (a b : GoMap κ α) (k : κ) :
    GoMap.get (a ++ b) k =
      match GoMap.get a k with
      | some v => some v
      | none => GoMap.get b k := by
  induction a with
  | nil => rfl
  | cons e rest ih =>
    obtain ⟨k1, v⟩ := e
    by_cases h : k1 = k
    · simp [GoMap.get, h]
    · simp only [List.cons_append, GoMap.get, h, if_false]
      exact ih

theorem get_delete {κ α : Type} [DecidableEq κ] (m : GoMap κ α) (k k1 : κ) :
    GoMap.get (GoMap.delete m k) k1 = if k = k1 then none else GoMap.get m k1 := by
  induction m with
  | nil => simp [GoMap.delete, GoMap.get]
  | cons e rest ih =>
    obtain ⟨k2, v⟩ := e
    unfold GoMap.delete at ih ⊢
    by_cases h2 : k2 = k
    · subst h2
      simp only [List.filter_cons, ne_eq, not_true_eq_false, decide_False, Bool.false_eq_true,
        if_false, ih]
      by_cases h1 : k2 = k1
      · simp [h1]
      · simp [h1, GoMap.get]
    · have hd : decide (k2 ≠ k) = true := by simpa using h2
      simp only [List.filter_cons, hd, if_true, GoMap.get, ih]
      by_cases h1 : k2 = k1
      · subst h1
        have : k ≠ k2 := fun e => h2 e.symm
        simp [this]
      · simp [h1]

theorem get_set {κ α : Type} [DecidableEq κ] (m : GoMap κ α) (k k1 : κ) (v : α) :
    GoMap.get (GoMap.set m k v) k1 = if k = k1 then some v else GoMap.get m k1 := by
  unfold GoMap.set
  rw [get_append, get_delete]
  by_cases h : k = k1
  · simp [h, GoMap.get]
  · simp only [h, if_false]
    cases hg : GoMap.get m k1 with
    | none => simp [GoMap.get, h]
    | some x => rfl

/-! ### The changes of the rate limit rules -/

theorem revisionOf_none (id : String) : revisionOf none id = none := rfl

theorem revisionOf_some (rules : List Rule) (id : String) :
    revisionOf (some rules) id = revisionIn rules id := rfl

theorem revisionOf_not_mem (rules : List Rule) (id : String)
    (h : id ∉ rules.map Rule.Id) : revisionIn rules id = none := by
  induction rules with
  | nil => rfl
  | cons rule rest ih =>
    simp only [List.map_cons, List.mem_cons, not_or] at h
    have hne : rule.Id ≠ id := fun e => h.1 e.symm
    simp only [revisionIn, hne, if_false]
    exact ih h.2

theorem foldl_new_get (rules : List Rule) (hnd : (rules.map Rule.Id).Nodup) :
    ∀ (m : GoMap String RevisionChange) (id : String),
      GoMap.get (rules.foldl (fun m rule => GoMap.set m rule.Id ⟨"", rule.Revision⟩) m) id =
        match revisionIn rules id with
        | some r => some ⟨"", r⟩
        | none => GoMap.get m id := by
  induction rules with
  | nil => intro m id; rfl
  | cons rule rest ih =>
    intro m id
    simp only [List.map_cons, List.nodup_cons] at hnd
    rw [List.foldl_cons, ih hnd.2, get_set]
    by_cases h : rule.Id = id
    · subst h
      rw [revisionOf_not_mem rest rule.Id hnd.1]
      simp [revisionIn]
    · simp only [revisionIn, h, if_false]

theorem diffOldRule_other (u : GoMap String RevisionChange) (d : GoMap String String)
    (rule : Rule) (id : String) (h : rule.Id ≠ id) :
    GoMap.get (diffOldRule (u, d) rule).1 id = GoMap.get u id ∧
      GoMap.get (diffOldRule (u, d) rule).2 id = GoMap.get d id := by
  unfold diffOldRule
  cases hg : GoMap.get u rule.Id with
  | none => simp [get_set, h]
  | some nr =>
    by_cases hr : nr.NewRevision = rule.Revision
    · simp [hr, get_delete, h]
    · simp [hr, get_set, h]

theorem diffOldRule_same (u : GoMap String RevisionChange) (d : GoMap String String)
    (rule : Rule) :
    GoMap.get (diffOldRule (u, d) rule).1 rule.Id =
        (match GoMap.get u rule.Id with
        | some nr =>
          if nr.NewRevision = rule.Revision then none
          else some ⟨rule.Revision, nr.NewRevision⟩
        | none => none) ∧
      GoMap.get (diffOldRule (u, d) rule).2 rule.Id =
        (match GoMap.get u rule.Id with
        | some _ => GoMap.get d rule.Id
        | none => some rule.Revision) := by
  unfold diffOldRule
  cases hg : GoMap.get u rule.Id with
  | none => simp [get_set, hg]
  | some nr =>
    by_cases hr : nr.NewRevision = rule.Revision
    · simp [hr, get_delete]
    · simp [hr, get_set]

theorem foldl_old_get (rules : List Rule) (hnd : (rules.map Rule.Id).Nodup) :
    ∀ (u : GoMap String RevisionChange) (d : GoMap String String) (id : String),
      GoMap.get (rules.foldl diffOldRule (u, d)).1 id =
          (match revisionIn rules id, GoMap.get u id with
          | some r, some nr => if nr.NewRevision = r then none else some ⟨r, nr.NewRevision⟩
          | _, x => x) ∧
        GoMap.get (rules.foldl diffOldRule (u, d)).2 id =
          (match revisionIn rules id, GoMap.get u id with
          | some r, none => some r
          | _, _ => GoMap.get d id) := by
  induction rules with
  | nil =>
    intro u d id
    simp only [List.foldl_nil, revisionIn]
    constructor <;> cases GoMap.get u id <;> trivial
  | cons rule rest ih =>
    intro u d id
    simp only [List.map_cons, List.nodup_cons] at hnd
    rw [List.foldl_cons]
    have hih := ih hnd.2 (diffOldRule (u, d) rule).1 (diffOldRule (u, d) rule).2 id
    rw [hih.1, hih.2]
    by_cases h : rule.Id = id
    · subst h
      obtain ⟨h1, h2⟩ := diffOldRule_same u d rule
      rw [revisionOf_not_mem rest rule.Id hnd.1, h1, h2]
      simp only [revisionIn, if_true]
      cases hg : GoMap.get u rule.Id with
      | none => simp
      | some nr =>
        by_cases hr : nr.NewRevision = rule.Revision <;> simp [hr]
    · obtain ⟨h1, h2⟩ := diffOldRule_other u d rule id h
      rw [h1, h2]
      simp only [revisionIn, h, if_false]
      exact ⟨trivial, trivial⟩

/-! ### No key twice -/

theorem delete_nodup {κ α : Type} [DecidableEq κ] (m : GoMap κ α) (k : κ)
    (h : (m.map Prod.fst).Nodup) : ((GoMap.delete m k).map Prod.fst).Nodup :=
  h.sublist ((List.filter_sublist m).map Prod.fst)

theorem not_mem_delete {κ α : Type} [DecidableEq κ] (m : GoMap κ α) (k : κ) :
    k ∉ (GoMap.delete m k).map Prod.fst := by
  simp [GoMap.delete, List.mem_filter]

theorem set_nodup {κ α : Type} [DecidableEq κ] (m : GoMap κ α) (k : κ) (v : α)
    (h : (m.map Prod.fst).Nodup) : ((GoMap.set m k v).map Prod.fst).Nodup := by
  unfold GoMap.set
  rw [List.map_append, List.nodup_append]
  refine ⟨delete_nodup m k h, by simp, ?_⟩
  intro a ha hb
  simp only [List.map_cons, List.map_nil, List.mem_singleton] at hb
  subst hb
  exact not_mem_delete m a ha

theorem foldl_new_nodup (rules : List Rule) :
    ∀ (m : GoMap String RevisionChange), (m.map Prod.fst).Nodup →
      ((rules.foldl (fun m rule => GoMap.set m rule.Id ⟨"", rule.Revision⟩) m).map
        Prod.fst).Nodup := by
  induction rules with
  | nil => intro m h; exact h
  | cons rule rest ih =>
    intro m h
    rw [List.foldl_cons]
    exact ih _ (set_nodup m _ _ h)

theorem diffOldRule_nodup (u : GoMap String RevisionChange) (d : GoMap String String)
    (rule : Rule) (hu : (u.map Prod.fst).Nodup) (hd : (d.map Prod.fst).Nodup) :
    ((diffOldRule (u, d) rule).1.map Prod.fst).Nodup ∧
      ((diffOldRule (u, d) rule).2.map Prod.fst).Nodup := by
  unfold diffOldRule
  cases hg : GoMap.get u rule.Id with
  | none => exact ⟨hu, set_nodup d _ _ hd⟩
  | some nr =>
    by_cases hr : nr.NewRevision = rule.Revision
    · simp only [hr, if_true]
      exact ⟨delete_nodup u _ hu, hd⟩
    · simp only [hr, if_false]
      exact ⟨set_nodup u _ _ hu, hd⟩

theorem foldl_old_nodup (rules : List Rule) :
    ∀ (u : GoMap String RevisionChange) (d : GoMap String String),
      (u.map Prod.fst).Nodup → (d.map Prod.fst).Nodup →
      ((rules.foldl diffOldRule (u, d)).1.map Prod.fst).Nodup ∧
        ((rules.foldl diffOldRule (u, d)).2.map Prod.fst).Nodup := by
  induction rules with
  | nil => intro u d hu hd; exact ⟨hu, hd⟩
  | cons rule rest ih =>
    intro u d hu hd
    rw [List.foldl_cons]
    obtain ⟨h1, h2⟩ := diffOldRule_nodup u d rule hu hd
    exact ih _ _ h1 h2

/-! ### The fields after `InitByGetQuotaRequest` -/

theorem InitByGetQuotaRequest_fields {κ : Type}
    (BuildControlParam : QuotaRequestImpl → κ → ControlParam → ControlParam)
    (cl : CommonRateLimitRequest) (request : QuotaRequestImpl) (cfg : κ) :
    (cl.InitByGetQuotaRequest BuildControlParam request cfg).ControlParam.MaxRetry =
        (if (BuildControlParam request cfg cl.ControlParam).MaxRetry > 2 then 2
          else (BuildControlParam request cfg cl.ControlParam).MaxRetry) ∧
      (cl.InitByGetQuotaRequest BuildControlParam request cfg).ControlParam.RetryInterval =
        (if (BuildControlParam request cfg cl.ControlParam).RetryInterval > Millisecond * 500
          then Millisecond * 500
          else (BuildControlParam request cfg cl.ControlParam).RetryInterval) ∧
      (cl.InitByGetQuotaRequest BuildControlParam request cfg).ControlParam.Timeout =
        (if (BuildControlParam request cfg cl.ControlParam).Timeout > Millisecond * 500
          then Millisecond * 500
          else (BuildControlParam request cfg cl.ControlParam).Timeout) ∧
      (cl.InitByGetQuotaRequest BuildControlParam request cfg).Token =
        (if request.Token = 0 then 1 else request.Token) := by
  have hcl : (cl.clearValues).ControlParam = cl.ControlParam := rfl
  generalize hb : BuildControlParam request cfg cl.ControlParam = b
  obtain ⟨mr, ri, tmo⟩ := b
  unfold CommonRateLimitRequest.InitByGetQuotaRequest
  simp only [hcl, hb]
  by_cases c1 : mr > 2 <;> by_cases c2 : ri > Millisecond * 500 <;>
    by_cases c3 : tmo > Millisecond * 500 <;> by_cases c4 : request.Token = 0 <;>
    simp [c1, c2, c3, c4]

/-! ### The two parts of `calcRateLimitDiffInfo` -/

theorem updatedOfNew_spec (newRule : Option (List Rule)) (hnew : distinctIds newRule)
    (id : String) :
    ((updatedOfNew newRule).map Prod.fst).Nodup ∧
      GoMap.get (updatedOfNew newRule) id =
        (revisionOf newRule id).map (fun r => ⟨"", r⟩) := by
  cases newRule with
  | none => exact ⟨List.nodup_nil, rfl⟩
  | some rules =>
    refine ⟨foldl_new_nodup rules [] List.nodup_nil, ?_⟩
    have h := foldl_new_get rules hnew [] id
    rw [revisionOf_some]
    unfold updatedOfNew
    rw [h]
    cases revisionIn rules id <;> rfl

theorem diffOfOld_spec (oldRule : Option (List Rule)) (hold : distinctIds oldRule)
    (u0 : GoMap String RevisionChange) (hnd0 : (u0.map Prod.fst).Nodup) (id : String)
    (rn : Option String) (hget0 : GoMap.get u0 id = rn.map (fun r => ⟨"", r⟩)) :
    GoMap.get (diffOfOld oldRule u0).2 id = deletedAt (revisionOf oldRule id) rn ∧
      GoMap.get (diffOfOld oldRule u0).1 id = updatedAt rn (revisionOf oldRule id) ∧
      ((diffOfOld oldRule u0).2.map Prod.fst).Nodup ∧
      ((diffOfOld oldRule u0).1.map Prod.fst).Nodup := by
  cases oldRule with
  | none =>
    rw [revisionOf_none]
    refine ⟨?_, ?_, List.nodup_nil, hnd0⟩
    · cases rn <;> rfl
    · show GoMap.get u0 id = _
      rw [hget0]
      cases rn <;> rfl
  | some rules =>
    obtain ⟨h1, h2⟩ := foldl_old_get rules hold u0 [] id
    obtain ⟨n1, n2⟩ := foldl_old_nodup rules u0 [] hnd0 List.nodup_nil
    rw [revisionOf_some]
    refine ⟨?_, ?_, n2, n1⟩
    · show GoMap.get (rules.foldl diffOldRule (u0, [])).2 id = _
      rw [h2, hget0]
      cases revisionIn rules id <;> cases rn <;> rfl
    · show GoMap.get (rules.foldl diffOldRule (u0, [])).1 id = _
      rw [h1, hget0]
      cases revisionIn rules id <;> cases rn <;> simp [updatedAt]

end Polaris

namespace Hessian

/-! ## The claims -/

/-- C1. Depth coercion: for every value `x` of a type `T` that is not a pointer
(the primitive types among them) and every settable destination of type `**T` in
a well-formed memory, whatever the destination holds, `SetValue` returns, and
afterwards the destination is non-nil at both levels and dereferencing it twice
yields `x`. -/
theorem C1_depth_coercion (fp : FloatOps) (m : Mem) (T : GoType) (x : GoVal) (a : Nat)
    (hT : T.kind ≠ Kind.Ptr) (hwf : m.WF) (ha : m.typeAt a = some (.ptr (.ptr T))) :
    ∃ mf a1 a2,
      SetValue fp (.ref (.ptr (.ptr T)) a false) (ValueOf (some (T, x))) m = .ok () mf ∧
      mf.load a = some (.ptr (some a1)) ∧ mf.load a1 = some (.ptr (some a2)) ∧
      mf.load a2 = some x := by
  obtain ⟨r, k, hroot⟩ := rootAt_of_WF (n := 2) hwf ha
  have hh : ptrN 0 T ≠ _refHolderPtrType := by
    intro e
    apply hT
    have : T = _refHolderPtrType := e
    rw [this]; rfl
  obtain ⟨mf, cf, hs, _, _, hl, hc⟩ :=
    SetValue_depth fp hT (N := 0) (M := 2) (v := .val T x false) (c := x) (b := x)
      (by decide) hroot (Or.inl rfl) rfl hh
  obtain ⟨a1, x1, rfl, _, hl1, a2, x2, rfl, _, hl2, hx⟩ := hc
  simp only [Chain] at hx
  subst hx
  exact ⟨mf, a1, a2, hs, hl, hl1, hl2⟩

/-- C1 at a concrete input: the integer 7 into a nil destination of type `**int`. -/
theorem C1_depth_coercion_witness :
    ∃ mf a1 a2,
      SetValue exampleFloatOps (.ref (.ptr (.ptr .int)) 0 false)
        (ValueOf (some (.int, .int 7))) ⟨[⟨.ptr (.ptr .int), .ptr none⟩]⟩ = .ok () mf ∧
      mf.load 0 = some (.ptr (some a1)) ∧ mf.load a1 = some (.ptr (some a2)) ∧
      mf.load a2 = some (.int 7) :=
  C1_depth_coercion exampleFloatOps ⟨[⟨.ptr (.ptr .int), .ptr none⟩]⟩ .int (.int 7) 0
    (by decide) (by decide) rfl

/-- C2, counterexample to the claim as stated: an `int` (N = 0) is set into a
destination of type `*int` (M = 1) that already points to a variable.  The value
is not wrapped in a fresh pointer: no variable is allocated, the destination
keeps the pointer it held, and the variable it points to is overwritten. -/
theorem C2_counterexample :
    SetValue exampleFloatOps (.ref (.ptr .int) 0 false) (.val .int (.int 7) false)
        ⟨[⟨.ptr .int, .ptr (some 1)⟩, ⟨.int, .int 3⟩]⟩ =
      .ok () ⟨[⟨.ptr .int, .ptr (some 1)⟩, ⟨.int, .int 7⟩]⟩ ∧
    (Mem.mk [⟨.ptr .int, .ptr (some 1)⟩, ⟨.int, .int 7⟩]).vars.length =
      (Mem.mk [⟨.ptr .int, .ptr (some 1)⟩, ⟨.int, .int 3⟩]).vars.length :=
  ⟨rfl, rfl⟩

/-- C2, amended. Indirection-depth matching: for every value `v` that is not a
reference holder, with `N` pointer levels, all non-nil, over a non-pointer type
`B`, and every settable destination of type `B` under `M ≠ N` pointer levels in
a well-formed memory, `SetValue` returns; with `r` the root addressable value of
the destination (the variable reached through the pointers the destination
already holds) and `k` its depth, the call writes no variable of the memory but
`r`, allocates `k - N` new pointers (none when `N ≥ k`, where `v` is unwrapped
instead), and afterwards the destination is non-nil at its `M` levels and leads
to what `v` leads to. -/
theorem C2_depth_matching (fp : FloatOps) (m : Mem) (B : GoType) (N M a : Nat) (v : RValue)
    (c b : GoVal) (hB : B.kind ≠ Kind.Ptr) (hNM : N ≠ M) (hwf : m.WF)
    (ha : m.typeAt a = some (ptrN M B)) (hv : Holds m v (ptrN N B) c)
    (hc : Chain m B N c b) (hh : ptrN N B ≠ _refHolderPtrType) :
    ∃ r k mf cf, RootAt m B M a r k ∧
      SetValue fp (.ref (ptrN M B) a false) v m = .ok () mf ∧
      mf.vars.length = m.vars.length + (k - N) ∧
      (∀ x, x ≠ r → x < m.vars.length → mf.load x = m.load x) ∧
      mf.load a = some cf ∧ Chain mf B M cf b := by
  obtain ⟨r, k, hroot⟩ := rootAt_of_WF hwf ha
  obtain ⟨mf, cf, h⟩ := SetValue_depth fp hB hNM hroot hv hc hh
  exact ⟨r, k, mf, cf, hroot, h⟩

/-- C2 at a concrete input: a non-nil `*int` into a nil destination of type
`***int`. -/
theorem C2_depth_matching_witness :
    ∃ r k mf cf,
      RootAt ⟨[⟨.ptr (.ptr (.ptr .int)), .ptr none⟩, ⟨.int, .int 7⟩]⟩ .int 3 0 r k ∧
      SetValue exampleFloatOps (.ref (ptrN 3 .int) 0 false)
        (.val (.ptr .int) (.ptr (some 1)) false)
        ⟨[⟨.ptr (.ptr (.ptr .int)), .ptr none⟩, ⟨.int, .int 7⟩]⟩ = .ok () mf ∧
      mf.vars.length =
        (Mem.mk [⟨.ptr (.ptr (.ptr .int)), .ptr none⟩, ⟨.int, .int 7⟩]).vars.length + (k - 1) ∧
      (∀ x, x ≠ r →
        x < (Mem.mk [⟨.ptr (.ptr (.ptr .int)), .ptr none⟩, ⟨.int, .int 7⟩]).vars.length →
        mf.load x =
          (Mem.mk [⟨.ptr (.ptr (.ptr .int)), .ptr none⟩, ⟨.int, .int 7⟩]).load x) ∧
      mf.load 0 = some cf ∧ Chain mf .int 3 cf (.int 7) :=
  C2_depth_matching exampleFloatOps
    ⟨[⟨.ptr (.ptr (.ptr .int)), .ptr none⟩, ⟨.int, .int 7⟩]⟩ .int 1 3 0
    (.val (.ptr .int) (.ptr (some 1)) false) (.ptr (some 1)) (.int 7)
    (by decide) (by decide) (by decide) rfl (Or.inl rfl)
    ⟨1, .int 7, rfl, rfl, rfl, rfl⟩ (by decide)

/-- C3 fails on the code: the value is the nil pointer of type `*int` (N = 1, a
valid Value) and the destination a settable `int` variable holding 5 (M = 0).
The unwrap loop of `SetValue` takes `v.Elem()` without a nil test, `Elem` of
a nil pointer is the zero Value and `dest.Set` panics on it: the call does not
complete, and the destination keeps 5 where the claim has the zero state 0. -/
theorem C3_nil_unwrap_panics :
    (RValue.val (.ptr .int) (.ptr none) false).isValid = true ∧
    (RValue.ref .int 0 false).canSet = true ∧
    zeroOf .int = .int 0 ∧
    SetValue exampleFloatOps (.ref .int 0 false) (.val (.ptr .int) (.ptr none) false)
        ⟨[⟨.int, .int 5⟩]⟩ =
      .panic "reflect: call of reflect.Value.Set on zero Value" ⟨[⟨.int, .int 5⟩]⟩ :=
  ⟨rfl, rfl, rfl, rfl⟩

/-- C4, counterexample to the claim as stated: the decoded integer `int32(1)` is
set into a settable `float64` destination.  `SetValue` calls `v.Float()`, which
panics on a Value of integer kind; nothing is stored.  The same value set into
a settable `uintptr` destination, a kind the switch of `SetValue` does not
list, reaches `dest.Set(v)`, which panics; nothing is stored. -/
theorem C4_counterexample :
    SetValue exampleFloatOps (.ref .float64 0 false) (.val .int32 (.int 1) false)
        ⟨[⟨.float64, .float 0⟩]⟩ =
      .panic "reflect: call of reflect.Value.Float on a Value that is not a float"
        ⟨[⟨.float64, .float 0⟩]⟩ ∧
    SetValue exampleFloatOps (.ref .uintptr 0 false) (.val .int32 (.int 1) false)
        ⟨[⟨.uintptr, .int 0⟩]⟩ =
      .panic "reflect.Set: value is not assignable to the type of the destination"
        ⟨[⟨.uintptr, .int 0⟩]⟩ :=
  ⟨rfl, rfl⟩

/-- C4, amended. Numeric family: for every numeric value `v` of type `vt` and
every settable destination of numeric type `dt` such that `dt` is `vt`, or `v`
is of kind int, int8, int16, int32 or int64 and `dt` of one of these kinds or of
kind uint, uint8, uint16, uint32 or uint64 (not uintptr), or `v` and `dt` are
both of kind float32 or float64 (these are the pairs on which `convertNumeric`
is defined), `SetValue` returns and the destination holds `v` converted to
`dt`. -/
theorem C4_numeric_family (fp : FloatOps) (m : Mem) (v : RValue) (vt dt : GoType)
    (c y : GoVal) (a : Nat) (hv : Holds m v vt c) (ha : m.typeAt a = some dt)
    (hconv : convertNumeric fp vt dt c = some y) :
    SetValue fp (.ref dt a false) v m = .ok () (m.store a y) ∧
      (m.store a y).load a = some y := by
  refine ⟨?_, load_store_same y ha⟩
  unfold convertNumeric at hconv
  by_cases hdv : dt = vt
  · subst hdv
    simp at hconv
    subst hconv
    exact SetValue_same_type fp hv ha
  · simp only [hdv, if_false] at hconv
    cases c with
    | int x =>
      by_cases hvk : validateIntKind vt.kind = true
      · by_cases hdk : validateIntKind dt.kind = true
        · simp [hvk, hdk] at hconv
          subst hconv
          exact SetValue_int_to_int fp hv hvk hdv ha hdk
        · by_cases hdu : validateUintKind dt.kind = true
          · simp [hvk, hdk, hdu] at hconv
            subst hconv
            exact SetValue_int_to_uint fp hv hvk hdv ha hdu
          · simp [hvk, hdk, hdu] at hconv
      · simp [hvk] at hconv
    | float b =>
      by_cases hk : validateFloatKind vt.kind = true ∧ validateFloatKind dt.kind = true
      · simp [hk.1, hk.2] at hconv
        subst hconv
        exact SetValue_float_to_float fp hv hk.1 hdv ha hk.2
      · have : (validateFloatKind vt.kind && validateFloatKind dt.kind) = false := by
          simpa using hk
        simp [this] at hconv
    | _ => simp at hconv

/-- C4 at a concrete input: `int64(-1)` into a `uint16` destination gives 65535. -/
theorem C4_numeric_family_witness :
    SetValue exampleFloatOps (.ref .uint16 0 false) (.val .int64 (.int (-1)) false)
        ⟨[⟨.uint16, .int 0⟩]⟩ =
      .ok () ((Mem.mk [⟨.uint16, .int 0⟩]).store 0 (.int 65535)) ∧
      ((Mem.mk [⟨.uint16, .int 0⟩]).store 0 (.int 65535)).load 0 = some (.int 65535) :=
  C4_numeric_family exampleFloatOps ⟨[⟨.uint16, .int 0⟩]⟩ (.val .int64 (.int (-1)) false)
    .int64 .uint16 (.int (-1)) (.int 65535) 0 (Or.inl rfl) rfl rfl

/-- C5, counterexample to the claim as stated: the `float64` 1.5 (bit pattern
`0x3FF8000000000000`) is set into a settable `int` destination holding 0.
`SetValue` calls `v.Int()`, which panics on a Value of float kind; the
destination does not receive the truncated 1. -/
theorem C5_counterexample :
    SetValue exampleFloatOps (.ref .int 0 false) (.val .float64 (.float 4609434218613702656) false)
        ⟨[⟨.int, .int 0⟩]⟩ =
      .panic "reflect: call of reflect.Value.Int on a Value that is not a signed integer"
        ⟨[⟨.int, .int 0⟩]⟩ :=
  rfl

/-- C5, amended. For every value `v` of a floating-point kind and every settable
destination of a signed or unsigned integer kind, `SetValue` truncates nothing:
the call stops in `v.Int()` before the destination is written, and the memory
is as before. -/
theorem C5_float_to_integer (fp : FloatOps) (m : Mem) (v : RValue) (vt dt : GoType) (a : Nat)
    (hv : v.typeOf? = some vt) (hvk : validateFloatKind vt.kind = true)
    (hdk : validateIntKind dt.kind = true ∨ validateUintKind dt.kind = true) :
    ∃ msg, SetValue fp (.ref dt a false) v m = .panic msg m := by
  have hne := float_int_ne hvk hdk
  have hdp : dt.kind ≠ Kind.Ptr := by
    rcases hdk with h | h
    · exact int_kind_ne_ptr h
    · exact uint_kind_ne_ptr h
  rw [SetValue_switch fp (.ref dt a false) rfl hv hdp (float_kind_ne_ptr hvk) hne]
  have hp := float_int_panics hv hvk m
  refine ⟨"reflect: call of reflect.Value.Int on a Value that is not a signed integer", ?_⟩
  cases hk : dt.kind <;> simp [validateIntKind, validateUintKind, hk] at hdk <;>
    simp [hp]

/-- C5 at a concrete input: a `float32` into a `uint8` destination. -/
theorem C5_float_to_integer_witness :
    ∃ msg, SetValue exampleFloatOps (.ref .uint8 0 false) (.val .float32 (.float 0) false)
      ⟨[⟨.uint8, .int 9⟩]⟩ = .panic msg ⟨[⟨.uint8, .int 9⟩]⟩ :=
  C5_float_to_integer exampleFloatOps ⟨[⟨.uint8, .int 9⟩]⟩ (.val .float32 (.float 0) false)
    .float32 .uint8 0 rfl rfl (Or.inr rfl)

/-- C6, counterexample to the claim as stated: the signed integer `int32(1)` is
set into a settable integer destination of type `uintptr`.  The switch of
`SetValue` has no case for the kind uintptr, so the call reaches `dest.Set(v)`,
which panics; the destination keeps 0. -/
theorem C6_counterexample :
    SetValue exampleFloatOps (.ref .uintptr 0 false) (.val .int32 (.int 1) false)
        ⟨[⟨.uintptr, .int 0⟩]⟩ =
      .panic "reflect.Set: value is not assignable to the type of the destination"
        ⟨[⟨.uintptr, .int 0⟩]⟩ :=
  rfl

/-- C6, amended. Integer narrowing without overflow check: for every signed
integer Value `v` holding `x` and every settable destination of another type
`dt` of integer kind, with `w` the bit width of `dt`: when `dt` is of kind int,
int8, int16, int32 or int64, `SetValue` returns and the destination holds `x`
wrapped to `w` bits in two's complement (the integer of `[-2^(w-1), 2^(w-1))`
congruent to `x` modulo `2^w`); when `dt` is of kind uint, uint8, uint16, uint32
or uint64, `SetValue` returns and the destination holds `x mod 2^w`, which is
not negative; when `dt` is of kind uintptr, `SetValue` panics and the memory is
as before. -/
theorem C6_integer_narrowing (fp : FloatOps) (m : Mem) (v : RValue) (vt dt : GoType)
    (x : Int) (a : Nat) (hv : Holds m v vt (.int x)) (hvk : validateIntKind vt.kind = true)
    (hne : dt ≠ vt) (ha : m.typeAt a = some dt) :
    (validateIntKind dt.kind = true →
      ∃ y, SetValue fp (.ref dt a false) v m = .ok () (m.store a (.int y)) ∧
        (m.store a (.int y)).load a = some (.int y) ∧ y = wrapSigned dt.kind.bits x ∧
        -(2 : Int) ^ (dt.kind.bits - 1) ≤ y ∧ y < (2 : Int) ^ (dt.kind.bits - 1) ∧
        (y - x) % (2 : Int) ^ dt.kind.bits = 0) ∧
    (validateUintKind dt.kind = true →
      SetValue fp (.ref dt a false) v m = .ok () (m.store a (.int (x % 2 ^ dt.kind.bits))) ∧
        (m.store a (.int (x % 2 ^ dt.kind.bits))).load a = some (.int (x % 2 ^ dt.kind.bits)) ∧
        0 ≤ x % (2 : Int) ^ dt.kind.bits) ∧
    (dt.kind = Kind.Uintptr → ∃ msg, SetValue fp (.ref dt a false) v m = .panic msg m) := by
  refine ⟨?_, ?_, ?_⟩
  · intro hdk
    obtain ⟨h1, h2, h3⟩ := wrapSigned_spec dt.kind.bits (int_bits_pos hdk) x
    exact ⟨_, SetValue_int_to_int fp hv hvk hne ha hdk, load_store_same _ ha, rfl, h1, h2, h3⟩
  · intro hdk
    refine ⟨SetValue_int_to_uint fp hv hvk hne ha hdk, load_store_same _ ha, ?_⟩
    exact Int.emod_nonneg _ (by positivity)
  · intro hdk
    have hkne : dt.kind ≠ vt.kind := by
      intro e
      rw [← e, hdk] at hvk
      simp [validateIntKind] at hvk
    have hp := set_panics_of_kind dt (holds_typeOf hv) hkne (by rw [hdk]; decide) a m
    rw [SetValue_switch fp (.ref dt a false) rfl (holds_typeOf hv) (by rw [hdk]; decide)
      (int_kind_ne_ptr hvk) hne, hdk]
    show ∃ msg, (RValue.ref dt a false).set v m = .panic msg m
    cases hr : (RValue.ref dt a false).set v m with
    | ok u m1 => simp [Res.panicsAt, hr] at hp
    | panic msg m1 =>
      simp only [Res.panicsAt, hr] at hp
      exact ⟨msg, by rw [hp]⟩
    | stuck => simp [Res.panicsAt, hr] at hp

/-- C6 at a concrete input: `int64(300)` into an `int8` destination. -/
theorem C6_integer_narrowing_witness :
    (validateIntKind GoType.int8.kind = true →
      ∃ y, SetValue exampleFloatOps (.ref .int8 0 false) (.val .int64 (.int 300) false)
          ⟨[⟨.int8, .int 0⟩]⟩ = .ok () ((Mem.mk [⟨.int8, .int 0⟩]).store 0 (.int y)) ∧
        ((Mem.mk [⟨.int8, .int 0⟩]).store 0 (.int y)).load 0 = some (.int y) ∧
        y = wrapSigned GoType.int8.kind.bits 300 ∧
        -(2 : Int) ^ (GoType.int8.kind.bits - 1) ≤ y ∧ y < (2 : Int) ^ (GoType.int8.kind.bits - 1) ∧
        (y - 300) % (2 : Int) ^ GoType.int8.kind.bits = 0) ∧
    (validateUintKind GoType.int8.kind = true →
      SetValue exampleFloatOps (.ref .int8 0 false) (.val .int64 (.int 300) false)
          ⟨[⟨.int8, .int 0⟩]⟩ =
        .ok () ((Mem.mk [⟨.int8, .int 0⟩]).store 0 (.int (300 % 2 ^ GoType.int8.kind.bits))) ∧
        ((Mem.mk [⟨.int8, .int 0⟩]).store 0 (.int (300 % 2 ^ GoType.int8.kind.bits))).load 0 =
          some (.int (300 % 2 ^ GoType.int8.kind.bits)) ∧
        0 ≤ (300 : Int) % (2 : Int) ^ GoType.int8.kind.bits) ∧
    (GoType.int8.kind = Kind.Uintptr →
      ∃ msg, SetValue exampleFloatOps (.ref .int8 0 false) (.val .int64 (.int 300) false)
        ⟨[⟨.int8, .int 0⟩]⟩ = .panic msg ⟨[⟨.int8, .int 0⟩]⟩) :=
  C6_integer_narrowing exampleFloatOps ⟨[⟨.int8, .int 0⟩]⟩ (.val .int64 (.int 300) false)
    .int64 .int8 300 0 (Or.inl rfl) rfl (by decide) rfl

/-- C7, counterexample to the claim as stated: the holder is resolved and holds
the string `"a"`, the destination is a settable `string` variable holding `""`.
A slot registered after resolution receives the value immediately: `SetValue`
writes `"a"` to the destination and the pending destinations of the holder stay
empty. -/
theorem C7_counterexample :
    SetValue exampleFloatOps (.ref .string 0 false)
        (.val _refHolderPtrType (.ptr (some 1)) false)
        ⟨[⟨.string, .str []⟩,
          ⟨_refHolderType, .holder [] (.val .string (.str [97]) false) true⟩]⟩ =
      .ok () ⟨[⟨.string, .str [97]⟩,
        ⟨_refHolderType, .holder [] (.val .string (.str [97]) false) true⟩]⟩ :=
  rfl

/-- C7, amended. Deferred assignment: for every Value `v` that is a pointer to a
reference holder and every destination whose type is not `*_refHolder`: when
the holder is not resolved, `SetValue` returns, the holder's pending
destinations are those it had followed by `dest`, once, and no other variable
is written (the destination is not); when the holder is resolved and its value
is not itself a pointer to a holder, nothing is queued and `SetValue(dest, v)`
is `SetValue(dest, value of the holder)`, the destination receiving the value
immediately. -/
theorem C7_deferred_assignment (fp : FloatOps) (m : Mem) (dest v : RValue) (dt : GoType)
    (h : Nat) (ds : List RValue) (hval : RValue) (resolved : Bool)
    (hd : dest.typeOf? = some dt) (hdt : dt ≠ _refHolderPtrType)
    (hv : Holds m v _refHolderPtrType (.ptr (some h)))
    (hh : m.load h = some (.holder ds hval resolved)) :
    (resolved = false →
      ∃ mf, SetValue fp dest v m = .ok () mf ∧
        mf.load h = some (.holder (ds ++ [dest]) hval false) ∧
        mf.vars.length = m.vars.length ∧
        ∀ b, b ≠ h → mf.load b = m.load b) ∧
    (resolved = true → hval.typeOf? ≠ some _refHolderPtrType →
      SetValue fp dest v m = SetValue fp dest hval m) := by
  have hi : v.interface m = .ok (some (_refHolderPtrType, .ptr (some h))) m := by
    rcases hv with rfl | ⟨a, rfl, hl⟩
    · simp [RValue.interface, RValue.read, _refHolderPtrType, GoType.kind]
    · simp [RValue.interface, RValue.read, hl, _refHolderPtrType, GoType.kind]
  have hs : ∀ add : Option Nat → RValue → M Unit,
      SetValueBody fp add dest v m = add (some h) dest m := by
    intro add
    unfold SetValueBody
    simp only [holds_valid hv, Bool.not_true, Bool.false_eq_true, if_false]
    simp [holds_typ hv, typ_of_typeOf hd, hdt, hi, asRefHolder]
  obtain ⟨t, ht⟩ := load_eq_some hh
  have hta : m.typeAt h = some t := by simp [Mem.typeAt, ht]
  constructor
  · rintro rfl
    refine ⟨m.store h (.holder (ds ++ [dest]) hval false), ?_, load_store_same _ hta,
      store_length _ _ _, fun b hb => load_store_other _ (Ne.symm hb)⟩
    rw [SetValue_eq, hs]
    simp [_refHolder.add, hh]
  · rintro rfl hhv
    obtain ⟨k, hk⟩ : ∃ k, m.vars.length = k + 1 := by
      have hlt := typeAt_lt hta
      exact ⟨m.vars.length - 1, by omega⟩
    rw [SetValue_eq, hs, SetValue_eq]
    simp only [_refHolder.add, hh, if_true, hk, SetValueN]
    exact SetValueBody_add fp _ _ dest hhv m

/-- C7 at a concrete input: a holder that is not resolved, with no pending
destination, and a string destination. -/
theorem C7_deferred_assignment_witness :
    (false = false →
      ∃ mf, SetValue exampleFloatOps (.ref .string 0 false)
          (.val _refHolderPtrType (.ptr (some 1)) false)
          ⟨[⟨.string, .str []⟩, ⟨_refHolderType, .holder [] .invalid false⟩]⟩ = .ok () mf ∧
        mf.load 1 = some (.holder ([] ++ [.ref .string 0 false]) .invalid false) ∧
        mf.vars.length =
          (Mem.mk [⟨.string, .str []⟩,
            ⟨_refHolderType, .holder [] .invalid false⟩]).vars.length ∧
        ∀ b, b ≠ 1 → mf.load b =
          (Mem.mk [⟨.string, .str []⟩, ⟨_refHolderType, .holder [] .invalid false⟩]).load b) ∧
    (false = true → RValue.invalid.typeOf? ≠ some _refHolderPtrType →
      SetValue exampleFloatOps (.ref .string 0 false)
          (.val _refHolderPtrType (.ptr (some 1)) false)
          ⟨[⟨.string, .str []⟩, ⟨_refHolderType, .holder [] .invalid false⟩]⟩ =
        SetValue exampleFloatOps (.ref .string 0 false) .invalid
          ⟨[⟨.string, .str []⟩, ⟨_refHolderType, .holder [] .invalid false⟩]⟩) :=
  C7_deferred_assignment exampleFloatOps
    ⟨[⟨.string, .str []⟩, ⟨_refHolderType, .holder [] .invalid false⟩]⟩
    (.ref .string 0 false) (.val _refHolderPtrType (.ptr (some 1)) false) .string 1 []
    .invalid false rfl (by decide) (Or.inl rfl) rfl

/-- C8. Binary special case: for every settable destination of type `[]byte`
and every raw byte sequence `b` given directly or wrapped (in a
`reflect.Value`, in a reference holder), `SetSlice` returns no error and the
destination holds the slice `b` itself: nothing is allocated, no other variable
is written, and the bytes of `b` are those it had. -/
theorem C8_binary_special_case (fp : FloatOps) (m : Mem) (objects : Iface) (b : GoVal)
    (a : Nat) (ha : m.typeAt a = some (.slice .uint8)) (hb : RawBytes m objects b) :
    ∃ mf, SetSlice fp (.ref (.slice .uint8) a false) objects m = .ok none mf ∧
      mf.load a = some b ∧ mf.vars.length = m.vars.length ∧
      (∀ x, x ≠ a → mf.load x = m.load x) ∧
      (∀ base n, b = .slice (some base) n →
        (∀ i, i < n → m.typeAt (base + i) = some .uint8) → mf.elemsOf b = m.elemsOf b) := by
  refine ⟨m.store a b, SetSlice_bytes fp ha hb, load_store_same b ha, store_length _ _ _,
    fun x hx => load_store_other b (Ne.symm hx), ?_⟩
  rintro base n rfl hty
  apply elemsOf_congr
  intro i hi
  apply load_store_other
  intro e
  have := hty i hi
  rw [← e, ha] at this
  simp at this

/-- C8 at a concrete input: the bytes `[1, 2]` wrapped in a `reflect.Value` into
a nil `[]byte` destination. -/
theorem C8_binary_special_case_witness :
    ∃ mf, SetSlice exampleFloatOps (.ref (.slice .uint8) 0 false)
        (some (reflectValueType, .refl (.val (.slice .uint8) (.slice (some 1) 2) false)))
        ⟨[⟨.slice .uint8, .slice none 0⟩, ⟨.uint8, .int 1⟩, ⟨.uint8, .int 2⟩]⟩ = .ok none mf ∧
      mf.load 0 = some (.slice (some 1) 2) ∧
      mf.vars.length =
        (Mem.mk [⟨.slice .uint8, .slice none 0⟩, ⟨.uint8, .int 1⟩, ⟨.uint8, .int 2⟩]).vars.length ∧
      (∀ x, x ≠ 0 → mf.load x =
        (Mem.mk [⟨.slice .uint8, .slice none 0⟩, ⟨.uint8, .int 1⟩, ⟨.uint8, .int 2⟩]).load x) ∧
      (∀ base n, GoVal.slice (some 1) 2 = .slice (some base) n →
        (∀ i, i < n →
          (Mem.mk [⟨.slice .uint8, .slice none 0⟩, ⟨.uint8, .int 1⟩, ⟨.uint8, .int 2⟩]).typeAt
            (base + i) = some .uint8) →
        mf.elemsOf (.slice (some 1) 2) =
          (Mem.mk [⟨.slice .uint8, .slice none 0⟩, ⟨.uint8, .int 1⟩, ⟨.uint8, .int 2⟩]).elemsOf
            (.slice (some 1) 2)) :=
  C8_binary_special_case exampleFloatOps
    ⟨[⟨.slice .uint8, .slice none 0⟩, ⟨.uint8, .int 1⟩, ⟨.uint8, .int 2⟩]⟩
    (some (reflectValueType, .refl (.val (.slice .uint8) (.slice (some 1) 2) false)))
    (.slice (some 1) 2) 0 rfl (Or.inr (Or.inl ⟨_, rfl, Or.inl rfl⟩))

/-- C9, counterexample to the claim as stated: a decoded sequence (an empty
`[]interface{}`) is set into a settable string destination.  The call does not
return an error to its caller, it does not return at all: `SetValue` has no
result and the mismatch is a panic of `reflect.Value.Set`. -/
theorem C9_counterexample :
    SetValue exampleFloatOps (.ref .string 0 false) (.val (.slice .iface) (.slice none 0) false)
        ⟨[⟨.string, .str [104, 105]⟩]⟩ =
      .panic "reflect.Set: value is not assignable to the type of the destination"
        ⟨[⟨.string, .str [104, 105]⟩]⟩ :=
  rfl

/-- C9, amended. Type mismatch is a panic: for every decoded sequence `v` (a
Value of slice or array kind) and every settable destination whose type is a
boolean, numeric, string or struct type `B`, directly or under `M` pointer
levels, in a well-formed memory, `SetValue` does not return: it panics inside
package reflect, and the memory, the destination with it, is as before. -/
theorem C9_type_mismatch_panics (fp : FloatOps) (m : Mem) (v : RValue) (vt B : GoType)
    (M a : Nat) (hv : v.typeOf? = some vt) (hvk : sequenceKind vt.kind = true)
    (hB : plainKind B.kind = true) (hwf : m.WF) (ha : m.typeAt a = some (ptrN M B)) :
    ∃ msg, SetValue fp (.ref (ptrN M B) a false) v m = .panic msg m := by
  rw [← panicsAt_iff]
  have hBp := plain_kind_ne_ptr hB
  have hvp := seq_kind_ne_ptr hvk
  obtain ⟨r, k, hroot⟩ := rootAt_of_WF hwf ha
  have hne : ptrN M B ≠ vt := by
    rintro rfl
    cases M with
    | zero => exact plain_ne_seq hB hvk rfl
    | succ M => exact hvp rfl
  have hBv : B ≠ vt := by
    rintro rfl
    exact plain_ne_seq hB hvk rfl
  have h1 := seq_int_panics hv hvk m
  have h3 := seq_float_panics fp hv hvk m
  rw [SetValue_eq]
  unfold SetValueBody
  simp only [valid_of_typeOf hv, Bool.not_true, Bool.false_eq_true, if_false]
  simp only [typ_of_typeOf hv, typ_ref, bind_run, pure_run, RValue.canSet, Bool.not_false,
    Bool.true_and, beq_iff_eq, hne, if_false, ne_refHolderPtr hvp, UnpackType_base hvp,
    UnpackToRoot_rootAt hBp hroot, UnpackType_ptrN hBp, hBv]
  cases k with
  | zero =>
    have h4 := set_panics_of_kind B hv (plain_ne_seq hB hvk)
      (by intro e; rw [e] at hB; simp [plainKind] at hB) r m
    simp only [ptrN]
    cases hk : B.kind <;> simp [plainKind, hk] at hB <;> simp [h1, h3, h4]
  | succ k =>
    have h5 := SetValueToPtrDest_seq_panics fp (T := ptrN k B) hv hvk r m
    simpa [ptrN, GoType.kind] using h5

/-- C9 at a concrete input: an empty `[]interface{}` into a nil destination of
type `*int32`. -/
theorem C9_type_mismatch_panics_witness :
    ∃ msg, SetValue exampleFloatOps (.ref (ptrN 1 .int32) 0 false)
      (.val (.slice .iface) (.slice none 0) false) ⟨[⟨.ptr .int32, .ptr none⟩]⟩ =
        .panic msg ⟨[⟨.ptr .int32, .ptr none⟩]⟩ :=
  C9_type_mismatch_panics exampleFloatOps ⟨[⟨.ptr .int32, .ptr none⟩]⟩
    (.val (.slice .iface) (.slice none 0) false) (.slice .iface) .int32 1 0
    rfl rfl rfl (by decide) rfl

/-- C10, the code at the failing input: the decoded list `[]interface{}{int32(1)}`
is converted to the type `[]uint32`.  `int32(1)` can be coerced to `uint32`:
`SetValue` stores 1 in a `uint32` destination (second part), and the same list
converts to `[]int64` as the claim says (third part).  But for an unsigned
element type `ConvertSliceValueType` reads the item with `itemValue.Uint()`,
which panics on a signed integer (first part): no slice is returned. -/
theorem C10_signed_item_unsigned_element :
    ConvertSliceValueType exampleFloatOps (.slice .uint32)
        (.val (.slice .iface) (.slice (some 0) 1) false)
        ⟨[⟨.iface, .iface (some (.int32, .int 1))⟩]⟩ =
      .panic "reflect: call of reflect.Value.Uint on a Value that is not an unsigned integer"
        ⟨[⟨.iface, .iface (some (.int32, .int 1))⟩, ⟨.uint32, .int 0⟩]⟩ ∧
    SetValue exampleFloatOps (.ref .uint32 1 false) (ValueOf (some (.int32, .int 1)))
        ⟨[⟨.iface, .iface (some (.int32, .int 1))⟩, ⟨.uint32, .int 0⟩]⟩ =
      .ok () ⟨[⟨.iface, .iface (some (.int32, .int 1))⟩, ⟨.uint32, .int 1⟩]⟩ ∧
    ConvertSliceValueType exampleFloatOps (.slice .int64)
        (.val (.slice .iface) (.slice (some 0) 1) false)
        ⟨[⟨.iface, .iface (some (.int32, .int 1))⟩]⟩ =
      .ok (.val (.slice .int64) (.slice (some 1) 1) false, none)
        ⟨[⟨.iface, .iface (some (.int32, .int 1))⟩, ⟨.int64, .int 1⟩]⟩ :=
  ⟨rfl, rfl, rfl⟩

/-- C11, the claim as stated fails: on the one-byte slice `[1]` of capacity one
every fixed-width unpack operation panics with a slice-bounds run-time error;
its result type has no error to report. -/
theorem C11_counterexample :
    UnpackInt16 ⟨[1], 1⟩ =
      .panic "runtime error: slice bounds out of range [:2] with capacity 1" ∧
    UnpackUint16 ⟨[1], 1⟩ =
      .panic "runtime error: slice bounds out of range [:2] with capacity 1" ∧
    UnpackInt32 ⟨[1], 1⟩ =
      .panic "runtime error: slice bounds out of range [:4] with capacity 1" ∧
    UnpackInt64 ⟨[1], 1⟩ =
      .panic "runtime error: slice bounds out of range [:8] with capacity 1" ∧
    UnpackFloat64 ⟨[1], 1⟩ =
      .panic "runtime error: slice bounds out of range [:8] with capacity 1" := by
  refine ⟨?_, ?_, ?_, ?_, ?_⟩ <;> rfl

/-- C11, amended. Truncated input: for every byte slice, the shorter ones among
them, a fixed-width unpack operation of width `w` (2 for `UnpackInt16` and
`UnpackUint16`, 4 for `UnpackInt32`, 8 for `UnpackInt64` and `UnpackFloat64`)
panics with the slice-bounds run-time error when the capacity of the slice is
below `w`, and otherwise returns the number written, most significant byte
first, by the first `w` bytes of the backing array, whatever the length of the
slice; no outcome is an error returned to the caller. -/
theorem C11_truncated_input (b : ByteSlice) :
    UnpackInt16 b =
      (if b.cap < 2 then .panic (sliceBoundsMsg 2 b.cap)
       else .ret (wrapSigned 16 (bigEndianValue (b.array.take 2)))) ∧
    UnpackUint16 b =
      (if b.cap < 2 then .panic (sliceBoundsMsg 2 b.cap)
       else .ret (bigEndianValue (b.array.take 2))) ∧
    UnpackInt32 b =
      (if b.cap < 4 then .panic (sliceBoundsMsg 4 b.cap)
       else .ret (wrapSigned 32 (bigEndianValue (b.array.take 4)))) ∧
    UnpackInt64 b =
      (if b.cap < 8 then .panic (sliceBoundsMsg 8 b.cap)
       else .ret (wrapSigned 64 (bigEndianValue (b.array.take 8)))) ∧
    UnpackFloat64 b =
      (if b.cap < 8 then .panic (sliceBoundsMsg 8 b.cap)
       else .ret (bigEndianValue (b.array.take 8))) := by
  refine ⟨?_, ?_, ?_, ?_, ?_⟩
  · by_cases h : b.cap < 2
    · rw [if_pos h, UnpackInt16, upTo_short b 2 h]
    · rw [if_neg h, UnpackInt16, upTo_long b 2 h]
      obtain ⟨arr, len⟩ := b
      rcases arr with _ | ⟨x0, _ | ⟨x1, r⟩⟩
      · simp [ByteSlice.cap] at h
      · simp [ByteSlice.cap] at h
      · simp only [BigEndian.Uint16, bigEndianValue, List.take_succ_cons, List.take_zero,
          List.foldl, List.getD_cons_zero, List.getD_cons_succ]
        rw [show x1 + x0 * 2 ^ 8 = (0 * 256 + x0) * 256 + x1 by ring]
  · by_cases h : b.cap < 2
    · rw [if_pos h, UnpackUint16, upTo_short b 2 h]
    · rw [if_neg h, UnpackUint16, upTo_long b 2 h]
      obtain ⟨arr, len⟩ := b
      rcases arr with _ | ⟨x0, _ | ⟨x1, r⟩⟩
      · simp [ByteSlice.cap] at h
      · simp [ByteSlice.cap] at h
      · simp only [BigEndian.Uint16, bigEndianValue, List.take_succ_cons, List.take_zero,
          List.foldl, List.getD_cons_zero, List.getD_cons_succ]
        rw [show x1 + x0 * 2 ^ 8 = (0 * 256 + x0) * 256 + x1 by ring]
  · by_cases h : b.cap < 4
    · rw [if_pos h, UnpackInt32, upTo_short b 4 h]
    · rw [if_neg h, UnpackInt32, upTo_long b 4 h]
      obtain ⟨arr, len⟩ := b
      rcases arr with _ | ⟨x0, _ | ⟨x1, _ | ⟨x2, _ | ⟨x3, r⟩⟩⟩⟩
      · simp [ByteSlice.cap] at h
      · simp [ByteSlice.cap] at h
      · simp [ByteSlice.cap] at h
      · simp [ByteSlice.cap] at h
      · simp only [BigEndian.Uint32, bigEndianValue, List.take_succ_cons, List.take_zero,
          List.foldl, List.getD_cons_zero, List.getD_cons_succ]
        rw [show x3 + x2 * 2 ^ 8 + x1 * 2 ^ 16 + x0 * 2 ^ 24 =
          (((0 * 256 + x0) * 256 + x1) * 256 + x2) * 256 + x3 by ring]
  · by_cases h : b.cap < 8
    · rw [if_pos h, UnpackInt64, upTo_short b 8 h]
    · rw [if_neg h, UnpackInt64, upTo_long b 8 h]
      simp only [Uint64_take b h]
  · by_cases h : b.cap < 8
    · rw [if_pos h, UnpackFloat64, upTo_short b 8 h]
    · rw [if_neg h, UnpackFloat64, upTo_long b 8 h]
      simp only [Uint64_take b h]

/-- C14. Fixed-width packing: for every `v`, `PackInt16` and `PackUint16` return
exactly 2 bytes, `PackInt32` exactly 4 and `PackInt64` exactly 8; read most
significant byte first they write `v` modulo `2^16`, `2^32` and `2^64`; and
`PackInt32(10) = [0, 0, 0, 10]`, `PackInt64(10) = [0, 0, 0, 0, 0, 0, 0, 10]`. -/
theorem C14_fixed_width_packing (v : Int) :
    ((PackInt16 v).length = 2 ∧ (∀ x ∈ PackInt16 v, x < 256) ∧
      (bigEndianValue (PackInt16 v) : Int) = v % 2 ^ 16) ∧
    ((PackUint16 v).length = 2 ∧ (∀ x ∈ PackUint16 v, x < 256) ∧
      (bigEndianValue (PackUint16 v) : Int) = v % 2 ^ 16) ∧
    ((PackInt32 v).length = 4 ∧ (∀ x ∈ PackInt32 v, x < 256) ∧
      (bigEndianValue (PackInt32 v) : Int) = v % 2 ^ 32) ∧
    ((PackInt64 v).length = 8 ∧ (∀ x ∈ PackInt64 v, x < 256) ∧
      (bigEndianValue (PackInt64 v) : Int) = v % 2 ^ 64) ∧
    PackInt32 10 = [0, 0, 0, 10] ∧ PackInt64 10 = [0, 0, 0, 0, 0, 0, 0, 10] := by
  have h16 : 0 ≤ v % 2 ^ 16 ∧ v % 2 ^ 16 < 2 ^ 16 :=
    ⟨Int.emod_nonneg _ (by norm_num), Int.emod_lt_of_pos _ (by norm_num)⟩
  have h32 : 0 ≤ v % 2 ^ 32 ∧ v % 2 ^ 32 < 2 ^ 32 :=
    ⟨Int.emod_nonneg _ (by norm_num), Int.emod_lt_of_pos _ (by norm_num)⟩
  have h64 : 0 ≤ v % 2 ^ 64 ∧ v % 2 ^ 64 < 2 ^ 64 :=
    ⟨Int.emod_nonneg _ (by norm_num), Int.emod_lt_of_pos _ (by norm_num)⟩
  refine ⟨⟨rfl, ?_, ?_⟩, ⟨rfl, ?_, ?_⟩, ⟨rfl, ?_, ?_⟩, ⟨rfl, ?_, ?_⟩, by decide, by decide⟩
  all_goals
    simp only [PackInt16, PackUint16, PackInt32, PackInt64, BigEndian.PutUint16,
      BigEndian.PutUint32, BigEndian.PutUint64, wrapUnsigned, bigEndianValue, List.foldl,
      List.mem_cons, List.mem_nil_iff, or_false, forall_eq_or_imp, forall_eq]
  all_goals norm_num
  all_goals omega

end Hessian

namespace Polaris

/-- C16. Delay bucketing: for every non-negative delay `d`, `GetApiDelayRange`
returns `ApiDelayBelow50` when `d < 50ms`, `ApiDelayBelow100` when
`50ms ≤ d < 100ms`, `ApiDelayBelow150` when `100ms ≤ d < 150ms`,
`ApiDelayBelow200` when `150ms ≤ d < 200ms` and `ApiDelayOver200` when
`d ≥ 200ms`; it does not return `ApiDelayMax`. -/
theorem C16_delay_buckets (d : Int) (h : 0 ≤ d) :
    (d < 50 * Millisecond → GetApiDelayRange d = ApiDelayBelow50) ∧
    (50 * Millisecond ≤ d → d < 100 * Millisecond → GetApiDelayRange d = ApiDelayBelow100) ∧
    (100 * Millisecond ≤ d → d < 150 * Millisecond → GetApiDelayRange d = ApiDelayBelow150) ∧
    (150 * Millisecond ≤ d → d < 200 * Millisecond → GetApiDelayRange d = ApiDelayBelow200) ∧
    (200 * Millisecond ≤ d → GetApiDelayRange d = ApiDelayOver200) ∧
    GetApiDelayRange d ≠ ApiDelayMax := by
  have key : GetApiDelayRange d = (if d > 200000000 then 200000000 else d) / 50000000 := by
    simp only [GetApiDelayRange, maxTimeRange, timeRange, Millisecond]
    norm_num
    apply Int.tdiv_eq_ediv
    · split_ifs <;> omega
    · norm_num
  rw [key]
  simp only [Millisecond, ApiDelayBelow50, ApiDelayBelow100, ApiDelayBelow150,
    ApiDelayBelow200, ApiDelayOver200, ApiDelayMax]
  unfold ApiDelayRange
  refine ⟨?_, ?_, ?_, ?_, ?_, ?_⟩ <;> intros <;> split_ifs <;> omega

/-- C16 at the delay of 75 milliseconds. -/
theorem C16_delay_buckets_witness :
    GetApiDelayRange 75000000 = ApiDelayBelow100 :=
  (C16_delay_buckets 75000000 (by decide)).2.1 (by decide) (by decide)

end Polaris

namespace Polaris

/-- C17. Retry budget: with `MaxRetry = n ≥ 0`, when the first `n + 1`
invocations of `call` fail with a retryable SDK error, and all the more when
every invocation does, `RetrySyncCall` returns after exactly `n + 1` invocations
the response of the last one and an SDK error of code `ErrCodeAPITimeoutError`
whose message reports `n` retries and whose cause is the last error; when the
invocation number `k + 1 ≤ n + 1` succeeds after `k` such failures,
`RetrySyncCall` returns its response and a nil error after exactly `k + 1`
invocations. -/
theorem C17_retry_budget (E : ErrCodes) {α ρ σ : Type} (name : String) (request : α)
    (call : SingleInvoke α ρ σ) (param : ControlParam) (n : Nat) (s : σ)
    (hn : param.MaxRetry = n) :
    ((∀ i, i ≤ n → FailsRetryably E call request (stateAfter call request i s)) →
      RetrySyncCall E name request call param s =
        some (((call request (stateAfter call request n s)).1.1,
            some (NewSDKError E.ErrCodeAPITimeoutError
              (call request (stateAfter call request n s)).1.2 (retryMessage name n))),
          stateAfter call request (n + 1) s)) ∧
    (∀ k, k ≤ n →
      (∀ i, i < k → FailsRetryably E call request (stateAfter call request i s)) →
      (call request (stateAfter call request k s)).1.2 = none →
      RetrySyncCall E name request call param s =
        some (((call request (stateAfter call request k s)).1.1, none),
          stateAfter call request (k + 1) s)) := by
  constructor
  · intro hall
    have h := retryLoop_all_fail E name request call param n (param.MaxRetry + 1).toNat (-1)
      none none s (by omega) (by omega) hall
    rw [RetrySyncCall, h, retryTimeout, hn]
  · intro k hk hall hs
    exact retryLoop_succeeds E name request call param k (param.MaxRetry + 1).toNat (-1)
      none none s (by omega) (by omega) hall hs

/-- C17 with `MaxRetry = 2` on a call that always fails: three invocations, then
the timeout error reporting two retries. -/
theorem C17_retry_budget_witness :
    RetrySyncCall exampleErrCodes "GetInstances" () exampleFailingCall ⟨2, 0, 0⟩ 0 =
      some ((none, some (.sdk 1004 (some (.sdk 7 none "unavailable"))
        "fail to do GetInstances after retry 2 times")), 3) :=
  (C17_retry_budget exampleErrCodes "GetInstances" () exampleFailingCall ⟨2, 0, 0⟩ 2 0 rfl).1
    (fun _ _ => ⟨_, _, rfl, rfl, rfl⟩)

/-- C18, counterexample to the claim as stated, in two cases that are not the
one of an empty instances value under protection, so that the claim has the
value stored and true returned.  With protection on, a value of the instances
type whose concrete type is not `*pb.ServiceInstancesInProto` fails the type
assertion of `SetValue`, which panics.  With protection off, a value whose
concrete type is not the one of the value stored before makes
`atomic.Value.Store` panic.  Nothing is stored in either case. -/
theorem C18_counterexample :
    CacheObject.SetValue 1 ⟨none, true⟩ (.other "*model.Instances" 1 "r1") =
      .panic ("interface conversion: model.RegistryValue is *model.Instances, " ++
        "not *pb.ServiceInstancesInProto") ∧
    CacheObject.SetValue 1 ⟨some (.other "*pb.ServiceRuleInProto" 2 "r1"), false⟩
        (.serviceInstancesInProto 1 ["a"] "r2") =
      .panic "sync/atomic: store of inconsistently typed value into Value" :=
  ⟨rfl, rfl⟩

/-- C18, amended. Push-empty protection: for every cache object and every value
whose concrete type is the one of the value stored before, if any, and is
`*pb.ServiceInstancesInProto` when protection is on and the value is of the
instances type: with `pushEmptyProtection` on, `SetValue` given an instances-type
value with zero instances returns false and leaves the cache object unchanged;
in every other case it stores the value and returns true. -/
theorem C18_push_empty_protection (EventInstances : Nat) (s : CacheObject)
    (v : RegistryValue)
    (hassert : s.pushEmptyProtection = true → v.GetType = EventInstances →
      ∃ typ instances revision, v = .serviceInstancesInProto typ instances revision)
    (hstore : ∀ o, s.value = some o → o.concrete = v.concrete) :
    CacheObject.SetValue EventInstances s v =
      if s.pushEmptyProtection && v.isEmptyInstances EventInstances then .ret (false, s)
      else .ret (true, { s with value := some v }) := by
  have hst : atomicStore s.value v = .ret (some v) := by
    unfold atomicStore
    cases hv : s.value with
    | none => rfl
    | some o => simp [hstore o hv]
  obtain ⟨value, prot⟩ := s
  cases v with
  | serviceInstancesInProto typ instances revision =>
    cases prot <;> by_cases ht : typ = EventInstances <;> cases instances <;>
      simp_all [CacheObject.SetValue, RegistryValue.GetType, RegistryValue.isEmptyInstances]
  | other concrete typ revision =>
    cases prot <;> by_cases ht : typ = EventInstances <;>
      simp_all [CacheObject.SetValue, RegistryValue.GetType, RegistryValue.isEmptyInstances,
        RegistryValue.concrete]

/-- C18 on a cache object with protection on that holds one instance, given a
value of the instances type without instances. -/
theorem C18_push_empty_protection_witness :
    CacheObject.SetValue 1 ⟨some (.serviceInstancesInProto 1 ["a"] "r1"), true⟩
        (.serviceInstancesInProto 1 [] "r2") =
      .ret (false, ⟨some (.serviceInstancesInProto 1 ["a"] "r1"), true⟩) :=
  C18_push_empty_protection 1 ⟨some (.serviceInstancesInProto 1 ["a"] "r1"), true⟩
    (.serviceInstancesInProto 1 [] "r2") (fun _ _ => ⟨_, _, _, rfl⟩)
    (fun o h => by cases h; rfl)

end Polaris

namespace Demo

open Hessian

/-- C15. `SayHello`, for a parser that rejects the empty string as package
`time` does: if `Request["cost"]` is a string that parses as a duration `t`, the
error is nil and the bytes of the response are `Hello, this request cost `
followed by the textual form of `t`; if `cost` is missing, is not a string, or
does not parse as a duration, the response is nil and the error is not. -/
theorem C15_say_hello (T : TimeOps) (req : DubboRequest)
    (hempty : ∃ e, T.ParseDuration [] = .error e) :
    (∀ s t, mapIndex req.Request (bytesOf "cost") = some (.string, .str s) →
      T.ParseDuration s = .ok t →
      SayHello T req =
        (some ⟨bytesOf "Hello, this request cost " ++ T.durationString t⟩, none)) ∧
    (req.Request.lookup (bytesOf "cost") = none → ∃ e, SayHello T req = (none, some e)) ∧
    ((∀ s, mapIndex req.Request (bytesOf "cost") ≠ some (.string, .str s)) →
      ∃ e, SayHello T req = (none, some e)) ∧
    (∀ s e, mapIndex req.Request (bytesOf "cost") = some (.string, .str s) →
      T.ParseDuration s = .error e → SayHello T req = (none, some e)) := by
  obtain ⟨e0, he0⟩ := hempty
  have hnot : (∀ s, mapIndex req.Request (bytesOf "cost") ≠ some (.string, .str s)) →
      assertString (mapIndex req.Request (bytesOf "cost")) = [] := by
    intro h
    generalize mapIndex req.Request (bytesOf "cost") = x at h
    match x, h with
    | none, _ => rfl
    | some (.string, .str s), h => exact absurd rfl (h s)
    | some (.string, .bool _), _ | some (.string, .int _), _ | some (.string, .float _), _
    | some (.string, .ptr _), _ | some (.string, .slice _ _), _ | some (.string, .arr _), _
    | some (.string, .mapv _), _ | some (.string, .iface _), _ | some (.string, .structv _), _
    | some (.string, .refl _), _ | some (.string, .holder _ _ _), _ => rfl
    | some (.bool, _), _ | some (.int, _), _ | some (.int8, _), _ | some (.int16, _), _
    | some (.int32, _), _ | some (.int64, _), _ | some (.uint, _), _ | some (.uint8, _), _
    | some (.uint16, _), _ | some (.uint32, _), _ | some (.uint64, _), _
    | some (.uintptr, _), _ | some (.float32, _), _ | some (.float64, _), _
    | some (.iface, _), _ | some (.struct _, _), _ | some (.named _ _, _), _
    | some (.ptr _, _), _ | some (.slice _, _), _ | some (.array _ _, _), _
    | some (.map _ _, _), _ => rfl
  refine ⟨?_, ?_, ?_, ?_⟩
  · intro s t hs ht
    simp only [SayHello, hs, assertString, ht]
  · intro hl
    refine ⟨e0, ?_⟩
    simp only [SayHello, mapIndex, hl, assertString, he0]
  · intro h
    refine ⟨e0, ?_⟩
    simp only [SayHello, hnot h, he0]
  · intro s e hs he
    simp only [SayHello, hs, assertString, he]

/-- C15 on the request `{"cost": "5s"}`. -/
theorem C15_say_hello_witness :
    SayHello exampleTimeOps ⟨[(bytesOf "cost", some (.string, .str (bytesOf "5s")))]⟩ =
      (some ⟨bytesOf "Hello, this request cost 5s"⟩, none) :=
  (C15_say_hello exampleTimeOps ⟨[(bytesOf "cost", some (.string, .str (bytesOf "5s")))]⟩
    ⟨_, rfl⟩).1 (bytesOf "5s") 5000000000 rfl rfl

end Demo

namespace Hessian

/-- The cases of `SetValueToPtrDest` that convert: for every settable
destination of type `*int8`, `*int16`, `*int32`, `*int64` or `*uint8` and every
value `v` of a signed integer kind, `SetValueToPtrDest` returns and leaves the
destination, still of its own type, holding the address of a new variable of
the pointee type whose content is `v` converted to that type, no other variable
being changed; for a destination of type `*float32` or `*float64` it panics
inside `Value.Float` and nothing is written. -/
theorem SetValueToPtrDest_converts (fp : FloatOps) (m : Mem) (a : Nat) (T vt : GoType)
    (v : RValue) (x : Int) (ha : m.typeAt a = some (.ptr T)) (hv : Holds m v vt (.int x))
    (hk : validateIntKind vt.kind = true) (hx : -2 ^ 63 ≤ x ∧ x < 2 ^ 63) :
    (T ∈ [GoType.int8, .int16, .int32, .int64, .uint8] →
      ∃ mf, SetValueToPtrDest fp (.ref (.ptr T) a false) v m = .ok () mf ∧
        mf.typeAt a = some (.ptr T) ∧ mf.load a = some (.ptr (some m.vars.length)) ∧
        m.typeAt m.vars.length = none ∧ mf.typeAt m.vars.length = some T ∧
        mf.load m.vars.length =
          some (.int (if validateUintKind T.kind then wrapUnsigned T.kind.bits x
            else wrapSigned T.kind.bits x)) ∧
        ∀ b, b ≠ a → b < m.vars.length → mf.load b = m.load b) ∧
    (T ∈ [GoType.float32, .float64] →
      (SetValueToPtrDest fp (.ref (.ptr T) a false) v m).panicsAt m) := by
  have hi := int_holds hv hk
  have hs : (v.kind == Kind.String) = false := by
    rw [holds_kind hv]
    simpa using int_kind_ne_string hk
  constructor
  · intro hT
    simp only [List.mem_cons, List.mem_singleton, List.mem_nil_iff, or_false] at hT
    rcases hT with rfl | rfl | rfl | rfl | rfl
    · rw [show (if validateUintKind GoType.int8.kind then wrapUnsigned GoType.int8.kind.bits x
        else wrapSigned GoType.int8.kind.bits x) = wrapSigned 8 x by
          simp [validateUintKind, GoType.kind, Kind.bits]]
      exact ⟨_, ptrDest_int8 fp ha hi, new_ptr_memory (.int (wrapSigned 8 x)) ha⟩
    · rw [show (if validateUintKind GoType.int16.kind then wrapUnsigned GoType.int16.kind.bits x
        else wrapSigned GoType.int16.kind.bits x) = wrapSigned 16 x by
          simp [validateUintKind, GoType.kind, Kind.bits]]
      exact ⟨_, ptrDest_int16 fp ha hi, new_ptr_memory (.int (wrapSigned 16 x)) ha⟩
    · rw [show (if validateUintKind GoType.int32.kind then wrapUnsigned GoType.int32.kind.bits x
        else wrapSigned GoType.int32.kind.bits x) = wrapSigned 32 x by
          simp [validateUintKind, GoType.kind, Kind.bits]]
      exact ⟨_, ptrDest_int32 fp ha hi hs, new_ptr_memory (.int (wrapSigned 32 x)) ha⟩
    · rw [show (if validateUintKind GoType.int64.kind then wrapUnsigned GoType.int64.kind.bits x
        else wrapSigned GoType.int64.kind.bits x) = x by
          simp [validateUintKind, GoType.kind, Kind.bits, wrapSigned_64 x hx]]
      exact ⟨_, ptrDest_int64 fp ha hi, new_ptr_memory (.int x) ha⟩
    · rw [show (if validateUintKind GoType.uint8.kind then wrapUnsigned GoType.uint8.kind.bits x
        else wrapSigned GoType.uint8.kind.bits x) = wrapUnsigned 8 x by
          simp [validateUintKind, GoType.kind, Kind.bits]]
      exact ⟨_, ptrDest_uint8 fp ha hi, new_ptr_memory (.int (wrapUnsigned 8 x)) ha⟩
  · intro hT
    simp only [List.mem_cons, List.mem_singleton, List.mem_nil_iff, or_false] at hT
    exact ptrDest_float_panics fp hT (int_float_panics fp (holds_typeOf hv) hk m)

/-- C19 fails on the code: the destination is a settable nil pointer of type
`*int` and the value the decoded integer `int32(1)`.  The case of `*int` stores
the address of a variable `vv := v.Int()`, which is of type `*int64`, and
`dest.Set` refuses it for a destination of type `*int`: the call panics, the
destination keeps its nil pointer and the new `int64` variable stays allocated.
For a destination of type `*uint16` the same value is read with `v.Uint()`,
which panics on a signed integer, where the case of `*uint8` reads it with
`v.Int()`; the destination keeps its nil pointer. -/
theorem C19_int_pointer_panics :
    (RValue.ref (.ptr .int) 0 false).canSet = true ∧
    SetValueToPtrDest exampleFloatOps (.ref (.ptr .int) 0 false)
        (ValueOf (some (.int32, .int 1))) ⟨[⟨.ptr .int, .ptr none⟩]⟩ =
      .panic "reflect.Set: value is not assignable to the type of the destination"
        ⟨[⟨.ptr .int, .ptr none⟩, ⟨.int64, .int 1⟩]⟩ ∧
    SetValueToPtrDest exampleFloatOps (.ref (.ptr .uint16) 0 false)
        (ValueOf (some (.int32, .int 1))) ⟨[⟨.ptr .uint16, .ptr none⟩]⟩ =
      .panic "reflect: call of reflect.Value.Uint on a Value that is not an unsigned integer"
        ⟨[⟨.ptr .uint16, .ptr none⟩]⟩ :=
  ⟨rfl, rfl, rfl⟩

/-- C20. A non-sequence into a sequence destination: for every destination of a
slice type whose element type is not of kind byte, and every decoded value,
given directly or in a `reflect.Value`, that is not nil, not a reference holder,
not an interface and neither a slice nor an array (its type is then not the
destination type), `SetSlice` returns a non-nil error and changes no variable:
the destination is left as it was. -/
theorem C20_non_sequence_rejected (fp : FloatOps) (m : Mem) (dest : RValue) (E vt : GoType)
    (objects : Iface) (c : GoVal) (hd : dest.typeOf? = some (.slice E))
    (hE : E.kind ≠ Kind.Uint8) (hv : Holds m (EnsurePackValue objects) vt c)
    (hh : vt ≠ _refHolderPtrType) (hi : vt.kind ≠ Kind.Interface)
    (hs : sequenceKind vt.kind = false) :
    SetSlice fp dest objects m = .ok (some "expect slice type") m := by
  have hne : vt ≠ .slice E := by
    rintro rfl
    simp [GoType.kind, sequenceKind] at hs
  have hks : vt.kind ≠ Kind.Slice := by
    intro e; simp [e, sequenceKind] at hs
  have hka : vt.kind ≠ Kind.Array := by
    intro e; simp [e, sequenceKind] at hs
  have hobj : ∃ t y, objects = some (t, y) := by
    cases objects with
    | none =>
      rcases hv with h | ⟨a, h, _⟩ <;> simp [EnsurePackValue, asReflectValue, ValueOf] at h
    | some p => exact ⟨p.1, p.2, rfl⟩
  obtain ⟨t, y, rfl⟩ := hobj
  have hnr : asRefHolder (some (t, y)) = none := by
    cases y with
    | ptr p =>
      have ht : t = vt := by
        rcases hv with h | ⟨a, h, _⟩ <;>
          simp [EnsurePackValue, asReflectValue, ValueOf] at h
        exact h.1
      simp [asRefHolder, ht, hh]
    | _ => rfl
  have hdk : dest.ptrDepth = 0 := by
    cases dest <;> simp_all [RValue.typeOf?, RValue.ptrDepth, UnpackType, unpackTypeLoop]
  have hint : (EnsurePackValue (some (t, y))).interface m = .ok (some (vt, c)) m := by
    rcases hv with h | ⟨a, h, hl⟩
    · rw [h]
      simp [RValue.interface, RValue.read, hi]
    · rw [h]
      simp [RValue.interface, RValue.read, hi, hl]
  have hnh : asRefHolder (some (vt, c)) = none := by
    cases c <;> simp [asRefHolder, hh]
  have hcv : ConvertSliceValueType fp (.slice E) (EnsurePackValue (some (t, y))) m =
      .ok (_zeroValue, some "expect slice type") m := by
    simp [ConvertSliceValueType, typ_of_typeOf (holds_typeOf hv), Ne.symm hne, GoType.kind, hks,
      hka]
  simp [SetSlice, UnpackPtrValue, hdk, unpackPtrValueLoop, typ_of_typeOf hd, UnpackPtrType,
    typeElem, GoType.elem?, hE, hnr, hint, hnh, hcv]

/-- C20 at a concrete input: the decoded string `"a"` into a nil `[]int32`
destination. -/
theorem C20_non_sequence_rejected_witness :
    SetSlice exampleFloatOps (.ref (.slice .int32) 0 false) (some (.string, .str [97]))
        ⟨[⟨.slice .int32, .slice none 0⟩]⟩ =
      .ok (some "expect slice type") ⟨[⟨.slice .int32, .slice none 0⟩]⟩ :=
  C20_non_sequence_rejected exampleFloatOps ⟨[⟨.slice .int32, .slice none 0⟩]⟩
    (.ref (.slice .int32) 0 false) .int32 .string (some (.string, .str [97])) (.str [97]) rfl
    (by decide) (Or.inl rfl) (by decide) (by decide) rfl

/-- C13 fails on the code: the destination is a settable `string` variable
holding `"a"` and the value a valid Value, the nil pointer of type `*string`,
one pointer level above the destination.  `SetValue` unpacks the value to the
level of the destination with `v.Elem()`, which is the zero Value for a nil
pointer, and `dest.Set` panics on it: the call does not complete. -/
theorem C13_set_value_panics :
    (RValue.val (.ptr .string) (.ptr none) false).isValid = true ∧
    (RValue.ref .string 0 false).canSet = true ∧
    SetValue exampleFloatOps (.ref .string 0 false) (.val (.ptr .string) (.ptr none) false)
        ⟨[⟨.string, .str [97]⟩]⟩ =
      .panic "reflect: call of reflect.Value.Set on zero Value" ⟨[⟨.string, .str [97]⟩]⟩ :=
  ⟨rfl, rfl, rfl⟩

/-- C12. Request round trip, on the encoder and the decoder modelled from the
specification: after the type `DubboRequest` is registered under a wire type
name, in a registry without two entries of one name, for every request whose
field `Request` is a mapping between primitives that the stream can carry (the
mappings from strings to primitives among them), encoding succeeds and decoding
the bytes produced yields the request itself. -/
theorem C12_request_round_trip (reg0 reg : Registry) (name : List Nat)
    (entries : List (Prim × Prim)) (hwf : reg0.WF) (hname : name.length < 2 ^ 31)
    (hreg : reg0.register name dubboRequestShape = .ok reg)
    (hlen : entries.length < 2 ^ 31)
    (hprim : entries.all (fun e => e.1.wf && e.2.wf) = true) :
    ∃ bytes, encode reg (dubboRequest entries) = .ok bytes ∧
      decode reg bytes = .ok (dubboRequest entries) := by
  obtain ⟨hwf1, hmem⟩ := register_spec reg0 reg name dubboRequestShape hwf hname hreg
  apply decode_encode reg (dubboRequest entries) hwf1 ⟨name, hmem⟩ rfl
  simp only [dubboRequest, List.all_cons, List.all_nil, Bool.and_true, FieldValue.wf,
    Bool.and_eq_true, decide_eq_true_eq]
  exact ⟨hlen, hprim⟩

/-- C12 on the request `{Request: {"cost": "5s"}}`, the type being registered
as `DubboRequest` in the empty registry. -/
theorem C12_request_round_trip_witness :
    ∃ bytes,
      encode [(Demo.bytesOf "DubboRequest", dubboRequestShape)]
          (dubboRequest [(.string (Demo.bytesOf "cost"), .string (Demo.bytesOf "5s"))]) =
        .ok bytes ∧
      decode [(Demo.bytesOf "DubboRequest", dubboRequestShape)] bytes =
        .ok (dubboRequest [(.string (Demo.bytesOf "cost"), .string (Demo.bytesOf "5s"))]) :=
  C12_request_round_trip [] [(Demo.bytesOf "DubboRequest", dubboRequestShape)]
    (Demo.bytesOf "DubboRequest") [(.string (Demo.bytesOf "cost"), .string (Demo.bytesOf "5s"))]
    (by decide) (by decide) rfl (by decide) (by decide)

/-- C21, the claim as stated fails: for the defined type `P` whose underlying
type is `*int`, `UnpackType` returns `int` and depth 1, and `int` under one
pointer level is `*int`, another type than `P`. -/
theorem C21_counterexample :
    UnpackType (.named "P" (.ptr .int)) = (.int, 1) ∧
      ptrN 1 .int ≠ .named "P" (.ptr .int) := by
  decide

/-- C21, amended. For every type `t` with finitely many pointer levels (every
type of the model: a defined pointer type that refers to itself, such as
`type P *P`, on which the loops of `UnpackType` and `UnpackPtrType` never exit,
is left out), `UnpackType(t) = (b, d)` where `b` is not of pointer kind and
equals `UnpackPtrType(t)`, and `d` calls of `Elem`, each on a type of pointer
kind, lead from `t` to `b`; when the pointer levels of `t` are pointer type
literals, `b` under `d` pointer levels is `t`. -/
theorem C21_unpack_type (t : GoType) :
    (UnpackType t).1.kind ≠ Kind.Ptr ∧ (UnpackType t).1 = UnpackPtrType t ∧
      elemTimes (UnpackType t).2 t = some (UnpackType t).1 ∧
      (literalPointers t = true → ptrN (UnpackType t).2 (UnpackType t).1 = t) :=
  ⟨unpackTypeLoop_kind t 0, unpackTypeLoop_ptrType t 0, unpackTypeLoop_elemTimes t,
    literalPointers_ptrN t⟩

/-- C21 at the type `**int`. -/
theorem C21_unpack_type_witness :
    ptrN (UnpackType (.ptr (.ptr .int))).2 (UnpackType (.ptr (.ptr .int))).1 = .ptr (.ptr .int) :=
  (C21_unpack_type (.ptr (.ptr .int))).2.2.2 (by decide)

end Hessian

namespace Polaris

/-- C22. Reduced retry limits: after `InitByGetQuotaRequest`, for every request
and every control parameters built from the request and the configuration,
`MaxRetry` is the built value or 2 if that is less, `RetryInterval` and
`Timeout` the built value or 500ms if that is less, and `Token` the token count
of the request, or 1 for a count of 0; so `MaxRetry ≤ 2`, `RetryInterval ≤
500ms`, `Timeout ≤ 500ms` and `Token ≥ 1`, and values within the limits are
kept. -/
theorem C22_reduced_retry_limits {κ : Type}
    (BuildControlParam : QuotaRequestImpl → κ → ControlParam → ControlParam)
    (cl : CommonRateLimitRequest) (request : QuotaRequestImpl) (cfg : κ) :
    ((cl.InitByGetQuotaRequest BuildControlParam request cfg).ControlParam.MaxRetry =
        min (BuildControlParam request cfg cl.ControlParam).MaxRetry 2 ∧
      (cl.InitByGetQuotaRequest BuildControlParam request cfg).ControlParam.RetryInterval =
        min (BuildControlParam request cfg cl.ControlParam).RetryInterval (500 * Millisecond) ∧
      (cl.InitByGetQuotaRequest BuildControlParam request cfg).ControlParam.Timeout =
        min (BuildControlParam request cfg cl.ControlParam).Timeout (500 * Millisecond) ∧
      (cl.InitByGetQuotaRequest BuildControlParam request cfg).Token =
        if request.Token = 0 then 1 else request.Token) ∧
    (cl.InitByGetQuotaRequest BuildControlParam request cfg).ControlParam.MaxRetry ≤ 2 ∧
    (cl.InitByGetQuotaRequest BuildControlParam request cfg).ControlParam.RetryInterval ≤
      500 * Millisecond ∧
    (cl.InitByGetQuotaRequest BuildControlParam request cfg).ControlParam.Timeout ≤
      500 * Millisecond ∧
    1 ≤ (cl.InitByGetQuotaRequest BuildControlParam request cfg).Token := by
  have hf := InitByGetQuotaRequest_fields BuildControlParam cl request cfg
  obtain ⟨h1, h2, h3, h4⟩ := hf
  rw [h1, h2, h3, h4]
  clear h1 h2 h3 h4
  generalize (BuildControlParam request cfg cl.ControlParam).MaxRetry = mr
  generalize (BuildControlParam request cfg cl.ControlParam).RetryInterval = ri
  generalize (BuildControlParam request cfg cl.ControlParam).Timeout = tmo
  generalize request.Token = tk
  simp only [Millisecond, min_def]
  refine ⟨⟨?_, ?_, ?_, ?_⟩, ?_, ?_, ?_, ?_⟩
  all_goals first
    | trivial
    | (split_ifs <;> first | rfl | omega)

/-- C23. Rule diff: for every old and new rule set, either possibly nil, with
pairwise distinct ids in each, `calcRateLimitDiffInfo` returns two maps without
a common key: `DeletedRules` holds exactly the ids of the old set that the new
set has not, each with its old revision, and `UpdatedRules` exactly the ids of
the new set that the old set has not or has with another revision, each with
the old revision, empty when the old set has not the id, and the new revision
(`deletedAt` and `updatedAt` on the revisions of the id in the two sets); no key
occurs twice in a map. -/
theorem C23_rule_diff (oldRule newRule : Option (List Rule)) (hold : distinctIds oldRule)
    (hnew : distinctIds newRule) (id : String) :
    GoMap.get (calcRateLimitDiffInfo oldRule newRule).DeletedRules id =
        deletedAt (revisionOf oldRule id) (revisionOf newRule id) ∧
      GoMap.get (calcRateLimitDiffInfo oldRule newRule).UpdatedRules id =
        updatedAt (revisionOf newRule id) (revisionOf oldRule id) ∧
      (GoMap.get (calcRateLimitDiffInfo oldRule newRule).DeletedRules id = none ∨
        GoMap.get (calcRateLimitDiffInfo oldRule newRule).UpdatedRules id = none) ∧
      ((calcRateLimitDiffInfo oldRule newRule).DeletedRules.map Prod.fst).Nodup ∧
      ((calcRateLimitDiffInfo oldRule newRule).UpdatedRules.map Prod.fst).Nodup := by
  obtain ⟨hnd0, hget0⟩ := updatedOfNew_spec newRule hnew id
  obtain ⟨hd, hu, hn1, hn2⟩ :=
    diffOfOld_spec oldRule hold (updatedOfNew newRule) hnd0 id (revisionOf newRule id) hget0
  have hD : (calcRateLimitDiffInfo oldRule newRule).DeletedRules =
      (diffOfOld oldRule (updatedOfNew newRule)).2 := rfl
  have hU : (calcRateLimitDiffInfo oldRule newRule).UpdatedRules =
      (diffOfOld oldRule (updatedOfNew newRule)).1 := rfl
  rw [hD, hU]
  refine ⟨hd, hu, ?_, hn1, hn2⟩
  rw [hd, hu]
  cases revisionOf oldRule id <;> cases revisionOf newRule id <;> simp [deletedAt, updatedAt]

/-- C23 on an old set with the rules `a` and `b` and a new set with the rule
`b`, at another revision, and the rule `c`, asked for `b`. -/
theorem C23_rule_diff_witness :
    GoMap.get (calcRateLimitDiffInfo (some [⟨"a", "1"⟩, ⟨"b", "1"⟩])
        (some [⟨"b", "2"⟩, ⟨"c", "1"⟩])).UpdatedRules "b" = some ⟨"1", "2"⟩ :=
  (C23_rule_diff (some [⟨"a", "1"⟩, ⟨"b", "1"⟩]) (some [⟨"b", "2"⟩, ⟨"c", "1"⟩])
    (by decide) (by decide) "b").2.1

end Polaris
